import Mathlib

/-!
# The JSON writer of ctags (`main/writer-json.c`)

A shallow embedding of `writeJsonEntry` and `writeJsonPtagEntry` together with the
helpers they call, followed by the properties proved about them.

Conventions of the embedding.

* A C string is the list of its bytes before the terminating NUL (`CStr`); a nullable
  `const char *` is an `Option CStr`.
* A nullable `json_t *` is an `Option json_t`.
* A function whose C execution can reach `AssertNotReached ()` or read through a NULL
  pointer returns an `Option`: `none` stands for "no defined result".
* The field registry is global mutable state in C.  Its immutable part (names, data
  types, renderers) is the record `Env`; the `enabled` flags are threaded explicitly
  as a `FieldState`.
-/

namespace WriterJson

/-- A C string: the bytes before the terminating NUL. -/
abbrev CStr := List Nat

/-- The bytes of an ASCII literal. -/
def ascii (s : String) : CStr := s.toList.map Char.toNat

/-! ## The jansson library, as far as the writer uses it -/

/-- A scalar JSON value of jansson (`json_string`, `json_integer`, `json_true`,
`json_false`, `json_null`).  The writer never nests containers, so the members of an
object are scalars. -/
inductive json_t where
  | jstring (value : CStr)
  | jinteger (value : Int)
  | jtrue
  | jfalse
  | jnull
  deriving DecidableEq, Repr

/-- A jansson object: its members in the order of first insertion (the order in which
`json_dumps` with `JSON_PRESERVE_ORDER` writes them). -/
abbrev json_object := List (CStr × json_t)

/-- jansson `utf8_check_first`: the length of the UTF-8 sequence a byte starts,
`0` when the byte cannot start one. -/
def utf8_check_first (u : Nat) : Nat :=
  if u < 0x80 then 1
  else if 0x80 ≤ u ∧ u ≤ 0xBF then 0
  else if u = 0xC0 ∨ u = 0xC1 then 0
  else if 0xC2 ≤ u ∧ u ≤ 0xDF then 2
  else if 0xE0 ≤ u ∧ u ≤ 0xEF then 3
  else if 0xF0 ≤ u ∧ u ≤ 0xF4 then 4
  else 0

/-- One step of the continuation-byte loop of `utf8_check_full`. -/
def utf8_check_cont (acc : Option Nat) (u : Nat) : Option Nat :=
  match acc with
  | none => none
  | some value => if u < 0x80 ∨ u > 0xBF then none else some ((value <<< 6) + (u &&& 0x3F))

/-- jansson `utf8_check_full`: whether the first `size` bytes of `buffer` are one
well-formed multi-byte sequence (continuation bytes, range, surrogates, overlong forms). -/
def utf8_check_full (buffer : CStr) (size : Nat) : Bool :=
  let u := buffer.headD 0
  let first : Option Nat :=
    if size = 2 then some (u &&& 0x1F)
    else if size = 3 then some (u &&& 0xF)
    else if size = 4 then some (u &&& 0x7)
    else none
  match ((buffer.drop 1).take (size - 1)).foldl utf8_check_cont first with
  | none => false
  | some value =>
    if value > 0x10FFFF then false
    else if 0xD800 ≤ value ∧ value ≤ 0xDFFF then false
    else if (size = 2 ∧ value < 0x80) ∨ (size = 3 ∧ value < 0x800)
        ∨ (size = 4 ∧ value < 0x10000) then false
    else true

/-- The loop of jansson `utf8_check_string`; `fuel` bounds the number of iterations
(every iteration consumes at least one byte). -/
def utf8_check_from : Nat → CStr → Bool
  | _, [] => true
  | 0, _ :: _ => false
  | fuel + 1, u :: rest =>
    let count := utf8_check_first u
    if count = 0 then false
    else if count > 1 then
      if count > (u :: rest).length then false
      else if utf8_check_full (u :: rest) count = false then false
      else utf8_check_from fuel (rest.drop (count - 1))
    else utf8_check_from fuel rest

/-- jansson `utf8_check_string`: whether a byte string is well-formed UTF-8. -/
def utf8_check_string (s : CStr) : Bool := utf8_check_from s.length s

/-- jansson `json_string`: a new string value, or NULL when the text is not valid UTF-8. -/
def json_string (value : CStr) : Option json_t :=
  if utf8_check_string value then some (json_t.jstring value) else none

/-- jansson `json_integer`. -/
def json_integer (value : Int) : json_t := json_t.jinteger value

/-- jansson `json_boolean`. -/
def json_boolean (val : Bool) : json_t := if val then json_t.jtrue else json_t.jfalse

/-- jansson `hashtable_set` as seen through `JSON_PRESERVE_ORDER`: an existing key keeps
its position and takes the new value, a new key is appended. -/
def hashtable_set : json_object → CStr → json_t → json_object
  | [], key, value => [(key, value)]
  | (k, v) :: rest, key, value =>
    if k = key then (key, value) :: rest else (k, v) :: hashtable_set rest key value

/-- jansson `json_object_set_new`: fails (leaving the object as it is) when the key is
NULL or not valid UTF-8 or the value is NULL.  Every caller in the writer ignores the
returned status, so only the resulting object is modelled. -/
def json_object_set_new (object : json_object) (key : Option CStr) (value : Option json_t) :
    json_object :=
  match key, value with
  | some k, some v => if utf8_check_string k then hashtable_set object k v else object
  | _, _ => object

/-- jansson `json_object_size`. -/
def json_object_size (object : json_object) : Nat := object.length

/-- The member loop of jansson `json_pack` for a format made of `ss` pairs only. -/
def json_pack_members : List (Option CStr × Option CStr) → json_object → Option json_object
  | [], object => some object
  | (some k, some v) :: rest, object =>
    if utf8_check_string k ∧ utf8_check_string v then
      json_pack_members rest (hashtable_set object k (json_t.jstring v))
    else none
  | _ :: _, _ => none

/-- jansson `json_pack` for the formats `"{ss}"`, `"{ss ss ss ss}"`, ...: the object with
the given string members, or NULL when a key or a value is NULL or not valid UTF-8. -/
def json_pack (members : List (Option CStr × Option CStr)) : Option json_object :=
  json_pack_members members []

/-- The upper-case hexadecimal digit of a number below sixteen. -/
def hexDigit (d : Nat) : Nat := if d < 10 then 48 + d else 55 + d

/-- The escape sequence jansson `dump_string` writes for a code point that must be
escaped: a backslash, a double quote or a control character. -/
def dump_escape (codepoint : Nat) : CStr :=
  if codepoint = 92 then [92, 92]
  else if codepoint = 34 then [92, 34]
  else if codepoint = 8 then [92, 98]
  else if codepoint = 12 then [92, 102]
  else if codepoint = 10 then [92, 110]
  else if codepoint = 13 then [92, 114]
  else if codepoint = 9 then [92, 116]
  else [92, 117, 48, 48, hexDigit (codepoint / 16), hexDigit (codepoint % 16)]

/-- The text jansson `dump_string` writes between the quotes (no `JSON_ESCAPE_SLASH`, no
`JSON_ENSURE_ASCII`).  Only bytes below `0x80` are ever escaped, so on the valid UTF-8
that an object holds, working byte by byte equals working code point by code point. -/
def dump_string_body : CStr → CStr
  | [] => []
  | c :: rest =>
    (if c = 92 ∨ c = 34 ∨ c < 0x20 then dump_escape c else [c]) ++ dump_string_body rest

/-- jansson `dump_string`. -/
def dump_string (str : CStr) : CStr := [34] ++ dump_string_body str ++ [34]

/-- Decimal digits of a natural number, most significant first; `fuel` bounds the
number of digits. -/
def decimalDigits : Nat → Nat → CStr
  | 0, _ => []
  | fuel + 1, n => if n < 10 then [48 + n] else decimalDigits fuel (n / 10) ++ [48 + n % 10]

/-- The text of an integer as jansson writes it (`"%lld"`). -/
def dump_integer (value : Int) : CStr :=
  if value < 0 then 45 :: decimalDigits (value.natAbs + 1) value.natAbs
  else decimalDigits (value.toNat + 1) value.toNat

/-- jansson `do_dump` on a scalar. -/
def do_dump : json_t → CStr
  | json_t.jnull => [110, 117, 108, 108]
  | json_t.jtrue => [116, 114, 117, 101]
  | json_t.jfalse => [102, 97, 108, 115, 101]
  | json_t.jinteger value => dump_integer value
  | json_t.jstring value => dump_string value

/-- The members of an object as jansson `do_dump` writes them with neither `JSON_COMPACT`
nor an indentation: `": "` after a key, `", "` between members. -/
def dump_members : json_object → CStr
  | [] => []
  | [(k, v)] => dump_string k ++ [58, 32] ++ do_dump v
  | (k, v) :: m :: rest =>
    dump_string k ++ [58, 32] ++ do_dump v ++ [44, 32] ++ dump_members (m :: rest)

/-- jansson `json_dumps (object, JSON_PRESERVE_ORDER)`. -/
def json_dumps (object : json_object) : CStr :=
  match object with
  | [] => [123, 125]
  | _ :: _ => [123] ++ dump_members object ++ [125]

/-! ## The collaborators of the writer inside ctags -/

/-- A parser-contributed field attached to a tag record (`tagField` of `entry.h`). -/
structure tagField where
  ftype : Nat
  value : Option CStr

/-- The attributes of a tag record that the writer reads itself (`tagEntryInfo` of
`entry.h`); every other attribute reaches the writer through a renderer of `Env`.
`usedParserFields` is the length of `parserFields`. -/
structure tagEntryInfo where
  name : CStr
  sourceFileName : CStr
  lineNumber : Nat
  parserFields : List tagField

/-- The enabled flag of every field, indexed by field identity: the one part of
the field registry that the writer changes. -/
abbrev FieldState := Nat → Bool

/-- Modelled from the spec: the field registry and the option state of ctags
(`field.h`, `field.c`, `options.c`, `routines.c`) are not among the sources.  The record
holds what the writer takes from them: the field identities it names, the data-type
bits, and per field the display name, the data type, the renderers and the
has-value predicate; `strToLong` yields the parsed value when the base-10 parse
succeeds. -/
structure Env where
  FIELD_NAME : Nat
  FIELD_INPUT_FILE : Nat
  FIELD_PATTERN : Nat
  FIELD_JSON_LOOP_START : Nat
  FIELD_FILE_SCOPE : Nat
  FIELD_KIND_LONG : Nat
  FIELD_KIND : Nat
  FIELD_LINE_NUMBER : Nat
  FIELD_SCOPE : Nat
  FIELD_KIND_KEY : Nat
  FIELD_SCOPE_KEY : Nat
  FIELD_SCOPE_KIND_LONG : Nat
  FIELD_BUILTIN_LAST : Nat
  FIELDTYPE_STRING : Nat
  FIELDTYPE_INTEGER : Nat
  FIELDTYPE_BOOL : Nat
  NO_PARSER_FIELD : Int
  getFieldName : Nat → Option CStr
  getFieldDataType : Nat → Nat
  doesFieldHaveRenderer : Nat → Bool → Bool
  doesFieldHaveValue : Nat → tagEntryInfo → Bool
  renderField : Nat → tagEntryInfo → Int → Option CStr
  renderFieldNoEscaping : Nat → tagEntryInfo → Int → Option CStr
  strToLong : CStr → Option Int
  includeExtensionFlags : Bool

/-- Modelled from the spec: `isFieldEnabled` of `field.c` reads the enabled flag. -/
def isFieldEnabled (st : FieldState) (type : Nat) : Bool := st type

/-- Modelled from the spec: `enableField` of `field.c` sets the enabled flag of one field
and leaves every other field alone. -/
def enableField (st : FieldState) (type : Nat) (state : Bool) : FieldState :=
  fun k => if k = type then state else st k

/-- An output stream: the bytes written to it so far. -/
abbrev MIO := List Nat

/-- Modelled from the spec: `mio_printf (mio, "%s\n", buf)` of `mio.c` on a stream that
accepts the write: the text and a newline are appended and the number of bytes written
is returned. -/
def mio_printf (mio : MIO) (buf : CStr) : Int × MIO :=
  ((buf.length + 1 : Nat), mio ++ buf ++ [10])

/-- The conversion of `tag->lineNumber` (`unsigned long`) to the `json_int_t` argument of
`json_integer`. -/
def lineNumberToJsonInt (n : Nat) : Int :=
  if n % 2 ^ 64 < 2 ^ 63 then (n % 2 ^ 64 : Nat) else (n % 2 ^ 64 : Nat) - 2 ^ 64

/-! ## `writer-json.c` -/

/-- `JSON_WRITER_CURRENT`. -/
def JSON_WRITER_CURRENT : Nat := 1

/-- `JSON_WRITER_AGE`. -/
def JSON_WRITER_AGE : Nat := 0

/-- `escapeFieldValueRaw`. -/
def escapeFieldValueRaw (env : Env) (tag : tagEntryInfo) (ftype : Nat) (fieldIndex : Int) :
    Option CStr :=
  if env.doesFieldHaveRenderer ftype true then env.renderFieldNoEscaping ftype tag fieldIndex
  else env.renderField ftype tag fieldIndex

/-- `escapeFieldValue`.  The outer `none` is `AssertNotReached ()`; the inner option is
the returned `json_t *`. -/
def escapeFieldValue (env : Env) (tag : tagEntryInfo) (ftype : Nat)
    (returnEmptyStringAsNoValue : Bool) : Option (Option json_t) :=
  match escapeFieldValueRaw env tag ftype env.NO_PARSER_FIELD with
  | some str =>
    let dt := env.getFieldDataType ftype
    if dt &&& env.FIELDTYPE_STRING ≠ 0 then
      if dt &&& env.FIELDTYPE_BOOL ≠ 0 ∧ str = [] then some (some json_t.jfalse)
      else some (json_string str)
    else if dt &&& env.FIELDTYPE_INTEGER ≠ 0 then
      match env.strToLong str with
      | some tmp => some (some (json_integer tmp))
      | none => some none
    else if dt &&& env.FIELDTYPE_BOOL ≠ 0 then
      some (some (json_boolean (decide (str ≠ [45]))))
    else none
  | none => if returnEmptyStringAsNoValue then some (some json_t.jfalse) else some none

/-- `renderExtensionFieldMaybe`. -/
def renderExtensionFieldMaybe (env : Env) (st : FieldState) (xftype : Nat)
    (tag : tagEntryInfo) (response : json_object) : Option json_object :=
  let fname := env.getFieldName xftype
  if fname.isSome ∧ env.doesFieldHaveRenderer xftype false = true
      ∧ isFieldEnabled st xftype = true ∧ env.doesFieldHaveValue xftype tag = true then
    if xftype = env.FIELD_LINE_NUMBER then
      some (json_object_set_new response fname
        (some (json_integer (lineNumberToJsonInt tag.lineNumber))))
    else if xftype = env.FIELD_FILE_SCOPE then
      some (json_object_set_new response fname (some (json_boolean true)))
    else
      match escapeFieldValue env tag xftype false with
      | none => none
      | some value => some (json_object_set_new response fname value)
  else some response

/-- The value `o` that one iteration of the loop of `addParserFields` builds for the
enabled field `ftype` at index `i`.  The outer `none` is a read through a NULL `str`
or `AssertNotReached ()`. -/
def addParserFields_value (env : Env) (tag : tagEntryInfo) (ftype : Nat) (i : Nat) :
    Option (Option json_t) :=
  let dt := env.getFieldDataType ftype
  if dt &&& env.FIELDTYPE_STRING ≠ 0 then
    let str := escapeFieldValueRaw env tag ftype i
    if dt &&& env.FIELDTYPE_BOOL ≠ 0 then
      match str with
      | none => none
      | some s => if s = [] then some (some json_t.jfalse) else some (json_string s)
    else
      match str with
      | none => some none
      | some s => some (json_string s)
  else if dt &&& env.FIELDTYPE_INTEGER ≠ 0 then
    match escapeFieldValueRaw env tag ftype i with
    | none => none
    | some str =>
      match env.strToLong str with
      | some tmp => some (some (json_integer tmp))
      | none => some (some (json_integer (if str = [] then 0 else 1)))
  else if dt &&& env.FIELDTYPE_BOOL ≠ 0 then some (some json_t.jtrue)
  else none

/-- The loop of `addParserFields` from index `i` on, `fields` being the parser fields
not yet visited. -/
def addParserFields_loop (env : Env) (st : FieldState) (tag : tagEntryInfo) :
    List tagField → Nat → json_object → Option json_object
  | [], _, response => some response
  | f :: fields, i, response =>
    if isFieldEnabled st f.ftype = false then
      addParserFields_loop env st tag fields (i + 1) response
    else
      match addParserFields_value env tag f.ftype i with
      | none => none
      | some o =>
        addParserFields_loop env st tag fields (i + 1)
          (json_object_set_new response (env.getFieldName f.ftype) o)

/-- `addParserFields`. -/
def addParserFields (env : Env) (st : FieldState) (response : json_object)
    (tag : tagEntryInfo) : Option json_object :=
  addParserFields_loop env st tag tag.parserFields 0 response

/-- The head of `addExtensionFields`: the legacy fields force their successors on. -/
def addExtensionFields_enable (env : Env) (st : FieldState) : FieldState :=
  let st1 :=
    if isFieldEnabled st env.FIELD_KIND = true ∨ isFieldEnabled st env.FIELD_KIND_LONG = true
    then enableField st env.FIELD_KIND_KEY true else st
  if isFieldEnabled st1 env.FIELD_SCOPE = true then
    enableField (enableField st1 env.FIELD_SCOPE_KEY true) env.FIELD_SCOPE_KIND_LONG true
  else st1

/-- The loop of `addExtensionFields` over the field identities in `ks`. -/
def addExtensionFields_loop (env : Env) (st : FieldState) (tag : tagEntryInfo) :
    List Nat → json_object → Option json_object
  | [], response => some response
  | k :: ks, response =>
    match renderExtensionFieldMaybe env st k tag response with
    | none => none
    | some response1 => addExtensionFields_loop env st tag ks response1

/-- The identities `FIELD_JSON_LOOP_START`, ..., `FIELD_BUILTIN_LAST` in ascending order. -/
def extensionFieldRange (env : Env) : List Nat :=
  List.range' env.FIELD_JSON_LOOP_START (env.FIELD_BUILTIN_LAST + 1 - env.FIELD_JSON_LOOP_START)

/-- `addExtensionFields`: the object and the field state it leaves behind. -/
def addExtensionFields (env : Env) (st : FieldState) (response : json_object)
    (tag : tagEntryInfo) : Option (json_object × FieldState) :=
  let st1 := addExtensionFields_enable env st
  match addExtensionFields_loop env st1 tag (extensionFieldRange env) response with
  | none => none
  | some response1 => some (response1, st1)

/-- Lines 214 to 235 of `writeJsonEntry`: the assembly of the object.  The result is
`some (none, st)` when the name cannot be made a JSON string (`goto out`), and
`some (some response, st1)` with the assembled object otherwise. -/
def writeJsonEntry_response (env : Env) (st : FieldState) (tag : tagEntryInfo) :
    Option (Option json_object × FieldState) :=
  match json_pack [(some (ascii "_type"), some (ascii "tag"))] with
  | none => none
  | some response0 =>
    match (if isFieldEnabled st env.FIELD_NAME = true then
            (json_string tag.name).map
              (fun name => json_object_set_new response0 (some (ascii "name")) (some name))
          else some response0) with
    | none => some (none, st)
    | some response1 =>
      let response2 :=
        if isFieldEnabled st env.FIELD_INPUT_FILE = true then
          json_object_set_new response1 (some (ascii "path")) (json_string tag.sourceFileName)
        else response1
      match (if isFieldEnabled st env.FIELD_PATTERN = true then
              (escapeFieldValue env tag env.FIELD_PATTERN true).map
                (fun pat => json_object_set_new response2 (some (ascii "pattern")) pat)
            else some response2) with
      | none => none
      | some response3 =>
        if env.includeExtensionFlags = true then
          match addExtensionFields env st response3 tag with
          | none => none
          | some (response4, st1) =>
            match addParserFields env st1 response4 tag with
            | none => none
            | some response5 => some (some response5, st1)
        else some (some response3, st)

/-- `writeJsonEntry`: the returned length, the stream and the field state afterwards. -/
def writeJsonEntry (env : Env) (st : FieldState) (mio : MIO) (tag : tagEntryInfo) :
    Option (Int × MIO × FieldState) :=
  match writeJsonEntry_response env st tag with
  | none => none
  | some (none, st1) => some (0, mio, st1)
  | some (some response, st1) =>
    if json_object_size response = 1 then some (0, mio, st1)
    else
      let buf := json_dumps response
      let written := mio_printf mio buf
      some (written.1, written.2, st1)

/-- A pseudo-tag descriptor (`ptagDesc` of `ptag_p.h`), as far as the writer reads it. -/
structure ptagDesc where
  name : CStr
  jsonObjectKey : Option CStr

/-- C `strchr`: the offset of the first occurrence of a byte, or NULL. -/
def strchr : CStr → Nat → Option Nat
  | [], _ => none
  | b :: rest, c => if b = c then some 0 else (strchr rest c).map (fun i => i + 1)

/-- The macro `OPT` of `writeJsonPtagEntry`. -/
def OPT (x : Option CStr) : CStr := x.getD []

/-- Lines 262 to 264 of `writeJsonPtagEntry`: the pointer `rest`, as an offset into the
parser name. -/
def writeJsonPtagEntry_rest (desc : ptagDesc) (parserName : Option CStr) : Option Nat :=
  match parserName, desc.jsonObjectKey with
  | some p, some _ => if JSON_WRITER_CURRENT > 0 then strchr p 33 else none
  | _, _ => none

/-- Lines 265 to 292 of `writeJsonPtagEntry`: the object that `json_pack` returns, NULL
when one of the strings is not valid UTF-8. -/
def writeJsonPtagEntry_response (desc : ptagDesc) (fileName pattern parserName : Option CStr) :
    Option json_object :=
  match writeJsonPtagEntry_rest desc parserName, parserName with
  | some r, some p =>
    let parserName0 := p.take r
    json_pack
      [(some (ascii "_type"), some (ascii "ptag")),
       (some (ascii "name"), some desc.name),
       (some (ascii "parserName"), some parserName0),
       (desc.jsonObjectKey, some (p.drop (r + 1))),
       (some (ascii "path"), some (OPT fileName)),
       (some (ascii "pattern"), some (OPT pattern))]
  | _, some p =>
    json_pack
      [(some (ascii "_type"), some (ascii "ptag")),
       (some (ascii "name"), some desc.name),
       (some (ascii "parserName"), some p),
       (some (ascii "path"), some (OPT fileName)),
       (some (ascii "pattern"), some (OPT pattern))]
  | _, none =>
    json_pack
      [(some (ascii "_type"), some (ascii "ptag")),
       (some (ascii "name"), some desc.name),
       (some (ascii "path"), some (OPT fileName)),
       (some (ascii "pattern"), some (OPT pattern))]

/-- `writeJsonPtagEntry`: the returned length and the stream afterwards.  When
`json_pack` returns NULL, `json_dumps` returns NULL as well and `mio_printf` is handed
a NULL pointer for `%s`: the call has no defined result. -/
def writeJsonPtagEntry (mio : MIO) (desc : ptagDesc)
    (fileName pattern parserName : Option CStr) : Option (Int × MIO) :=
  match writeJsonPtagEntry_response desc fileName pattern parserName with
  | none => none
  | some response => some (mio_printf mio (json_dumps response))

/-! ## A concrete registry, used to evaluate the definitions -/

/-- The display names of `demoEnv`. -/
def demoFieldName (k : Nat) : Option CStr :=
  if k = 0 then some (ascii "name") else if k = 1 then some (ascii "input")
  else if k = 2 then some (ascii "pattern") else if k = 4 then some (ascii "file")
  else if k = 8 then some (ascii "line") else if k = 10 then some (ascii "typeref")
  else if k = 11 then some (ascii "kind") else if k = 17 then some (ascii "scope")
  else if k = 18 then some (ascii "scopeKind") else if k = 22 then some (ascii "end")
  else if k = 23 then some (ascii "epoch")
  else if k = 25 then some (ascii "signature") else if k = 26 then some (ascii "arity")
  else if k = 27 then some (ascii "static") else none

/-- A small registry in the shape of the one of ctags: the built-in identities `0` to
`24`, the data-type bits `1`, `2`, `4`, and three parser-defined fields `25` (a string),
`26` (an integer) and `27` (a boolean).  A parser field renders its attached value;
the built-in `pattern`, `kind`, `end` and `epoch` render fixed texts, `typeref` renders
the name. -/
def demoEnv : Env where
  FIELD_NAME := 0
  FIELD_INPUT_FILE := 1
  FIELD_PATTERN := 2
  FIELD_JSON_LOOP_START := 4
  FIELD_FILE_SCOPE := 4
  FIELD_KIND_LONG := 5
  FIELD_KIND := 6
  FIELD_LINE_NUMBER := 8
  FIELD_SCOPE := 9
  FIELD_KIND_KEY := 11
  FIELD_SCOPE_KEY := 17
  FIELD_SCOPE_KIND_LONG := 18
  FIELD_BUILTIN_LAST := 24
  FIELDTYPE_STRING := 1
  FIELDTYPE_INTEGER := 2
  FIELDTYPE_BOOL := 4
  NO_PARSER_FIELD := -1
  getFieldName := demoFieldName
  getFieldDataType := fun k =>
    if k = 4 then 4 else if k = 8 then 2 else if k = 22 then 2 else if k = 23 then 2
    else if k = 26 then 2 else if k = 27 then 4 else 1
  doesFieldHaveRenderer := fun _ noEscaping => !noEscaping
  doesFieldHaveValue := fun _ _ => true
  renderField := fun k tag index =>
    if 0 ≤ index then (tag.parserFields.get? index.toNat).bind tagField.value
    else if k = 2 then some (ascii "/^x$/")
    else if k = 10 then some tag.name
    else if k = 11 then some (ascii "function")
    else if k = 22 then some (ascii "none")
    else if k = 23 then some (ascii "1700000000")
    else some (ascii "-")
  renderFieldNoEscaping := fun _ _ _ => none
  strToLong := fun s =>
    if s = [] ∨ s.any (fun b => decide (b < 48 ∨ 57 < b)) then none
    else some (s.foldl (fun acc b => acc * 10 + (b - 48)) 0 : Nat)
  includeExtensionFlags := true

/-- The field state in which exactly the fields listed are enabled. -/
def enabledOnly (ks : List Nat) : FieldState := fun k => decide (k ∈ ks)

/-- A tag record named `x` with no parser fields. -/
def demoTag : tagEntryInfo where
  name := ascii "x"
  sourceFileName := ascii "a.c"
  lineNumber := 3
  parserFields := []

/-- A tag record whose name is the single byte `0xFF`, which is not UTF-8. -/
def badNameTag : tagEntryInfo where
  name := [255]
  sourceFileName := ascii "a.c"
  lineNumber := 3
  parserFields := []

/-- The line that `writeJsonEntry` writes for a record of which only the name is shown. -/
def nameOnlyLine (name : CStr) : CStr :=
  ascii "\x7b\"_type\": \"tag\", \"name\": " ++ dump_string name ++ ascii "\x7d" ++ [10]

/-- A tag record whose name is empty. -/
def emptyNameTag : tagEntryInfo where
  name := []
  sourceFileName := ascii "a.c"
  lineNumber := 3
  parserFields := []

/-- A tag record named `-` that carries the boolean parser field `27` with the text `-`
and the integer parser field `26` with the text `12`. -/
def dashTag : tagEntryInfo where
  name := ascii "-"
  sourceFileName := ascii "a.c"
  lineNumber := 3
  parserFields := [⟨27, some (ascii "-")⟩, ⟨26, some (ascii "12")⟩]

/-- The registry `demoEnv` with `typeref` (identity `10`, which renders the name of the
record) declared with the data type `dt`. -/
def typerefEnv (dt : Nat) : Env :=
  { demoEnv with getFieldDataType := fun k => if k = 10 then dt else demoEnv.getFieldDataType k }

/-- The object whose members are the given strings, in the given order. -/
def stringObject (members : List (CStr × CStr)) : json_object :=
  members.map (fun m => (m.1, json_t.jstring m.2))

/-- A pseudo-tag descriptor that declares the secondary key `jsonObjectKey`. -/
def versionDesc : ptagDesc where
  name := ascii "TAG_PARSER_VERSION"
  jsonObjectKey := some (ascii "jsonObjectKey")

/-- A pseudo-tag descriptor without a secondary key. -/
def cwdDesc : ptagDesc where
  name := ascii "TAG_PROC_CWD"
  jsonObjectKey := none

/-- The path `/caf\xE9/`, the directory name `café` in Latin-1: not UTF-8. -/
def latin1Path : CStr := ascii "/caf" ++ [233, 47]

/-- A pseudo-tag descriptor whose secondary key is `path`, one of the fixed keys. -/
def pathKeyDesc : ptagDesc where
  name := ascii "TAG_PARSER_VERSION"
  jsonObjectKey := some (ascii "path")

/-- The keys of an object, in the order in which `json_dumps` writes them. -/
def objectKeys (object : json_object) : List CStr := object.map Prod.fst

/-- One call of `json_object_set_new`, on a key and a value given as a pair. -/
def setMember (object : json_object) (m : Option CStr × Option json_t) : json_object :=
  json_object_set_new object m.1 m.2

/-- The four conditions under which `renderExtensionFieldMaybe` sets a key for the
field `k`: it has a display name, it has a renderer, it is enabled, and it has a value
for the record. -/
def extensionSelected (env : Env) (st : FieldState) (tag : tagEntryInfo) (k : Nat) : Bool :=
  (env.getFieldName k).isSome && env.doesFieldHaveRenderer k false && isFieldEnabled st k
    && env.doesFieldHaveValue k tag

/-- The value that `renderExtensionFieldMaybe` hands to `json_object_set_new` for a
selected field (NULL where `escapeFieldValue` has no defined result). -/
def extensionValue (env : Env) (tag : tagEntryInfo) (k : Nat) : Option json_t :=
  if k = env.FIELD_LINE_NUMBER then some (json_integer (lineNumberToJsonInt tag.lineNumber))
  else if k = env.FIELD_FILE_SCOPE then some (json_boolean true)
  else (escapeFieldValue env tag k false).join

/-- The members that the extension pass sets, in ascending order of field identity. -/
def extensionInsertions (env : Env) (st : FieldState) (tag : tagEntryInfo) (ks : List Nat) :
    List (Option CStr × Option json_t) :=
  (ks.filter (extensionSelected env st tag)).map
    (fun k => (env.getFieldName k, extensionValue env tag k))

/-- The members that the parser-field pass sets, in the order in which the fields are
attached to the record; `i` is the index of the first field of `fields`. -/
def parserInsertions (env : Env) (st : FieldState) (tag : tagEntryInfo)
    (fields : List tagField) (i : Nat) : List (Option CStr × Option json_t) :=
  ((fields.enumFrom i).filter (fun p => isFieldEnabled st p.2.ftype)).map
    (fun p => (env.getFieldName p.2.ftype, (addParserFields_value env tag p.2.ftype p.1).join))

/-- The order of insertion of C3: after `_type`, the members `name`, `path`, `pattern`
(each only if its field is enabled), then the selected built-in extension fields in
ascending order of identity, then the enabled parser fields in the order of
attachment; the last two only when extension fields are requested, and judged on the
field state that the compatibility propagation leaves. -/
def entryInsertions (env : Env) (st : FieldState) (tag : tagEntryInfo) :
    List (Option CStr × Option json_t) :=
  (if isFieldEnabled st env.FIELD_NAME = true
    then [(some (ascii "name"), json_string tag.name)] else [])
  ++ (if isFieldEnabled st env.FIELD_INPUT_FILE = true
    then [(some (ascii "path"), json_string tag.sourceFileName)] else [])
  ++ (if isFieldEnabled st env.FIELD_PATTERN = true
    then [(some (ascii "pattern"), (escapeFieldValue env tag env.FIELD_PATTERN true).join)]
    else [])
  ++ (if env.includeExtensionFlags = true then
      extensionInsertions env (addExtensionFields_enable env st) tag (extensionFieldRange env)
      ++ parserInsertions env (addExtensionFields_enable env st) tag tag.parserFields 0
    else [])

/-- A tag record with three parser fields attached: `signature`, `arity`, `static`. -/
def richTag : tagEntryInfo where
  name := ascii "main"
  sourceFileName := ascii "a.c"
  lineNumber := 7
  parserFields := [⟨25, some (ascii "(void)")⟩, ⟨26, some (ascii "0")⟩, ⟨27, some []⟩]

/-- A data type that the coercions know: it has the STRING, the INTEGER or the BOOL bit,
so that `AssertNotReached ()` is not reached for it. -/
def fieldClassified (env : Env) (ftype : Nat) : Prop :=
  env.getFieldDataType ftype &&& env.FIELDTYPE_STRING ≠ 0
  ∨ env.getFieldDataType ftype &&& env.FIELDTYPE_INTEGER ≠ 0
  ∨ env.getFieldDataType ftype &&& env.FIELDTYPE_BOOL ≠ 0

/-- The field state of the C3 example: name, input file, pattern, file scope, the legacy
kind, line number and the three parser fields are enabled. -/
def richState : FieldState := enabledOnly [0, 1, 2, 4, 6, 8, 25, 26, 27]

/-- The object that `writeJsonEntry` assembles for `richTag` under `richState`. -/
def richResponse : json_object :=
  [(ascii "_type", json_t.jstring (ascii "tag")),
   (ascii "name", json_t.jstring (ascii "main")),
   (ascii "path", json_t.jstring (ascii "a.c")),
   (ascii "pattern", json_t.jstring (ascii "/^x$/")),
   (ascii "file", json_t.jtrue),
   (ascii "line", json_t.jinteger 7),
   (ascii "kind", json_t.jstring (ascii "function")),
   (ascii "signature", json_t.jstring (ascii "(void)")),
   (ascii "arity", json_t.jinteger 0),
   (ascii "static", json_t.jtrue)]

/-! ## A reader of JSON text

A reader for the JSON grammar of RFC 8259, restricted to what the writer can produce: an
object whose member values are strings, integers, `true`, `false` or `null`.  Text
outside this fragment (nested containers, fractions, exponents, surrogate escapes) is
refused, so that whatever the reader accepts is JSON. -/

/-- JSON whitespace: space, horizontal tab, line feed, carriage return. -/
def isJsonWs (c : Nat) : Bool := c = 32 || c = 9 || c = 10 || c = 13

/-- The input without its leading whitespace. -/
def skipWs : CStr → CStr
  | [] => []
  | c :: rest => if isJsonWs c = true then skipWs rest else c :: rest

/-- The value of a hexadecimal digit. -/
def hexValue (c : Nat) : Option Nat :=
  if 48 ≤ c ∧ c ≤ 57 then some (c - 48)
  else if 65 ≤ c ∧ c ≤ 70 then some (c - 55)
  else if 97 ≤ c ∧ c ≤ 102 then some (c - 87)
  else none

/-- The UTF-8 encoding of a code point below `0x10000` that is not a surrogate. -/
def utf8Encode (cp : Nat) : Option CStr :=
  if cp < 0x80 then some [cp]
  else if cp < 0x800 then some [0xC0 + cp / 64, 0x80 + cp % 64]
  else if 0xD800 ≤ cp ∧ cp ≤ 0xDFFF then none
  else if cp < 0x10000 then some [0xE0 + cp / 4096, 0x80 + cp / 64 % 64, 0x80 + cp % 64]
  else none

/-- The character that a two-character escape stands for. -/
def unescapeChar (e : Nat) : Option Nat :=
  if e = 34 then some 34
  else if e = 92 then some 92
  else if e = 47 then some 47
  else if e = 98 then some 8
  else if e = 102 then some 12
  else if e = 110 then some 10
  else if e = 114 then some 13
  else if e = 116 then some 9
  else none

/-- The characters of a JSON string after its opening quote: the decoded bytes and the
input after the closing quote.  A raw control character is refused. -/
def parseStringChars : CStr → Option (CStr × CStr)
  | [] => none
  | c :: rest =>
    if c = 34 then some ([], rest)
    else if c = 92 then
      match rest with
      | [] => none
      | e :: rest1 =>
        if e = 117 then
          match rest1 with
          | h1 :: h2 :: h3 :: h4 :: rest2 =>
            match hexValue h1, hexValue h2, hexValue h3, hexValue h4 with
            | some a, some b, some c, some d =>
              match utf8Encode (((a * 16 + b) * 16 + c) * 16 + d), parseStringChars rest2 with
              | some bytes, some (s, r) => some (bytes ++ s, r)
              | _, _ => none
            | _, _, _, _ => none
          | _ => none
        else
          match unescapeChar e, parseStringChars rest1 with
          | some b, some (s, r) => some (b :: s, r)
          | _, _ => none
    else if c < 0x20 then none
    else
      match parseStringChars rest with
      | some (s, r) => some (c :: s, r)
      | none => none

/-- A JSON string after its opening quote; the decoded text has to be valid UTF-8. -/
def parseString (input : CStr) : Option (CStr × CStr) :=
  match parseStringChars input with
  | some (s, r) => if utf8_check_string s = true then some (s, r) else none
  | none => none

/-- Whether a byte is a decimal digit. -/
def isDigit (c : Nat) : Bool := decide (48 ≤ c ∧ c ≤ 57)

/-- The number that a sequence of decimal digits denotes. -/
def digitsValue (ds : CStr) : Nat := ds.foldl (fun acc c => acc * 10 + (c - 48)) 0

/-- The integer part of a JSON number: `0`, or a digit from `1` to `9` followed by
digits. -/
def parseNat (input : CStr) : Option (Nat × CStr) :=
  let ds := input.takeWhile isDigit
  if ds = [] then none
  else if ds.head? = some 48 ∧ ds ≠ [48] then none
  else some (digitsValue ds, input.dropWhile isDigit)

/-- A JSON number without fraction and exponent. -/
def parseInteger (input : CStr) : Option (Int × CStr) :=
  match input with
  | [] => none
  | c :: rest =>
    let r := if c = 45 then (parseNat rest).map (fun p => (-(p.1 : Int), p.2))
             else (parseNat (c :: rest)).map (fun p => ((p.1 : Int), p.2))
    match r with
    | some (v, d :: rest1) => if d = 46 ∨ d = 101 ∨ d = 69 then none else some (v, d :: rest1)
    | other => other

/-- A scalar JSON value. -/
def parseValue (input : CStr) : Option (json_t × CStr) :=
  match input with
  | [] => none
  | c :: rest =>
    if c = 34 then (parseString rest).map (fun p => (json_t.jstring p.1, p.2))
    else if c = 116 then
      if rest.take 3 = [114, 117, 101] then some (json_t.jtrue, rest.drop 3) else none
    else if c = 102 then
      if rest.take 4 = [97, 108, 115, 101] then some (json_t.jfalse, rest.drop 4) else none
    else if c = 110 then
      if rest.take 3 = [117, 108, 108] then some (json_t.jnull, rest.drop 3) else none
    else (parseInteger (c :: rest)).map (fun p => (json_t.jinteger p.1, p.2))

/-- The input after the byte `c`, which it has to start with. -/
def expectChar (c : Nat) (input : CStr) : Option CStr :=
  match input with
  | [] => none
  | d :: rest => if d = c then some rest else none

/-- The members of a non-empty object up to and including the closing brace; `fuel`
bounds the number of members. -/
def parseMembers : Nat → CStr → Option (json_object × CStr)
  | 0, _ => none
  | fuel + 1, input =>
    match expectChar 34 (skipWs input) with
    | none => none
    | some rest =>
      match parseString rest with
      | none => none
      | some (key, rest1) =>
        match expectChar 58 (skipWs rest1) with
        | none => none
        | some rest2 =>
          match parseValue (skipWs rest2) with
          | none => none
          | some (value, rest3) =>
            match skipWs rest3 with
            | [] => none
            | d :: rest4 =>
              if d = 125 then some ([(key, value)], rest4)
              else if d = 44 then
                (parseMembers fuel rest4).map (fun p => ((key, value) :: p.1, p.2))
              else none

/-- A complete JSON text that is one object: its members in the order of the text. -/
def parseObject (input : CStr) : Option json_object :=
  match expectChar 123 (skipWs input) with
  | none => none
  | some rest =>
    match skipWs rest with
    | [] => none
    | c :: rest1 =>
      if c = 125 then (if skipWs rest1 = [] then some [] else none)
      else
        match parseMembers input.length (c :: rest1) with
        | some (members, rest2) => if skipWs rest2 = [] then some members else none
        | none => none

/-- An object as jansson can hold it: every key and every string value is valid UTF-8. -/
def ValidObject (object : json_object) : Prop :=
  ∀ m ∈ object, utf8_check_string m.1 = true
    ∧ ∀ s, m.2 = json_t.jstring s → utf8_check_string s = true

/-- A value as jansson can hold it: a string value is valid UTF-8. -/
def ValidValue (value : json_t) : Prop :=
  ∀ s, value = json_t.jstring s → utf8_check_string s = true

/-- What C4 says of the text of a line before its newline: it is the dump of an object,
reading it back gives that object, and it holds no newline (indeed no control character
at all). -/
def JsonObjectLine (text : CStr) : Prop :=
  ∃ object : json_object, text = json_dumps object ∧ parseObject text = some object
    ∧ (∀ b ∈ text, 32 ≤ b) ∧ 10 ∉ text

/-- A tag record whose name holds a newline, a double quote, a backslash and the control
character `0x1F`. -/
def controlTag : tagEntryInfo where
  name := [97, 10, 34, 92, 31]
  sourceFileName := ascii "a.c"
  lineNumber := 1
  parserFields := []

/-- A tag record whose name is the byte `0xFF` and that carries the field `typeref`
(identity `10`) as a parser field with the same text. -/
def badFieldTag : tagEntryInfo where
  name := [255]
  sourceFileName := ascii "a.c"
  lineNumber := 3
  parserFields := [⟨10, some [255]⟩]

/-- A tag record whose line number is `2 ^ 63`. -/
def hugeLineTag : tagEntryInfo where
  name := ascii "x"
  sourceFileName := ascii "a.c"
  lineNumber := 2 ^ 63
  parserFields := []

/-- A tag record named `x` that carries the field `typeref` (identity `10`) as a parser
field with the text `x`. -/
def xFieldTag : tagEntryInfo where
  name := ascii "x"
  sourceFileName := ascii "a.c"
  lineNumber := 3
  parserFields := [⟨10, some (ascii "x")⟩]

/-- The registry `demoEnv` with a pattern field that renders no text. -/
def noPatternEnv : Env :=
  { demoEnv with
    renderField := fun k tag index =>
      if k = 2 ∧ index < 0 then none else demoEnv.renderField k tag index }

/-- The registry `demoEnv` with extension fields not requested. -/
def flagOffEnv : Env :=
  { demoEnv with includeExtensionFlags := false }

/-- The tag `main` of the source file `caf\xE9.c`, whose name is in Latin-1: not UTF-8. -/
def latin1FileTag : tagEntryInfo where
  name := ascii "main"
  sourceFileName := ascii "caf" ++ [233] ++ ascii ".c"
  lineNumber := 1
  parserFields := []

/-! ## Auxiliary facts -/

theorem utf8_check_cont_none (l : CStr) : l.foldl utf8_check_cont none = none := by
  induction l with
  | nil => rfl
  | cons x l ih => simpa [List.foldl_cons, utf8_check_cont] using ih

theorem utf8_check_cont_ascii (l : CStr) (acc : Option Nat) (h : ∃ x ∈ l, x < 0x80) :
    l.foldl utf8_check_cont acc = none := by
  induction l generalizing acc with
  | nil => simp at h
  | cons y l ih =>
    simp only [List.foldl_cons]
    by_cases hy : y < 0x80
    · have : utf8_check_cont acc y = none := by
        cases acc <;> simp [utf8_check_cont, hy]
      rw [this]
      exact utf8_check_cont_none l
    · apply ih
      obtain ⟨x, hx, hlt⟩ := h
      simp only [List.mem_cons] at hx
      rcases hx with hx | hx
      · subst hx; exact absurd hlt hy
      · exact ⟨x, hx, hlt⟩

theorem utf8_check_full_split (u : Nat) (rest b : CStr) (count : Nat)
    (h : utf8_check_full (u :: (rest ++ 33 :: b)) count = true) :
    count - 1 ≤ rest.length ∧ utf8_check_full (u :: rest) count = true := by
  have hle : count - 1 ≤ rest.length := by
    by_contra hgt
    have hmem : ∃ x ∈ (rest ++ 33 :: b).take (count - 1), x < 0x80 := by
      refine ⟨33, ?_, by decide⟩
      rw [List.take_append_eq_append_take]
      have h1 : rest.take (count - 1) = rest := List.take_of_length_le (by omega)
      have h2 : 0 < count - 1 - rest.length := by omega
      obtain ⟨m, hm⟩ : ∃ m, count - 1 - rest.length = m + 1 := ⟨_, (Nat.succ_pred_eq_of_pos h2).symm⟩
      simp [h1, hm]
    unfold utf8_check_full at h
    simp only [List.drop_succ_cons, List.drop_zero] at h
    rw [utf8_check_cont_ascii _ _ hmem] at h
    simp at h
  refine ⟨hle, ?_⟩
  unfold utf8_check_full at h ⊢
  simp only [List.drop_succ_cons, List.drop_zero, List.headD_cons] at h ⊢
  rw [List.take_append_of_le_length hle] at h
  exact h

theorem utf8_check_from_fuel (n : Nat) : ∀ (s : CStr) (fuel : Nat), s.length ≤ n →
    s.length ≤ fuel → utf8_check_from fuel s = utf8_check_from s.length s := by
  induction n with
  | zero =>
    intro s fuel hn _
    have : s = [] := List.eq_nil_of_length_eq_zero (by omega)
    subst this
    cases fuel <;> rfl
  | succ n ih =>
    intro s fuel hn hfuel
    cases s with
    | nil => cases fuel <;> rfl
    | cons u rest =>
      obtain ⟨f, rfl⟩ : ∃ f, fuel = f + 1 := ⟨fuel - 1, by simp at hfuel; omega⟩
      simp only [List.length_cons] at hn hfuel ⊢
      simp only [utf8_check_from]
      have hdrop : (rest.drop (utf8_check_first u - 1)).length ≤ rest.length := by
        simp
      rw [ih rest f (by omega) (by omega)]
      rw [ih (rest.drop (utf8_check_first u - 1)) f (by omega) (by omega)]
      rw [ih (rest.drop (utf8_check_first u - 1)) rest.length (by omega) hdrop]

theorem utf8_check_from_cons (fuel u : Nat) (rest : CStr) :
    utf8_check_from (fuel + 1) (u :: rest)
      = if utf8_check_first u = 0 then false
        else if utf8_check_first u > 1 then
          if utf8_check_first u > rest.length + 1 then false
          else if utf8_check_full (u :: rest) (utf8_check_first u) = false then false
          else utf8_check_from fuel (rest.drop (utf8_check_first u - 1))
        else utf8_check_from fuel rest := by
  simp [utf8_check_from]

/-- Splitting valid UTF-8 at the ASCII byte `!` leaves two valid parts. -/
theorem utf8_check_string_split (a b : CStr)
    (h : utf8_check_string (a ++ 33 :: b) = true) :
    utf8_check_string a = true ∧ utf8_check_string b = true := by
  suffices hmain : ∀ n (a : CStr), a.length ≤ n →
      utf8_check_string (a ++ 33 :: b) = true →
      utf8_check_string a = true ∧ utf8_check_string b = true from
    hmain a.length a (Nat.le_refl _) h
  have hnil : utf8_check_string ([] ++ 33 :: b) = true → utf8_check_string b = true := by
    intro h
    have h' : utf8_check_from (b.length + 1) (33 :: b) = true := h
    rw [utf8_check_from_cons] at h'
    simpa [utf8_check_first, utf8_check_string] using h'
  intro n
  induction n with
  | zero =>
    intro a hn h
    have : a = [] := List.eq_nil_of_length_eq_zero (by omega)
    subst this
    exact ⟨rfl, hnil h⟩
  | succ n ih =>
    intro a hn h
    cases a with
    | nil => exact ⟨rfl, hnil h⟩
    | cons u rest =>
      simp only [List.length_cons] at hn
      have h' : utf8_check_from ((rest ++ 33 :: b).length + 1) (u :: (rest ++ 33 :: b))
          = true := h
      rw [utf8_check_from_cons] at h'
      show utf8_check_from (rest.length + 1) (u :: rest) = true ∧ _
      rw [utf8_check_from_cons]
      by_cases h0 : utf8_check_first u = 0
      · rw [if_pos h0] at h'
        exact absurd h' (by decide)
      · rw [if_neg h0] at h' ⊢
        by_cases h1 : utf8_check_first u > 1
        · rw [if_pos h1] at h' ⊢
          by_cases hlen : utf8_check_first u > (rest ++ 33 :: b).length + 1
          · rw [if_pos hlen] at h'
            exact absurd h' (by decide)
          · rw [if_neg hlen] at h'
            by_cases hfull : utf8_check_full (u :: (rest ++ 33 :: b)) (utf8_check_first u)
                = false
            · rw [if_pos hfull] at h'
              exact absurd h' (by decide)
            · rw [if_neg hfull] at h'
              have hfull1 : utf8_check_full (u :: (rest ++ 33 :: b)) (utf8_check_first u)
                  = true := by simpa using hfull
              obtain ⟨hle, hfull2⟩ := utf8_check_full_split u rest b _ hfull1
              rw [List.drop_append_of_le_length hle] at h'
              have hdrop : (rest.drop (utf8_check_first u - 1)).length ≤ rest.length := by
                simp
              have hrec := ih (rest.drop (utf8_check_first u - 1)) (by omega)
                (by
                  unfold utf8_check_string
                  rw [← h']
                  exact (utf8_check_from_fuel _ _ _ (Nat.le_refl _)
                    (by simp only [List.length_append, List.length_cons]; omega)).symm)
              have hlen2 : ¬ utf8_check_first u > rest.length + 1 := by omega
              have hfull3 : ¬ utf8_check_full (u :: rest) (utf8_check_first u) = false := by
                simp [hfull2]
              rw [if_neg hlen2, if_neg hfull3]
              refine ⟨?_, hrec.2⟩
              have h3 := hrec.1
              unfold utf8_check_string at h3
              rw [← h3]
              exact utf8_check_from_fuel _ _ _ (Nat.le_refl _) hdrop
        · rw [if_neg h1] at h' ⊢
          exact ih rest (by omega) h'

theorem strchr_spec (p : CStr) (c r : Nat) (h : strchr p c = some r) :
    p = p.take r ++ c :: p.drop (r + 1) ∧ c ∉ p.take r := by
  induction p generalizing r with
  | nil => simp [strchr] at h
  | cons b p ih =>
    simp only [strchr] at h
    split at h
    · rename_i hb
      simp only [Option.some.injEq] at h
      subst h
      simp [hb]
    · rename_i hb
      cases hs : strchr p c with
      | none => simp [hs] at h
      | some r1 =>
        simp only [hs, Option.map_some', Option.some.injEq] at h
        subst h
        obtain ⟨h1, h2⟩ := ih r1 hs
        refine ⟨?_, ?_⟩
        · simp only [List.take_succ_cons, List.drop_succ_cons, List.cons_append]
          rw [← h1]
        · simp only [List.take_succ_cons, List.mem_cons, not_or]
          exact ⟨fun e => hb e.symm, h2⟩

theorem json_pack_type_tag :
    json_pack [(some (ascii "_type"), some (ascii "tag"))]
      = some [(ascii "_type", json_t.jstring (ascii "tag"))] := by
  decide

theorem addExtensionFields_enable_off (env : Env) (st : FieldState)
    (hkind : isFieldEnabled st env.FIELD_KIND = false)
    (hkindLong : isFieldEnabled st env.FIELD_KIND_LONG = false)
    (hscope : isFieldEnabled st env.FIELD_SCOPE = false) :
    addExtensionFields_enable env st = st := by
  simp [addExtensionFields_enable, hkind, hkindLong, hscope]

theorem addExtensionFields_loop_off (env : Env) (st : FieldState) (tag : tagEntryInfo)
    (ks : List Nat) (response : json_object)
    (h : ∀ k ∈ ks, isFieldEnabled st k = false) :
    addExtensionFields_loop env st tag ks response = some response := by
  induction ks with
  | nil => rfl
  | cons k ks ih =>
    have hk : isFieldEnabled st k = false := h k (List.mem_cons_self k ks)
    have hrest : ∀ j ∈ ks, isFieldEnabled st j = false :=
      fun j hj => h j (List.mem_cons_of_mem k hj)
    simp [addExtensionFields_loop, renderExtensionFieldMaybe, hk, ih hrest]

theorem addParserFields_loop_off (env : Env) (st : FieldState) (tag : tagEntryInfo)
    (fields : List tagField) (i : Nat) (response : json_object)
    (h : ∀ f ∈ fields, isFieldEnabled st f.ftype = false) :
    addParserFields_loop env st tag fields i response = some response := by
  induction fields generalizing i with
  | nil => rfl
  | cons f fields ih =>
    have hf : isFieldEnabled st f.ftype = false := h f (List.mem_cons_self f fields)
    have hrest : ∀ g ∈ fields, isFieldEnabled st g.ftype = false :=
      fun g hg => h g (List.mem_cons_of_mem f hg)
    simp [addParserFields_loop, hf, ih (i + 1) hrest]

theorem set_new_name (t v : json_t) :
    json_object_set_new [(ascii "_type", t)] (some (ascii "name")) (some v)
      = [(ascii "_type", t), (ascii "name", v)] := by
  have h1 : utf8_check_string (ascii "name") = true := by decide
  have h2 : ascii "_type" ≠ ascii "name" := by decide
  simp [json_object_set_new, h1, hashtable_set, h2]

/-! ## C1: a record of which only the name is enabled -/

/-- C1 (as amended): when `FIELD_NAME` is enabled, every other field (input file,
pattern, the legacy kind and scope fields, every identity of the extension scan, every
parser field of the record) is disabled and the name is valid UTF-8, `writeJsonEntry`
appends exactly `{"_type": "tag", "name": <the JSON-escaped name in quotes>}` and one
newline to the stream, returns the number of bytes of that line, and leaves the field
state as it was. -/
theorem C1_name_only (env : Env) (st : FieldState) (mio : MIO) (tag : tagEntryInfo)
    (hname : isFieldEnabled st env.FIELD_NAME = true)
    (hfile : isFieldEnabled st env.FIELD_INPUT_FILE = false)
    (hpattern : isFieldEnabled st env.FIELD_PATTERN = false)
    (hkind : isFieldEnabled st env.FIELD_KIND = false)
    (hkindLong : isFieldEnabled st env.FIELD_KIND_LONG = false)
    (hscope : isFieldEnabled st env.FIELD_SCOPE = false)
    (hext : ∀ k ∈ extensionFieldRange env, isFieldEnabled st k = false)
    (hparser : ∀ f ∈ tag.parserFields, isFieldEnabled st f.ftype = false)
    (hutf8 : utf8_check_string tag.name = true) :
    writeJsonEntry env st mio tag
      = some (Int.ofNat (nameOnlyLine tag.name).length, mio ++ nameOnlyLine tag.name, st) := by
  have hresp : writeJsonEntry_response env st tag
      = some (some [(ascii "_type", json_t.jstring (ascii "tag")),
                    (ascii "name", json_t.jstring tag.name)], st) := by
    unfold writeJsonEntry_response
    rw [json_pack_type_tag]
    simp only [hname, hfile, hpattern, json_string, hutf8, if_true, Option.map_some',
      set_new_name]
    cases hflag : env.includeExtensionFlags
    · simp
    · simp [addExtensionFields, addExtensionFields_enable_off env st hkind hkindLong hscope,
        addExtensionFields_loop_off env st tag _ _ hext, addParserFields,
        addParserFields_loop_off env st tag _ _ _ hparser]
  have hline : json_dumps [(ascii "_type", json_t.jstring (ascii "tag")),
      (ascii "name", json_t.jstring tag.name)] ++ [10] = nameOnlyLine tag.name := rfl
  unfold writeJsonEntry
  rw [hresp, ← hline]
  simp [json_object_size, mio_printf]

/-- C1 fails as stated: with only `FIELD_NAME` enabled, the record whose name is the byte
`0xFF` (not UTF-8) makes `json_string` return NULL, and `writeJsonEntry` writes nothing
and returns `0` instead of the line of the claim. -/
theorem C1_name_only_counterexample :
    isFieldEnabled (enabledOnly [0]) demoEnv.FIELD_NAME = true
    ∧ (∀ k ∈ List.range 40, k ≠ demoEnv.FIELD_NAME → isFieldEnabled (enabledOnly [0]) k = false)
    ∧ (writeJsonEntry demoEnv (enabledOnly [0]) [] badNameTag).map (fun r => (r.1, r.2.1))
        = some (0, [])
    ∧ writeJsonEntry demoEnv (enabledOnly [0]) [] badNameTag
        ≠ some (Int.ofNat (nameOnlyLine badNameTag.name).length,
            [] ++ nameOnlyLine badNameTag.name, enabledOnly [0]) := by
  have h : (writeJsonEntry demoEnv (enabledOnly [0]) [] badNameTag).map (fun r => (r.1, r.2.1))
      = some (0, []) := by decide
  refine ⟨by decide, by decide, h, ?_⟩
  intro hc
  rw [hc] at h
  revert h
  decide

/-- C1 at the record named `x`: the line is `{"_type": "tag", "name": "x"}`, thirty bytes
with its newline. -/
theorem C1_name_only_witness :
    (writeJsonEntry demoEnv (enabledOnly [0]) [] demoTag).map (fun r => (r.1, r.2.1))
      = some (30, ascii "\x7b\"_type\": \"tag\", \"name\": \"x\"\x7d\n") := by
  rw [C1_name_only demoEnv (enabledOnly [0]) [] demoTag (by decide) (by decide) (by decide)
    (by decide) (by decide) (by decide) (by decide) (by decide) (by decide)]
  decide

/-! ## C2: suppression of a record that shows nothing -/

/-- C2: when every field is disabled, `writeJsonEntry` writes nothing, returns `0` and
leaves the field state as it was; and whenever the assembled object holds the `_type`
key only, it writes nothing and returns `0`. -/
theorem C2_suppressed (env : Env) (st : FieldState) (mio : MIO) (tag : tagEntryInfo) :
    ((∀ k, isFieldEnabled st k = false) → writeJsonEntry env st mio tag = some (0, mio, st))
    ∧ (∀ response st1, writeJsonEntry_response env st tag = some (some response, st1) →
        response.map Prod.fst = [ascii "_type"] →
        writeJsonEntry env st mio tag = some (0, mio, st1)) := by
  constructor
  · intro hoff
    have hresp : writeJsonEntry_response env st tag
        = some (some [(ascii "_type", json_t.jstring (ascii "tag"))], st) := by
      unfold writeJsonEntry_response
      rw [json_pack_type_tag]
      simp only [hoff env.FIELD_NAME, hoff env.FIELD_INPUT_FILE, hoff env.FIELD_PATTERN]
      cases hflag : env.includeExtensionFlags
      · simp
      · simp [addExtensionFields,
          addExtensionFields_enable_off env st (hoff _) (hoff _) (hoff _),
          addExtensionFields_loop_off env st tag _ _ (fun k _ => hoff k), addParserFields,
          addParserFields_loop_off env st tag _ _ _ (fun f _ => hoff f.ftype)]
    unfold writeJsonEntry
    rw [hresp]
    simp [json_object_size]
  · intro response st1 hresp hkeys
    have hsize : json_object_size response = 1 := by
      have := congrArg List.length hkeys
      simpa [json_object_size] using this
    unfold writeJsonEntry
    rw [hresp]
    simp [hsize]

/-! ## C8, C9, C10: the coercion of one rendered text -/

/-- C8 (as amended): for a field whose data type includes STRING and a rendered text
`str`, `escapeFieldValue` yields Boolean(false) when the type also includes BOOL and the
text is empty; in every other case it yields what `json_string` makes of the text:
String(`str`) with the text unchanged when `str` is valid UTF-8, and no value (NULL)
when it is not. -/
theorem C8_string_field (env : Env) (tag : tagEntryInfo) (ftype : Nat) (flag : Bool)
    (str : CStr)
    (hraw : escapeFieldValueRaw env tag ftype env.NO_PARSER_FIELD = some str)
    (hstring : env.getFieldDataType ftype &&& env.FIELDTYPE_STRING ≠ 0) :
    (env.getFieldDataType ftype &&& env.FIELDTYPE_BOOL ≠ 0 → str = [] →
        escapeFieldValue env tag ftype flag = some (some json_t.jfalse))
    ∧ (¬ (env.getFieldDataType ftype &&& env.FIELDTYPE_BOOL ≠ 0 ∧ str = []) →
        utf8_check_string str = true →
        escapeFieldValue env tag ftype flag = some (some (json_t.jstring str)))
    ∧ (¬ (env.getFieldDataType ftype &&& env.FIELDTYPE_BOOL ≠ 0 ∧ str = []) →
        utf8_check_string str = false →
        escapeFieldValue env tag ftype flag = some none) := by
  refine ⟨?_, ?_, ?_⟩
  · intro hbool hempty
    simp [escapeFieldValue, hraw, hstring, hbool, hempty]
  · intro hnot hutf8
    simp only [escapeFieldValue, hraw]
    rw [if_pos hstring, if_neg hnot]
    simp [json_string, hutf8]
  · intro hnot hutf8
    simp only [escapeFieldValue, hraw]
    rw [if_pos hstring, if_neg hnot]
    simp [json_string, hutf8]

/-- C8 fails as stated: the string field `typeref` of `demoEnv` renders the name of the
record; on the name `0xFF` (not UTF-8) `escapeFieldValue` yields no value, not
String(raw text). -/
theorem C8_string_field_counterexample :
    demoEnv.getFieldDataType 10 &&& demoEnv.FIELDTYPE_STRING ≠ 0
    ∧ escapeFieldValueRaw demoEnv badNameTag 10 demoEnv.NO_PARSER_FIELD = some [255]
    ∧ escapeFieldValue demoEnv badNameTag 10 false = some none
    ∧ escapeFieldValue demoEnv badNameTag 10 false ≠ some (some (json_t.jstring [255])) := by
  decide

/-- C8 on the BOOL-compatible string field `typeref` of `typerefEnv 5`: the empty text
gives Boolean(false), the text `x` gives String(`x`); on the plain string field of
`demoEnv` the empty text gives String of the empty text. -/
theorem C8_string_field_witness :
    escapeFieldValue (typerefEnv 5) emptyNameTag 10 false = some (some json_t.jfalse)
    ∧ escapeFieldValue (typerefEnv 5) demoTag 10 false
        = some (some (json_t.jstring (ascii "x")))
    ∧ escapeFieldValue demoEnv emptyNameTag 10 false = some (some (json_t.jstring [])) :=
  ⟨(C8_string_field (typerefEnv 5) emptyNameTag 10 false [] (by decide) (by decide)).1
      (by decide) rfl,
   (C8_string_field (typerefEnv 5) demoTag 10 false (ascii "x") (by decide) (by decide)).2.1
      (by decide) (by decide),
   (C8_string_field demoEnv emptyNameTag 10 false [] (by decide) (by decide)).2.1
      (by decide) (by decide)⟩

/-- C9: for a field whose data type is BOOL only, `escapeFieldValue` yields
Boolean(false) exactly when the rendered text is `-` and Boolean(true) for every other
text, the empty one included; `addParserFields` builds Boolean(true) for such a field
whatever its text is, `-` included. -/
theorem C9_boolean_asymmetry (env : Env) (tag : tagEntryInfo) (ftype : Nat) (flag : Bool)
    (str : CStr) (i : Nat)
    (hraw : escapeFieldValueRaw env tag ftype env.NO_PARSER_FIELD = some str)
    (hstring : env.getFieldDataType ftype &&& env.FIELDTYPE_STRING = 0)
    (hinteger : env.getFieldDataType ftype &&& env.FIELDTYPE_INTEGER = 0)
    (hbool : env.getFieldDataType ftype &&& env.FIELDTYPE_BOOL ≠ 0) :
    (escapeFieldValue env tag ftype flag = some (some json_t.jfalse) ↔ str = [45])
    ∧ (str ≠ [45] → escapeFieldValue env tag ftype flag = some (some json_t.jtrue))
    ∧ (str = [] → escapeFieldValue env tag ftype flag = some (some json_t.jtrue))
    ∧ addParserFields_value env tag ftype i = some (some json_t.jtrue) := by
  have hval : escapeFieldValue env tag ftype flag
      = some (some (json_boolean (decide (str ≠ [45])))) := by
    simp [escapeFieldValue, hraw, hstring, hinteger, hbool]
  refine ⟨?_, ?_, ?_, ?_⟩
  · rw [hval]
    by_cases h : str = [45] <;> simp [json_boolean, h]
  · intro h
    rw [hval]
    simp [json_boolean, h]
  · intro h
    rw [hval]
    simp [json_boolean, h]
  · simp [addParserFields_value, hstring, hinteger, hbool]

/-- C9 on the boolean field `typeref` of `typerefEnv 4`, which renders the name `-` of
`dashTag`: the built-in path gives Boolean(false), the parser-contributed path gives
Boolean(true) for the attached boolean field `27` whose text is `-` as well. -/
theorem C9_boolean_asymmetry_witness :
    escapeFieldValue (typerefEnv 4) dashTag 10 false = some (some json_t.jfalse)
    ∧ escapeFieldValueRaw demoEnv dashTag 27 (0 : Nat) = some [45]
    ∧ addParserFields_value demoEnv dashTag 27 0 = some (some json_t.jtrue) :=
  ⟨(C9_boolean_asymmetry (typerefEnv 4) dashTag 10 false [45] 0 (by decide) (by decide)
      (by decide) (by decide)).1.2 rfl,
   by decide,
   (C9_boolean_asymmetry demoEnv dashTag 27 false [45] 0 (by decide) (by decide)
      (by decide) (by decide)).2.2.2⟩

/-- C10: for a field whose data type includes INTEGER but not STRING: when `strToLong`
parses the rendered text as `v`, `escapeFieldValue` and `addParserFields` both yield
Integer(`v`); when it does not, `escapeFieldValue` yields no value, so that the generic
case of `renderExtensionFieldMaybe` leaves the object without a key for the field,
while `addParserFields` yields Integer(0) for the empty text and Integer(1) for any
other text. -/
theorem C10_integer_field (env : Env) (tag : tagEntryInfo) (ftype : Nat)
    (hstring : env.getFieldDataType ftype &&& env.FIELDTYPE_STRING = 0)
    (hinteger : env.getFieldDataType ftype &&& env.FIELDTYPE_INTEGER ≠ 0) :
    (∀ str flag, escapeFieldValueRaw env tag ftype env.NO_PARSER_FIELD = some str →
      (∀ v, env.strToLong str = some v →
        escapeFieldValue env tag ftype flag = some (some (json_t.jinteger v)))
      ∧ (env.strToLong str = none →
          escapeFieldValue env tag ftype flag = some none
          ∧ ∀ st response, ftype ≠ env.FIELD_LINE_NUMBER → ftype ≠ env.FIELD_FILE_SCOPE →
              renderExtensionFieldMaybe env st ftype tag response = some response))
    ∧ (∀ str (i : Nat), escapeFieldValueRaw env tag ftype i = some str →
      (∀ v, env.strToLong str = some v →
        addParserFields_value env tag ftype i = some (some (json_t.jinteger v)))
      ∧ (env.strToLong str = none →
          addParserFields_value env tag ftype i
            = some (some (json_t.jinteger (if str = [] then 0 else 1))))) := by
  refine ⟨?_, ?_⟩
  · intro str flag hraw
    refine ⟨?_, ?_⟩
    · intro v hv
      simp [escapeFieldValue, hraw, hstring, hinteger, hv, json_integer]
    · intro hv
      have hval : ∀ b, escapeFieldValue env tag ftype b = some none := by
        intro b
        simp [escapeFieldValue, hraw, hstring, hinteger, hv]
      refine ⟨hval flag, ?_⟩
      intro st response hline hscope
      unfold renderExtensionFieldMaybe
      simp only [hline, hscope, if_false, hval false]
      split <;> simp [json_object_set_new]
  · intro str i hraw
    refine ⟨?_, ?_⟩
    · intro v hv
      simp [addParserFields_value, hraw, hstring, hinteger, hv, json_integer]
    · intro hv
      simp [addParserFields_value, hraw, hstring, hinteger, hv, json_integer]

/-- C10 in `demoEnv`: the built-in integer field `epoch` renders `1700000000` and gives
that integer, the built-in integer field `end` renders `none` and gives no value; the
integer parser field `26` of `dashTag` carries `12` and gives Integer(12), and the same
data type on the text `-` of the first parser field gives Integer(1). -/
theorem C10_integer_field_witness :
    escapeFieldValue demoEnv dashTag 23 false = some (some (json_t.jinteger 1700000000))
    ∧ escapeFieldValue demoEnv dashTag 22 false = some none
    ∧ addParserFields_value demoEnv dashTag 26 1 = some (some (json_t.jinteger 12))
    ∧ addParserFields_value demoEnv dashTag 26 0 = some (some (json_t.jinteger 1)) :=
  ⟨((C10_integer_field demoEnv dashTag 23 (by decide) (by decide)).1
      (ascii "1700000000") false (by decide)).1 1700000000 (by decide),
   (((C10_integer_field demoEnv dashTag 22 (by decide) (by decide)).1
      (ascii "none") false (by decide)).2 (by decide)).1,
   ((C10_integer_field demoEnv dashTag 26 (by decide) (by decide)).2
      (ascii "12") 1 (by decide)).1 12 (by decide),
   ((C10_integer_field demoEnv dashTag 26 (by decide) (by decide)).2
      (ascii "-") 0 (by decide)).2 (by decide)⟩

/-! ## C5, C6, C7: pseudo-tags -/

theorem strchr_first (pre post : CStr) (c : Nat) (h : c ∉ pre) :
    strchr (pre ++ c :: post) c = some pre.length := by
  induction pre with
  | nil => simp [strchr]
  | cons b pre ih =>
    have hb : b ≠ c := fun e => h (by simp [e])
    have hrest : c ∉ pre := fun m => h (List.mem_cons_of_mem b m)
    simp [strchr, hb, ih hrest]

theorem strchr_absent (p : CStr) (c : Nat) (h : c ∉ p) : strchr p c = none := by
  induction p with
  | nil => rfl
  | cons b p ih =>
    have hb : b ≠ c := fun e => h (by simp [e])
    have hrest : c ∉ p := fun m => h (List.mem_cons_of_mem b m)
    simp [strchr, hb, ih hrest]

theorem utf8_ascii_type : utf8_check_string (ascii "_type") = true := by decide

theorem utf8_ascii_ptag : utf8_check_string (ascii "ptag") = true := by decide

theorem utf8_ascii_name : utf8_check_string (ascii "name") = true := by decide

theorem utf8_ascii_parserName : utf8_check_string (ascii "parserName") = true := by decide

theorem utf8_ascii_path : utf8_check_string (ascii "path") = true := by decide

theorem utf8_ascii_pattern : utf8_check_string (ascii "pattern") = true := by decide

/-- C5 (as amended): for a descriptor that declares the secondary key `key` (a key other
than the five fixed ones) and a parser name `pre ++ "!" ++ post` in which `pre` holds no
`!`, when the name and the key of the descriptor, the parser name, the file name and
the pattern are valid UTF-8, the object of
`writeJsonPtagEntry` is, in this order, `_type`=`ptag`, `name`=`desc.name`,
`parserName`=`pre`, `key`=`post`, `path`, `pattern`, and that object is written as one
line. -/
theorem C5_ptag_split (mio : MIO) (desc : ptagDesc) (key : CStr)
    (fileName pattern : Option CStr) (pre post : CStr)
    (hkey : desc.jsonObjectKey = some key)
    (hpre : 33 ∉ pre)
    (hdistinct : key ∉ [ascii "_type", ascii "name", ascii "parserName", ascii "path",
      ascii "pattern"])
    (hname8 : utf8_check_string desc.name = true)
    (hkey8 : utf8_check_string key = true)
    (hparser8 : utf8_check_string (pre ++ 33 :: post) = true)
    (hfile8 : utf8_check_string (OPT fileName) = true)
    (hpattern8 : utf8_check_string (OPT pattern) = true) :
    writeJsonPtagEntry_response desc fileName pattern (some (pre ++ 33 :: post))
      = some (stringObject
          [(ascii "_type", ascii "ptag"), (ascii "name", desc.name),
           (ascii "parserName", pre), (key, post),
           (ascii "path", OPT fileName), (ascii "pattern", OPT pattern)])
    ∧ writeJsonPtagEntry mio desc fileName pattern (some (pre ++ 33 :: post))
      = some (mio_printf mio (json_dumps (stringObject
          [(ascii "_type", ascii "ptag"), (ascii "name", desc.name),
           (ascii "parserName", pre), (key, post),
           (ascii "path", OPT fileName), (ascii "pattern", OPT pattern)]))) := by
  obtain ⟨hpre8, hpost8⟩ := utf8_check_string_split pre post hparser8
  have hresp : writeJsonPtagEntry_response desc fileName pattern (some (pre ++ 33 :: post))
      = some (stringObject
          [(ascii "_type", ascii "ptag"), (ascii "name", desc.name),
           (ascii "parserName", pre), (key, post),
           (ascii "path", OPT fileName), (ascii "pattern", OPT pattern)]) := by
    simp only [List.mem_cons, List.mem_singleton, not_or, List.not_mem_nil, not_false_eq_true,
      and_true] at hdistinct
    obtain ⟨k1, k2, k3, k4, k5⟩ := hdistinct
    have e1 : ascii "_type" ≠ ascii "name" := by decide
    have e2 : ascii "_type" ≠ ascii "parserName" := by decide
    have e3 : ascii "_type" ≠ ascii "path" := by decide
    have e4 : ascii "_type" ≠ ascii "pattern" := by decide
    have e5 : ascii "name" ≠ ascii "parserName" := by decide
    have e6 : ascii "name" ≠ ascii "path" := by decide
    have e7 : ascii "name" ≠ ascii "pattern" := by decide
    have e8 : ascii "parserName" ≠ ascii "path" := by decide
    have e9 : ascii "parserName" ≠ ascii "pattern" := by decide
    have e10 : ascii "path" ≠ ascii "pattern" := by decide
    have hrest : writeJsonPtagEntry_rest desc (some (pre ++ 33 :: post)) = some pre.length := by
      simp [writeJsonPtagEntry_rest, hkey, JSON_WRITER_CURRENT, strchr_first pre post 33 hpre]
    simp [writeJsonPtagEntry_response, hrest, hkey,
      json_pack, json_pack_members, hashtable_set, stringObject, utf8_ascii_type,
      utf8_ascii_ptag, utf8_ascii_name, utf8_ascii_parserName, utf8_ascii_path,
      utf8_ascii_pattern, hname8, hkey8, hpre8, hpost8, hfile8, hpattern8,
      e1, e2, e3, e4, e5, e6, e7, e8, e9, e10, Ne.symm k1, Ne.symm k2, Ne.symm k3, Ne.symm k4,
      Ne.symm k5, k1, k2, k3, k4, k5]
  exact ⟨hresp, by simp [writeJsonPtagEntry, hresp]⟩

/-- C5 fails as stated: with the secondary key `jsonObjectKey` declared and the parser
name `C!0.1`, a file name that is not UTF-8 makes `json_pack` return NULL, so that no
object is emitted at all; and a descriptor whose secondary key is `path` yields an
object from which the remainder `0.1` is missing. -/
theorem C5_ptag_split_counterexample :
    versionDesc.jsonObjectKey = some (ascii "jsonObjectKey")
    ∧ 33 ∈ ascii "C!0.1"
    ∧ writeJsonPtagEntry_response versionDesc (some latin1Path) none (some (ascii "C!0.1"))
        = none
    ∧ writeJsonPtagEntry [] versionDesc (some latin1Path) none (some (ascii "C!0.1")) = none
    ∧ writeJsonPtagEntry_response pathKeyDesc (some (ascii "a.c")) none (some (ascii "C!0.1"))
        = some (stringObject
            [(ascii "_type", ascii "ptag"), (ascii "name", ascii "TAG_PARSER_VERSION"),
             (ascii "parserName", ascii "C"), (ascii "path", ascii "a.c"),
             (ascii "pattern", [])]) := by
  decide

/-- C5 on the parser name `C!0.1`: `parserName` is `C`, `jsonObjectKey` is `0.1`. -/
theorem C5_ptag_split_witness :
    writeJsonPtagEntry [] versionDesc none none (some (ascii "C!0.1"))
      = some (118, ascii ("\x7b\"_type\": \"ptag\", \"name\": \"TAG_PARSER_VERSION\", "
          ++ "\"parserName\": \"C\", \"jsonObjectKey\": \"0.1\", \"path\": \"\", "
          ++ "\"pattern\": \"\"\x7d\n")) :=
  (C5_ptag_split [] versionDesc (ascii "jsonObjectKey") none none (ascii "C") (ascii "0.1")
    rfl (by decide) (by decide) (by decide) (by decide) (by decide) (by decide)
    (by decide)).2.trans (by decide)

/-- C6 (as amended): when a parser name is supplied that holds no `!`, or the descriptor
declares no secondary key, and all the strings handed to `json_pack` are valid UTF-8,
the object of `writeJsonPtagEntry` is `_type`=`ptag`, `name`=`desc.name`, `parserName`=
the whole parser name, `path`, `pattern`, with no secondary key, and that object is
written as one line. -/
theorem C6_ptag_verbatim (mio : MIO) (desc : ptagDesc) (fileName pattern : Option CStr)
    (p : CStr)
    (hno : 33 ∉ p ∨ desc.jsonObjectKey = none)
    (hname8 : utf8_check_string desc.name = true)
    (hp8 : utf8_check_string p = true)
    (hfile8 : utf8_check_string (OPT fileName) = true)
    (hpattern8 : utf8_check_string (OPT pattern) = true) :
    writeJsonPtagEntry_response desc fileName pattern (some p)
      = some (stringObject
          [(ascii "_type", ascii "ptag"), (ascii "name", desc.name),
           (ascii "parserName", p),
           (ascii "path", OPT fileName), (ascii "pattern", OPT pattern)])
    ∧ writeJsonPtagEntry mio desc fileName pattern (some p)
      = some (mio_printf mio (json_dumps (stringObject
          [(ascii "_type", ascii "ptag"), (ascii "name", desc.name),
           (ascii "parserName", p),
           (ascii "path", OPT fileName), (ascii "pattern", OPT pattern)]))) := by
  have hrest : writeJsonPtagEntry_rest desc (some p) = none := by
    rcases hno with h | h
    · cases hk : desc.jsonObjectKey <;>
        simp [writeJsonPtagEntry_rest, hk, strchr_absent p 33 h]
    · simp [writeJsonPtagEntry_rest, h]
  have hresp : writeJsonPtagEntry_response desc fileName pattern (some p)
      = some (stringObject
          [(ascii "_type", ascii "ptag"), (ascii "name", desc.name),
           (ascii "parserName", p),
           (ascii "path", OPT fileName), (ascii "pattern", OPT pattern)]) := by
    have e1 : ascii "_type" ≠ ascii "name" := by decide
    have e2 : ascii "_type" ≠ ascii "parserName" := by decide
    have e3 : ascii "_type" ≠ ascii "path" := by decide
    have e4 : ascii "_type" ≠ ascii "pattern" := by decide
    have e5 : ascii "name" ≠ ascii "parserName" := by decide
    have e6 : ascii "name" ≠ ascii "path" := by decide
    have e7 : ascii "name" ≠ ascii "pattern" := by decide
    have e8 : ascii "parserName" ≠ ascii "path" := by decide
    have e9 : ascii "parserName" ≠ ascii "pattern" := by decide
    have e10 : ascii "path" ≠ ascii "pattern" := by decide
    simp [writeJsonPtagEntry_response, hrest, json_pack, json_pack_members, hashtable_set,
      stringObject, utf8_ascii_type, utf8_ascii_ptag, utf8_ascii_name, utf8_ascii_parserName,
      utf8_ascii_path, utf8_ascii_pattern, hname8, hp8, hfile8, hpattern8,
      e1, e2, e3, e4, e5, e6, e7, e8, e9, e10]
  exact ⟨hresp, by simp [writeJsonPtagEntry, hresp]⟩

/-- C6 fails as stated: with the parser name `Perl` supplied and no secondary key
declared, a file name that is not UTF-8 makes `json_pack` return NULL, so that no object
is emitted at all. -/
theorem C6_ptag_verbatim_counterexample :
    cwdDesc.jsonObjectKey = none
    ∧ 33 ∉ ascii "Perl"
    ∧ writeJsonPtagEntry_response cwdDesc (some latin1Path) none (some (ascii "Perl")) = none
    ∧ writeJsonPtagEntry [] cwdDesc (some latin1Path) none (some (ascii "Perl")) = none := by
  decide

/-- C6 on the parser name `Perl`, with a secondary key declared: `parserName` is `Perl`
and there is no secondary key. -/
theorem C6_ptag_verbatim_witness :
    writeJsonPtagEntry [] versionDesc none none (some (ascii "Perl"))
      = some (97, ascii ("\x7b\"_type\": \"ptag\", \"name\": \"TAG_PARSER_VERSION\", "
          ++ "\"parserName\": \"Perl\", \"path\": \"\", \"pattern\": \"\"\x7d\n")) :=
  (C6_ptag_verbatim [] versionDesc none none (ascii "Perl") (Or.inl (by decide)) (by decide)
    (by decide) (by decide) (by decide)).2.trans (by decide)

/-- C7, the failing input: for the pseudo-tag `TAG_PROC_CWD` with the file name
`/caf\xE9/` (Latin-1, not UTF-8), an empty pattern and no parser name, `json_pack`
returns NULL and `writeJsonPtagEntry` emits no JSON object. -/
theorem C7_ptag_invalid_utf8 :
    utf8_check_string latin1Path = false
    ∧ writeJsonPtagEntry_response cwdDesc (some latin1Path) (some []) none = none
    ∧ writeJsonPtagEntry [] cwdDesc (some latin1Path) (some []) none = none := by
  decide

/-- When no parser name is supplied and the strings are valid UTF-8, the object of
`writeJsonPtagEntry` has exactly the keys `_type`, `name`, `path`, `pattern`, an absent
file name or pattern being the empty string, and a line of positive length is written. -/
theorem writeJsonPtagEntry_four_keys (mio : MIO) (desc : ptagDesc)
    (fileName pattern : Option CStr)
    (hname8 : utf8_check_string desc.name = true)
    (hfile8 : utf8_check_string (OPT fileName) = true)
    (hpattern8 : utf8_check_string (OPT pattern) = true) :
    writeJsonPtagEntry_response desc fileName pattern none
      = some (stringObject
          [(ascii "_type", ascii "ptag"), (ascii "name", desc.name),
           (ascii "path", OPT fileName), (ascii "pattern", OPT pattern)])
    ∧ ∃ len out, writeJsonPtagEntry mio desc fileName pattern none = some (len, out)
        ∧ 0 < len := by
  have hrest : writeJsonPtagEntry_rest desc none = none := by
    simp [writeJsonPtagEntry_rest]
  have hresp : writeJsonPtagEntry_response desc fileName pattern none
      = some (stringObject
          [(ascii "_type", ascii "ptag"), (ascii "name", desc.name),
           (ascii "path", OPT fileName), (ascii "pattern", OPT pattern)]) := by
    have e1 : ascii "_type" ≠ ascii "name" := by decide
    have e3 : ascii "_type" ≠ ascii "path" := by decide
    have e4 : ascii "_type" ≠ ascii "pattern" := by decide
    have e6 : ascii "name" ≠ ascii "path" := by decide
    have e7 : ascii "name" ≠ ascii "pattern" := by decide
    have e10 : ascii "path" ≠ ascii "pattern" := by decide
    simp [writeJsonPtagEntry_response, hrest, json_pack, json_pack_members, hashtable_set,
      stringObject, utf8_ascii_type, utf8_ascii_ptag, utf8_ascii_name,
      utf8_ascii_path, utf8_ascii_pattern, hname8, hfile8, hpattern8,
      e1, e3, e4, e6, e7, e10]
  refine ⟨hresp, _, _, by simp only [writeJsonPtagEntry, hresp]; rfl, ?_⟩
  show (0 : Int) < ((_ + 1 : Nat) : Int)
  exact_mod_cast Nat.succ_pos _

/-! ## C3: the order of the keys -/

theorem objectKeys_hashtable_set (object : json_object) (key : CStr) (value : json_t) :
    objectKeys (hashtable_set object key value)
      = if key ∈ objectKeys object then objectKeys object else objectKeys object ++ [key] := by
  induction object with
  | nil => simp [hashtable_set, objectKeys]
  | cons m rest ih =>
    obtain ⟨k, v⟩ := m
    by_cases hk : k = key
    · simp [hashtable_set, objectKeys, hk]
    · have hk' : ¬ key = k := fun e => hk e.symm
      simp only [objectKeys] at ih
      simp only [hashtable_set, hk, if_false, objectKeys, List.map_cons, List.mem_cons, hk',
        false_or, ih]
      split <;> simp

theorem objectKeys_setMember (object : json_object) (m : Option CStr × Option json_t) :
    objectKeys (setMember object m) = objectKeys object
    ∨ ∃ k, m.1 = some k ∧ k ∉ objectKeys object
        ∧ objectKeys (setMember object m) = objectKeys object ++ [k] := by
  obtain ⟨key, value⟩ := m
  cases key with
  | none => left; simp [setMember, json_object_set_new]
  | some k =>
    cases value with
    | none => left; simp [setMember, json_object_set_new]
    | some v =>
      by_cases h8 : utf8_check_string k = true
      · by_cases hmem : k ∈ objectKeys object
        · left
          simp [setMember, json_object_set_new, h8, objectKeys_hashtable_set, hmem]
        · right
          exact ⟨k, rfl, hmem, by
            simp [setMember, json_object_set_new, h8, objectKeys_hashtable_set, hmem]⟩
      · left
        simp [setMember, json_object_set_new, h8]

theorem objectKeys_foldl_sublist (ms : List (Option CStr × Option json_t))
    (object : json_object) :
    List.Sublist (objectKeys (ms.foldl setMember object))
      (objectKeys object ++ ms.filterMap Prod.fst) := by
  induction ms generalizing object with
  | nil => simp
  | cons m ms ih =>
    have h := ih (setMember object m)
    simp only [List.foldl_cons]
    rcases objectKeys_setMember object m with heq | ⟨k, hk, _, heq⟩
    · rw [heq] at h
      refine h.trans ?_
      apply List.Sublist.append_left
      cases hm : m.1 with
      | none => simp [List.filterMap_cons, hm]
      | some k => simp [List.filterMap_cons, hm]
    · rw [heq] at h
      simpa [List.filterMap_cons, hk] using h

theorem objectKeys_foldl_nodup (ms : List (Option CStr × Option json_t))
    (object : json_object) (hnodup : (objectKeys object).Nodup) :
    (objectKeys (ms.foldl setMember object)).Nodup := by
  induction ms generalizing object with
  | nil => simpa using hnodup
  | cons m ms ih =>
    simp only [List.foldl_cons]
    apply ih
    rcases objectKeys_setMember object m with heq | ⟨k, _, hk, heq⟩
    · rw [heq]; exact hnodup
    · rw [heq]
      exact List.Nodup.append hnodup (List.nodup_singleton k) (by simpa using hk)

theorem hashtable_set_head (k0 : CStr) (v0 : json_t) (rest : json_object) (key : CStr)
    (value : json_t) (h : key ≠ k0) :
    ∃ rest1, hashtable_set ((k0, v0) :: rest) key value = (k0, v0) :: rest1 := by
  have h' : ¬ k0 = key := fun e => h e.symm
  exact ⟨hashtable_set rest key value, by simp [hashtable_set, h']⟩

theorem foldl_setMember_head (ms : List (Option CStr × Option json_t)) (k0 : CStr)
    (v0 : json_t) (rest : json_object) (h : ∀ m ∈ ms, m.1 ≠ some k0) :
    ∃ rest1, ms.foldl setMember ((k0, v0) :: rest) = (k0, v0) :: rest1 := by
  induction ms generalizing rest with
  | nil => exact ⟨rest, rfl⟩
  | cons m ms ih =>
    have hm : m.1 ≠ some k0 := h m (List.mem_cons_self m ms)
    have hms : ∀ n ∈ ms, n.1 ≠ some k0 := fun n hn => h n (List.mem_cons_of_mem m hn)
    obtain ⟨key, value⟩ := m
    have hstep : ∃ rest1, setMember ((k0, v0) :: rest) (key, value) = (k0, v0) :: rest1 := by
      cases key with
      | none => exact ⟨rest, by simp [setMember, json_object_set_new]⟩
      | some k =>
        cases value with
        | none => exact ⟨rest, by simp [setMember, json_object_set_new]⟩
        | some v =>
          have hk : k ≠ k0 := fun e => hm (by simp [e])
          by_cases h8 : utf8_check_string k = true
          · obtain ⟨rest1, h1⟩ := hashtable_set_head k0 v0 rest k v hk
            exact ⟨rest1, by simp [setMember, json_object_set_new, h8, h1]⟩
          · exact ⟨rest, by simp [setMember, json_object_set_new, h8]⟩
    obtain ⟨rest1, h1⟩ := hstep
    simp only [List.foldl_cons, h1]
    exact ih rest1 hms

theorem renderExtensionFieldMaybe_eq (env : Env) (st : FieldState) (k : Nat)
    (tag : tagEntryInfo) (response r : json_object)
    (h : renderExtensionFieldMaybe env st k tag response = some r) :
    r = if extensionSelected env st tag k = true
        then setMember response (env.getFieldName k, extensionValue env tag k)
        else response := by
  unfold renderExtensionFieldMaybe at h
  by_cases hsel : extensionSelected env st tag k = true
  · have hcond : (env.getFieldName k).isSome = true ∧ env.doesFieldHaveRenderer k false = true
        ∧ isFieldEnabled st k = true ∧ env.doesFieldHaveValue k tag = true := by
      simpa [extensionSelected, and_assoc] using hsel
    rw [if_pos hsel]
    simp only [hcond, and_self, if_true] at h
    by_cases hline : k = env.FIELD_LINE_NUMBER
    · simp only [hline, if_true, Option.some.injEq] at h
      simp [setMember, extensionValue, hline, ← h]
    · by_cases hscope : k = env.FIELD_FILE_SCOPE
      · rw [if_neg hline, if_pos hscope] at h
        have hline1 : ¬ env.FIELD_FILE_SCOPE = env.FIELD_LINE_NUMBER := hscope ▸ hline
        simp [setMember, extensionValue, hline1, hscope, ← Option.some.inj h]
      · simp only [hline, hscope, if_false] at h
        cases hv : escapeFieldValue env tag k false with
        | none => simp [hv] at h
        | some value =>
          simp only [hv, Option.some.injEq] at h
          simp [setMember, extensionValue, hline, hscope, hv, ← h]
  · have hcond : ¬ ((env.getFieldName k).isSome = true ∧ env.doesFieldHaveRenderer k false = true
        ∧ isFieldEnabled st k = true ∧ env.doesFieldHaveValue k tag = true) := by
      simpa [extensionSelected, and_assoc] using hsel
    rw [if_neg hsel]
    rw [if_neg hcond] at h
    exact (Option.some.inj h).symm

theorem addExtensionFields_loop_eq (env : Env) (st : FieldState) (tag : tagEntryInfo)
    (ks : List Nat) (response r : json_object)
    (h : addExtensionFields_loop env st tag ks response = some r) :
    r = (extensionInsertions env st tag ks).foldl setMember response := by
  induction ks generalizing response with
  | nil =>
    simp only [addExtensionFields_loop, Option.some.injEq] at h
    simp [extensionInsertions, ← h]
  | cons k ks ih =>
    simp only [addExtensionFields_loop] at h
    cases hstep : renderExtensionFieldMaybe env st k tag response with
    | none => simp [hstep] at h
    | some response1 =>
      simp only [hstep] at h
      have h1 := renderExtensionFieldMaybe_eq env st k tag response response1 hstep
      have h2 := ih response1 h
      rw [h2, h1]
      by_cases hsel : extensionSelected env st tag k = true
      · simp [extensionInsertions, List.filter_cons, hsel]
      · simp [extensionInsertions, List.filter_cons, hsel]

theorem addParserFields_loop_eq (env : Env) (st : FieldState) (tag : tagEntryInfo)
    (fields : List tagField) (i : Nat) (response r : json_object)
    (h : addParserFields_loop env st tag fields i response = some r) :
    r = (parserInsertions env st tag fields i).foldl setMember response := by
  induction fields generalizing i response with
  | nil =>
    simp only [addParserFields_loop, Option.some.injEq] at h
    simp [parserInsertions, ← h]
  | cons f fields ih =>
    simp only [addParserFields_loop] at h
    by_cases hen : isFieldEnabled st f.ftype = true
    · have hne : ¬ isFieldEnabled st f.ftype = false := by simp [hen]
      rw [if_neg hne] at h
      cases hv : addParserFields_value env tag f.ftype i with
      | none => simp [hv] at h
      | some o =>
        simp only [hv] at h
        have h2 := ih (i + 1) _ h
        rw [h2]
        simp [parserInsertions, List.enumFrom_cons, List.filter_cons, hen, setMember, hv]
    · have hoff : isFieldEnabled st f.ftype = false := by simpa using hen
      rw [if_pos hoff] at h
      have h2 := ih (i + 1) _ h
      rw [h2]
      simp [parserInsertions, List.enumFrom_cons, List.filter_cons, hoff]

theorem addExtensionFields_eq (env : Env) (st : FieldState) (tag : tagEntryInfo)
    (response r : json_object) (s : FieldState)
    (h : addExtensionFields env st response tag = some (r, s)) :
    r = (extensionInsertions env (addExtensionFields_enable env st) tag
          (extensionFieldRange env)).foldl setMember response
    ∧ s = addExtensionFields_enable env st := by
  unfold addExtensionFields at h
  simp only at h
  cases hloop : addExtensionFields_loop env (addExtensionFields_enable env st) tag
      (extensionFieldRange env) response with
  | none => simp [hloop] at h
  | some r1 =>
    simp only [hloop, Option.some.injEq, Prod.mk.injEq] at h
    obtain ⟨hr, hs⟩ := h
    exact ⟨hr ▸ addExtensionFields_loop_eq env _ tag _ _ _ hloop, hs.symm⟩

theorem writeJsonEntry_response_eq (env : Env) (st : FieldState) (tag : tagEntryInfo)
    (response : json_object) (st1 : FieldState)
    (h : writeJsonEntry_response env st tag = some (some response, st1)) :
    response = (entryInsertions env st tag).foldl setMember
        [(ascii "_type", json_t.jstring (ascii "tag"))]
    ∧ st1 = (if env.includeExtensionFlags = true then addExtensionFields_enable env st else st) := by
  unfold writeJsonEntry_response at h
  rw [json_pack_type_tag] at h
  simp only at h
  split at h
  · simp at h
  · rename_i response1 h1
    have e1 : response1 = List.foldl setMember [(ascii "_type", json_t.jstring (ascii "tag"))]
        (if isFieldEnabled st env.FIELD_NAME = true
          then [(some (ascii "name"), json_string tag.name)] else []) := by
      by_cases hname : isFieldEnabled st env.FIELD_NAME = true
      · rw [if_pos hname] at h1
        rw [if_pos hname]
        cases hv : json_string tag.name with
        | none => simp [hv] at h1
        | some v =>
          simp only [hv, Option.map_some', Option.some.injEq] at h1
          simp [setMember, ← h1]
      · rw [if_neg hname] at h1
        rw [if_neg hname]
        simp [← Option.some.inj h1]
    split at h
    · simp at h
    · rename_i response3 h3
      have e3 : response3 = List.foldl setMember response1
          ((if isFieldEnabled st env.FIELD_INPUT_FILE = true
            then [(some (ascii "path"), json_string tag.sourceFileName)] else [])
          ++ (if isFieldEnabled st env.FIELD_PATTERN = true
            then [(some (ascii "pattern"),
                (escapeFieldValue env tag env.FIELD_PATTERN true).join)]
            else [])) := by
        have e2 : (if isFieldEnabled st env.FIELD_INPUT_FILE = true then
              json_object_set_new response1 (some (ascii "path"))
                (json_string tag.sourceFileName)
            else response1)
            = List.foldl setMember response1
              (if isFieldEnabled st env.FIELD_INPUT_FILE = true
                then [(some (ascii "path"), json_string tag.sourceFileName)] else []) := by
          by_cases hfile : isFieldEnabled st env.FIELD_INPUT_FILE = true
          · simp [hfile, setMember]
          · simp [hfile]
        rw [List.foldl_append, ← e2]
        by_cases hpattern : isFieldEnabled st env.FIELD_PATTERN = true
        · rw [if_pos hpattern] at h3
          rw [if_pos hpattern]
          cases hv : escapeFieldValue env tag env.FIELD_PATTERN true with
          | none => simp [hv] at h3
          | some pat =>
            simp only [hv, Option.map_some', Option.some.injEq] at h3
            simp [setMember, ← h3]
        · rw [if_neg hpattern] at h3
          rw [if_neg hpattern]
          simp [← Option.some.inj h3]
      unfold entryInsertions
      by_cases hflag : env.includeExtensionFlags = true
      · rw [if_pos hflag] at h
        rw [if_pos hflag, if_pos hflag]
        cases h4 : addExtensionFields env st response3 tag with
        | none => simp [h4] at h
        | some p4 =>
          obtain ⟨response4, st4⟩ := p4
          obtain ⟨e4, es4⟩ := addExtensionFields_eq env st tag _ _ _ h4
          simp only [h4] at h
          cases h5 : addParserFields env st4 response4 tag with
          | none => simp [h5] at h
          | some response5 =>
            simp only [h5, Option.some.injEq, Prod.mk.injEq] at h
            obtain ⟨hr, hst⟩ := h
            unfold addParserFields at h5
            have e5 := addParserFields_loop_eq env _ tag _ _ _ _ h5
            refine ⟨?_, by rw [← hst, es4]⟩
            rw [← hr, e5, e4, e3, e1, es4]
            simp only [List.foldl_append, List.append_assoc]
      · rw [if_neg hflag] at h
        rw [if_neg hflag, if_neg hflag]
        simp only [Option.some.injEq, Prod.mk.injEq] at h
        obtain ⟨hr, hst⟩ := h
        refine ⟨?_, hst.symm⟩
        rw [← hr, e3, e1]
        simp only [List.foldl_append, List.append_assoc, List.append_nil]

theorem escapeFieldValue_defined (env : Env) (tag : tagEntryInfo) (ftype : Nat) (flag : Bool)
    (hclass : fieldClassified env ftype) :
    ∃ value, escapeFieldValue env tag ftype flag = some value := by
  unfold escapeFieldValue
  cases hraw : escapeFieldValueRaw env tag ftype env.NO_PARSER_FIELD with
  | none => cases flag <;> simp
  | some str =>
    simp only
    by_cases hs : env.getFieldDataType ftype &&& env.FIELDTYPE_STRING ≠ 0
    · rw [if_pos hs]
      split <;> exact ⟨_, rfl⟩
    · rw [if_neg hs]
      by_cases hi : env.getFieldDataType ftype &&& env.FIELDTYPE_INTEGER ≠ 0
      · rw [if_pos hi]
        cases env.strToLong str <;> exact ⟨_, rfl⟩
      · rw [if_neg hi]
        have hb : env.getFieldDataType ftype &&& env.FIELDTYPE_BOOL ≠ 0 := by
          rcases hclass with h | h | h
          · exact absurd h hs
          · exact absurd h hi
          · exact h
        rw [if_pos hb]
        exact ⟨_, rfl⟩

theorem addParserFields_value_defined (env : Env) (tag : tagEntryInfo) (ftype : Nat) (i : Nat)
    (hclass : fieldClassified env ftype)
    (hraw : (escapeFieldValueRaw env tag ftype i).isSome = true) :
    ∃ value, addParserFields_value env tag ftype i = some value := by
  obtain ⟨str, hstr⟩ := Option.isSome_iff_exists.mp hraw
  unfold addParserFields_value
  simp only [hstr]
  by_cases hs : env.getFieldDataType ftype &&& env.FIELDTYPE_STRING ≠ 0
  · rw [if_pos hs]
    split
    · split <;> exact ⟨_, rfl⟩
    · exact ⟨_, rfl⟩
  · rw [if_neg hs]
    by_cases hi : env.getFieldDataType ftype &&& env.FIELDTYPE_INTEGER ≠ 0
    · rw [if_pos hi]
      cases env.strToLong str <;> exact ⟨_, rfl⟩
    · rw [if_neg hi]
      have hb : env.getFieldDataType ftype &&& env.FIELDTYPE_BOOL ≠ 0 := by
        rcases hclass with h | h | h
        · exact absurd h hs
        · exact absurd h hi
        · exact h
      rw [if_pos hb]
      exact ⟨_, rfl⟩

theorem addExtensionFields_loop_defined (env : Env) (st : FieldState) (tag : tagEntryInfo)
    (hclass : ∀ k, fieldClassified env k) (ks : List Nat) (response : json_object) :
    ∃ r, addExtensionFields_loop env st tag ks response = some r := by
  induction ks generalizing response with
  | nil => exact ⟨response, rfl⟩
  | cons k ks ih =>
    have hstep : ∃ r, renderExtensionFieldMaybe env st k tag response = some r := by
      unfold renderExtensionFieldMaybe
      simp only
      split
      · split
        · exact ⟨_, rfl⟩
        · split
          · exact ⟨_, rfl⟩
          · obtain ⟨v, hv⟩ := escapeFieldValue_defined env tag k false (hclass k)
            rw [hv]
            exact ⟨_, rfl⟩
      · exact ⟨_, rfl⟩
    obtain ⟨r1, h1⟩ := hstep
    simp only [addExtensionFields_loop, h1]
    exact ih r1

theorem addParserFields_loop_defined (env : Env) (st : FieldState) (tag : tagEntryInfo)
    (hclass : ∀ k, fieldClassified env k) (fields : List tagField)
    (hraw : ∀ f ∈ fields, ∀ i : Nat, (escapeFieldValueRaw env tag f.ftype i).isSome = true)
    (i : Nat) (response : json_object) :
    ∃ r, addParserFields_loop env st tag fields i response = some r := by
  induction fields generalizing i response with
  | nil => exact ⟨response, rfl⟩
  | cons f fields ih =>
    have hrest : ∀ g ∈ fields, ∀ i : Nat,
        (escapeFieldValueRaw env tag g.ftype i).isSome = true :=
      fun g hg => hraw g (List.mem_cons_of_mem f hg)
    simp only [addParserFields_loop]
    split
    · exact ih hrest (i + 1) response
    · obtain ⟨v, hv⟩ := addParserFields_value_defined env tag f.ftype i (hclass f.ftype)
        (hraw f (List.mem_cons_self f fields) i)
      rw [hv]
      exact ih hrest (i + 1) _

/-- When every data type of the registry is known to the coercions and every parser
field of the record renders a text, the assembly of `writeJsonEntry` has a defined
result. -/
theorem writeJsonEntry_response_defined (env : Env) (st : FieldState) (tag : tagEntryInfo)
    (hclass : ∀ k, fieldClassified env k)
    (hraw : ∀ f ∈ tag.parserFields, ∀ i : Nat,
      (escapeFieldValueRaw env tag f.ftype i).isSome = true) :
    ∃ r, writeJsonEntry_response env st tag = some r := by
  unfold writeJsonEntry_response
  rw [json_pack_type_tag]
  simp only
  split
  · exact ⟨_, rfl⟩
  · have hpat : ∀ response2 : json_object, ∃ r3,
        (if isFieldEnabled st env.FIELD_PATTERN = true then
          (escapeFieldValue env tag env.FIELD_PATTERN true).map
            (fun pat => json_object_set_new response2 (some (ascii "pattern")) pat)
        else some response2) = some r3 := by
      intro response2
      obtain ⟨v, hv⟩ := escapeFieldValue_defined env tag env.FIELD_PATTERN true (hclass _)
      split
      · rw [hv]; exact ⟨_, rfl⟩
      · exact ⟨_, rfl⟩
    obtain ⟨r3, h3⟩ := hpat _
    rw [h3]
    simp only
    split
    · unfold addExtensionFields
      obtain ⟨r4, h4⟩ := addExtensionFields_loop_defined env (addExtensionFields_enable env st)
        tag hclass (extensionFieldRange env) r3
      simp only [h4]
      unfold addParserFields
      obtain ⟨r5, h5⟩ := addParserFields_loop_defined env (addExtensionFields_enable env st)
        tag hclass tag.parserFields hraw 0 r4
      rw [h5]
      exact ⟨_, rfl⟩
    · exact ⟨_, rfl⟩

/-- The call of `writeJsonEntry` on an assembled object that has more than the `_type`
key: the object is dumped and written with one newline. -/
theorem writeJsonEntry_of_response (env : Env) (st : FieldState) (mio : MIO)
    (tag : tagEntryInfo) (response : json_object) (st1 : FieldState)
    (hrun : writeJsonEntry_response env st tag = some (some response, st1))
    (hsize : json_object_size response ≠ 1) :
    writeJsonEntry env st mio tag
      = some (Int.ofNat ((json_dumps response).length + 1),
          mio ++ json_dumps response ++ [10], st1) := by
  unfold writeJsonEntry
  rw [hrun]
  simp [hsize, mio_printf]

/-- C3: under a registry in which no field is named `_type`: the object that
`writeJsonEntry` assembles is the result of setting, on the object that holds `_type`
with the value `tag`, the members of `entryInsertions` one after the other (`name`,
`path`, `pattern`, each only if its field is enabled; then the selected extension fields
in ascending order of identity; then the enabled parser fields in the order of
attachment).  Hence the keys of the object are pairwise distinct, they appear in that
order, `_type` with the value `tag` comes first, and the line written is the dump of
that object.  The assembly has a defined result whenever every data type is known to
the coercions and every parser field renders a text. -/
theorem C3_key_order (env : Env) (st : FieldState) (mio : MIO) (tag : tagEntryInfo)
    (htype : ∀ k, env.getFieldName k ≠ some (ascii "_type")) :
    ((∀ k, fieldClassified env k) →
      (∀ f ∈ tag.parserFields, ∀ i : Nat,
        (escapeFieldValueRaw env tag f.ftype i).isSome = true) →
      ∃ r, writeJsonEntry_response env st tag = some r)
    ∧ ∀ response st1, writeJsonEntry_response env st tag = some (some response, st1) →
        response = (entryInsertions env st tag).foldl setMember
            [(ascii "_type", json_t.jstring (ascii "tag"))]
        ∧ List.Sublist (objectKeys response)
            (ascii "_type" :: (entryInsertions env st tag).filterMap Prod.fst)
        ∧ (objectKeys response).Nodup
        ∧ (∃ rest, response = (ascii "_type", json_t.jstring (ascii "tag")) :: rest)
        ∧ (json_object_size response ≠ 1 →
            writeJsonEntry env st mio tag
              = some (Int.ofNat ((json_dumps response).length + 1),
                  mio ++ json_dumps response ++ [10], st1)) := by
  refine ⟨writeJsonEntry_response_defined env st tag, ?_⟩
  intro response st1 hrun
  obtain ⟨hresp, _⟩ := writeJsonEntry_response_eq env st tag response st1 hrun
  refine ⟨hresp, ?_, ?_, ?_, writeJsonEntry_of_response env st mio tag response st1 hrun⟩
  · rw [hresp]
    exact objectKeys_foldl_sublist _ _
  · rw [hresp]
    exact objectKeys_foldl_nodup _ _ (by simp [objectKeys])
  · rw [hresp]
    apply foldl_setMember_head
    intro m hm
    have hn1 : ascii "name" ≠ ascii "_type" := by decide
    have hn2 : ascii "path" ≠ ascii "_type" := by decide
    have hn3 : ascii "pattern" ≠ ascii "_type" := by decide
    simp only [entryInsertions, List.mem_append] at hm
    rcases hm with ((hm | hm) | hm) | hm
    · split at hm
      · simp only [List.mem_singleton] at hm
        simp [hm, hn1]
      · simp at hm
    · split at hm
      · simp only [List.mem_singleton] at hm
        simp [hm, hn2]
      · simp at hm
    · split at hm
      · simp only [List.mem_singleton] at hm
        simp [hm, hn3]
      · simp at hm
    · split at hm
      · simp only [List.mem_append, extensionInsertions, parserInsertions, List.mem_map] at hm
        rcases hm with ⟨k, _, hk⟩ | ⟨p, _, hp⟩
        · rw [← hk]
          exact htype k
        · rw [← hp]
          exact htype p.2.ftype
      · simp at hm

theorem ite_ne_of_ne {α : Type} {c : Prop} [Decidable c] {a b x : α} (ha : a ≠ x)
    (hb : b ≠ x) : (if c then a else b) ≠ x := by
  split <;> assumption

theorem demoEnv_no_type_field (k : Nat) : demoEnv.getFieldName k ≠ some (ascii "_type") := by
  show demoFieldName k ≠ some (ascii "_type")
  unfold demoFieldName
  repeat' apply ite_ne_of_ne
  all_goals decide

theorem richResponse_run :
    writeJsonEntry_response demoEnv richState richTag
      = some (some richResponse, addExtensionFields_enable demoEnv richState) := by
  rfl

set_option maxRecDepth 4000 in
/-- C3 on `richTag` under `richState`: the keys are `_type`, `name`, `path`, `pattern`,
then `file`, `line`, `kind` (identities `4`, `8`, `11`), then `signature`, `arity`,
`static` (the parser fields as attached). -/
theorem C3_key_order_witness :
    objectKeys richResponse
      = [ascii "_type", ascii "name", ascii "path", ascii "pattern", ascii "file",
         ascii "line", ascii "kind", ascii "signature", ascii "arity", ascii "static"]
    ∧ (writeJsonEntry demoEnv richState [] richTag).map (fun r => (r.1, r.2.1))
      = some (164, ascii ("\x7b\"_type\": \"tag\", \"name\": \"main\", \"path\": \"a.c\", "
          ++ "\"pattern\": \"/^x$/\", \"file\": true, \"line\": 7, \"kind\": \"function\", "
          ++ "\"signature\": \"(void)\", \"arity\": 0, \"static\": true\x7d\n")) := by
  refine ⟨by decide, ?_⟩
  rw [((C3_key_order demoEnv richState [] richTag demoEnv_no_type_field).2 richResponse _
    richResponse_run).2.2.2.2 (by decide)]
  decide

/-! ## C4: every line written is one JSON object -/

theorem parseStringChars_escape (c : Nat) (hc : c = 92 ∨ c = 34 ∨ c < 32) (tail : CStr) :
    parseStringChars (dump_escape c ++ tail)
      = (parseStringChars tail).map (fun p => (c :: p.1, p.2)) := by
  obtain ⟨p, hp⟩ : ∃ p, parseStringChars tail = p := ⟨_, rfl⟩
  rw [hp]
  rcases hc with h | h | h
  · subst h
    show parseStringChars (92 :: 92 :: tail) = _
    unfold parseStringChars
    simp only [hp]
    cases p <;> simp [unescapeChar]
  · subst h
    show parseStringChars (92 :: 34 :: tail) = _
    unfold parseStringChars
    simp only [hp]
    cases p <;> simp [unescapeChar]
  · interval_cases c
    all_goals
      simp only [dump_escape, hexDigit]
      unfold parseStringChars
      cases p <;> simp [unescapeChar, hexValue, utf8Encode, hp]

theorem parseStringChars_quote (tail : CStr) :
    parseStringChars (34 :: tail) = some ([], tail) := by
  unfold parseStringChars
  simp

theorem parseStringChars_plain (c : Nat) (h1 : c ≠ 92) (h2 : c ≠ 34) (h3 : ¬ c < 32)
    (tail : CStr) :
    parseStringChars (c :: tail) = (parseStringChars tail).map (fun p => (c :: p.1, p.2)) := by
  obtain ⟨p, hp⟩ : ∃ p, parseStringChars tail = p := ⟨_, rfl⟩
  rw [hp]
  unfold parseStringChars
  cases p <;> simp [h1, h2, h3, hp]

theorem parseStringChars_dump (s tail : CStr) :
    parseStringChars (dump_string_body s ++ 34 :: tail) = some (s, tail) := by
  induction s with
  | nil => exact parseStringChars_quote tail
  | cons c s ih =>
    by_cases hc : c = 92 ∨ c = 34 ∨ c < 32
    · simp only [dump_string_body, hc, if_true, List.append_assoc]
      rw [parseStringChars_escape c hc, ih]
      rfl
    · have h1 : c ≠ 92 := fun e => hc (Or.inl e)
      have h2 : c ≠ 34 := fun e => hc (Or.inr (Or.inl e))
      have h3 : ¬ c < 32 := fun e => hc (Or.inr (Or.inr e))
      simp only [dump_string_body, hc, if_false, List.cons_append, List.nil_append]
      rw [parseStringChars_plain c h1 h2 h3, ih]
      rfl

theorem parseString_dump (s tail : CStr) (h8 : utf8_check_string s = true) :
    parseString (dump_string_body s ++ 34 :: tail) = some (s, tail) := by
  simp [parseString, parseStringChars_dump, h8]

theorem digitsValue_append_one (ds : CStr) (c : Nat) :
    digitsValue (ds ++ [c]) = digitsValue ds * 10 + (c - 48) := by
  simp [digitsValue, List.foldl_append]

theorem decimalDigits_isDigit (fuel n : Nat) :
    ∀ c ∈ decimalDigits fuel n, isDigit c = true := by
  induction fuel generalizing n with
  | zero => simp [decimalDigits]
  | succ fuel ih =>
    intro c hc
    simp only [decimalDigits] at hc
    split at hc
    · simp only [List.mem_singleton] at hc
      subst hc
      simp [isDigit]
      omega
    · simp only [List.mem_append, List.mem_singleton] at hc
      rcases hc with hc | hc
      · exact ih _ c hc
      · subst hc
        simp [isDigit]
        omega

theorem decimalDigits_value (fuel n : Nat) (h : n < fuel) :
    digitsValue (decimalDigits fuel n) = n := by
  induction fuel generalizing n with
  | zero => omega
  | succ fuel ih =>
    simp only [decimalDigits]
    split
    · simp [digitsValue]
    · rw [digitsValue_append_one, ih (n / 10) (by omega)]
      omega

theorem decimalDigits_head (fuel n : Nat) (h : n < fuel) (hpos : 0 < n) :
    ∃ c rest, decimalDigits fuel n = c :: rest ∧ 49 ≤ c ∧ c ≤ 57 := by
  induction fuel generalizing n with
  | zero => omega
  | succ fuel ih =>
    simp only [decimalDigits]
    split
    · exact ⟨48 + n, [], rfl, by omega, by omega⟩
    · obtain ⟨c, rest, hd, h1, h2⟩ := ih (n / 10) (by omega) (by omega)
      exact ⟨c, rest ++ [48 + n % 10], by simp [hd], h1, h2⟩

theorem takeWhile_append_stop (p : Nat → Bool) (ds rest : CStr) (hds : ∀ c ∈ ds, p c = true)
    (hrest : ∀ d rest1, rest = d :: rest1 → p d = false) :
    (ds ++ rest).takeWhile p = ds ∧ (ds ++ rest).dropWhile p = rest := by
  induction ds with
  | nil =>
    cases rest with
    | nil => simp
    | cons d rest1 => simp [List.takeWhile, List.dropWhile, hrest d rest1 rfl]
  | cons c ds ih =>
    have hc : p c = true := hds c (List.mem_cons_self c ds)
    have ih1 := ih (fun x hx => hds x (List.mem_cons_of_mem c hx))
    simp [List.takeWhile, List.dropWhile, hc, ih1.1, ih1.2]

theorem parseNat_dump (n : Nat) (rest : CStr)
    (hrest : ∀ d rest1, rest = d :: rest1 → isDigit d = false) :
    parseNat (decimalDigits (n + 1) n ++ rest) = some (n, rest) := by
  obtain ⟨htake, hdrop⟩ := takeWhile_append_stop isDigit (decimalDigits (n + 1) n) rest
    (decimalDigits_isDigit (n + 1) n) hrest
  unfold parseNat
  simp only [htake, hdrop]
  by_cases hn : n = 0
  · subst hn
    simp [decimalDigits, digitsValue]
  · obtain ⟨c, tail, hd, h1, h2⟩ := decimalDigits_head (n + 1) n (by omega) (by omega)
    have hval := decimalDigits_value (n + 1) n (by omega)
    rw [hd] at hval ⊢
    have hc : c ≠ 48 := by omega
    simp [hc, hval]

theorem parseInteger_dump (v : Int) (d : Nat) (rest : CStr) (hd : d = 44 ∨ d = 125) :
    parseInteger (dump_integer v ++ d :: rest) = some (v, d :: rest) := by
  have hstop : ∀ e rest1, d :: rest = e :: rest1 → isDigit e = false := by
    intro e rest1 he
    have : e = d := by
      have := (List.cons.inj he).1
      exact this.symm
    subst this
    rcases hd with h | h <;> subst h <;> decide
  have h46 : ¬ (d = 46 ∨ d = 101 ∨ d = 69) := by
    rcases hd with h | h <;> subst h <;> decide
  unfold dump_integer
  by_cases hneg : v < 0
  · rw [if_pos hneg]
    simp only [List.cons_append, parseInteger, if_true, parseNat_dump v.natAbs (d :: rest) hstop,
      Option.map_some', h46, if_false]
    congr 2
    omega
  · rw [if_neg hneg]
    have hnn : 0 ≤ v := by omega
    have hnat := parseNat_dump v.toNat (d :: rest) hstop
    have hne : decimalDigits (v.toNat + 1) v.toNat ≠ [] := by
      simp [decimalDigits]
      split <;> simp
    obtain ⟨c, tail, hct⟩ := List.exists_cons_of_ne_nil hne
    have hcdig : isDigit c = true :=
      decimalDigits_isDigit (v.toNat + 1) v.toNat c (by simp [hct])
    have hc45 : c ≠ 45 := by
      intro e
      subst e
      simp [isDigit] at hcdig
    rw [hct] at hnat ⊢
    simp only [List.cons_append] at hnat ⊢
    simp only [parseInteger, hc45, if_false, hnat, Option.map_some', h46]
    congr 2
    omega

theorem skipWs_cons (c : Nat) (rest : CStr) (h : isJsonWs c = false) :
    skipWs (c :: rest) = c :: rest := by
  simp [skipWs, h]

theorem skipWs_space (rest : CStr) : skipWs (32 :: rest) = skipWs rest := by
  simp [skipWs, isJsonWs]

theorem dump_integer_head (v : Int) :
    ∃ c tail, dump_integer v = c :: tail ∧ (c = 45 ∨ isDigit c = true) := by
  unfold dump_integer
  split
  · exact ⟨45, _, rfl, Or.inl rfl⟩
  · have hne : decimalDigits (v.toNat + 1) v.toNat ≠ [] := by
      simp [decimalDigits]
      split <;> simp
    obtain ⟨c, tail, hct⟩ := List.exists_cons_of_ne_nil hne
    exact ⟨c, tail, hct, Or.inr (decimalDigits_isDigit (v.toNat + 1) v.toNat c (by simp [hct]))⟩

theorem do_dump_head (value : json_t) :
    ∃ c tail, do_dump value = c :: tail ∧ isJsonWs c = false := by
  cases value with
  | jstring s => exact ⟨34, _, rfl, by decide⟩
  | jinteger v =>
    obtain ⟨c, tail, hct, hc⟩ := dump_integer_head v
    refine ⟨c, tail, hct, ?_⟩
    rcases hc with h | h
    · subst h; decide
    · simp only [isDigit, decide_eq_true_eq] at h
      simp [isJsonWs]
      omega
  | jtrue => exact ⟨116, _, rfl, by decide⟩
  | jfalse => exact ⟨102, _, rfl, by decide⟩
  | jnull => exact ⟨110, _, rfl, by decide⟩

theorem parseValue_dump (value : json_t) (d : Nat) (rest : CStr) (hd : d = 44 ∨ d = 125)
    (h8 : ∀ s, value = json_t.jstring s → utf8_check_string s = true) :
    parseValue (do_dump value ++ d :: rest) = some (value, d :: rest) := by
  cases value with
  | jstring s =>
    have hs := parseString_dump s (d :: rest) (h8 s rfl)
    simp [do_dump, dump_string, parseValue, hs]
  | jinteger v =>
    obtain ⟨c, tail, hct, hc⟩ := dump_integer_head v
    have hint := parseInteger_dump v d rest hd
    simp only [do_dump]
    rw [hct] at hint ⊢
    have hc1 : c ≠ 34 ∧ c ≠ 116 ∧ c ≠ 102 ∧ c ≠ 110 := by
      rcases hc with h | h
      · subst h; decide
      · simp only [isDigit, decide_eq_true_eq] at h
        omega
    simp only [List.cons_append] at hint ⊢
    simp [parseValue, hc1.1, hc1.2.1, hc1.2.2.1, hc1.2.2.2, hint]
  | jtrue => simp [do_dump, parseValue]
  | jfalse => simp [do_dump, parseValue]
  | jnull => simp [do_dump, parseValue]

theorem parseMembers_dump (m : CStr × json_t) (members : json_object) (fuel : Nat)
    (rest : CStr) (hfuel : members.length < fuel) (hvalid : ValidObject (m :: members)) :
    parseMembers fuel (dump_members (m :: members) ++ 125 :: rest)
      = some (m :: members, rest) := by
  induction members generalizing m fuel with
  | nil =>
    obtain ⟨k, v⟩ := m
    obtain ⟨fuel1, rfl⟩ : ∃ f, fuel = f + 1 := ⟨fuel - 1, by simp at hfuel; omega⟩
    have hk := (hvalid (k, v) (List.mem_cons_self _ _)).1
    have hv := (hvalid (k, v) (List.mem_cons_self _ _)).2
    obtain ⟨c, tail, hct, hc⟩ := do_dump_head v
    have hval := parseValue_dump v 125 rest (Or.inr rfl) hv
    rw [hct] at hval
    simp only [List.cons_append] at hval
    simp only [dump_members, dump_string, List.append_assoc, List.cons_append, List.nil_append,
      parseMembers]
    rw [skipWs_cons 34 _ (by decide)]
    simp only [expectChar, if_true, parseString_dump k _ hk]
    rw [skipWs_cons 58 _ (by decide)]
    simp only [if_true]
    rw [hct]
    simp only [List.cons_append]
    have hsp : skipWs (32 :: c :: (tail ++ 125 :: rest)) = c :: (tail ++ 125 :: rest) := by
      rw [skipWs_space, skipWs_cons c _ hc]
    rw [hsp, hval]
    simp [skipWs, isJsonWs]
  | cons m2 members ih =>
    obtain ⟨k, v⟩ := m
    obtain ⟨fuel1, rfl⟩ : ∃ f, fuel = f + 1 := ⟨fuel - 1, by simp at hfuel; omega⟩
    have hk := (hvalid (k, v) (List.mem_cons_self _ _)).1
    have hv := (hvalid (k, v) (List.mem_cons_self _ _)).2
    have hvalid2 : ValidObject (m2 :: members) :=
      fun x hx => hvalid x (List.mem_cons_of_mem _ hx)
    have ih1 := ih m2 fuel1 (by simp at hfuel ⊢; omega) hvalid2
    obtain ⟨c, tail, hct, hc⟩ := do_dump_head v
    have hval := parseValue_dump v 44 (32 :: (dump_members (m2 :: members) ++ 125 :: rest))
      (Or.inl rfl) hv
    rw [hct] at hval
    simp only [List.cons_append] at hval
    have hnext : parseMembers fuel1 (32 :: (dump_members (m2 :: members) ++ 125 :: rest))
        = some (m2 :: members, rest) := by
      cases fuel1 with
      | zero => simp [parseMembers] at ih1
      | succ f =>
        rw [parseMembers] at ih1 ⊢
        have hsk : skipWs (32 :: (dump_members (m2 :: members) ++ 125 :: rest))
            = skipWs (dump_members (m2 :: members) ++ 125 :: rest) := by
          simp [skipWs, isJsonWs]
        rw [hsk]
        exact ih1
    simp only [dump_members, dump_string, List.append_assoc, List.cons_append, List.nil_append,
      parseMembers]
    rw [skipWs_cons 34 _ (by decide)]
    simp only [expectChar, if_true, parseString_dump k _ hk]
    rw [skipWs_cons 58 _ (by decide)]
    simp only [if_true]
    rw [hct]
    simp only [List.cons_append]
    have hsp : ∀ t : CStr, skipWs (32 :: c :: t) = c :: t := by
      intro t
      rw [skipWs_space, skipWs_cons c _ hc]
    rw [hsp, hval]
    simp [skipWs, isJsonWs, hnext]

theorem dump_members_length (object : json_object) :
    object.length ≤ (dump_members object).length := by
  induction object with
  | nil => simp
  | cons m members ih =>
    obtain ⟨k, v⟩ := m
    cases members with
    | nil => simp [dump_members, dump_string]
    | cons m2 members =>
      simp only [dump_members, dump_string, List.length_append, List.length_cons,
        List.length_nil] at ih ⊢
      omega

/-- Reading back the dump of an object whose strings are valid UTF-8 gives the object. -/
theorem parseObject_json_dumps (object : json_object) (hvalid : ValidObject object) :
    parseObject (json_dumps object) = some object := by
  cases object with
  | nil => simp [json_dumps, parseObject, expectChar, skipWs, isJsonWs]
  | cons m members =>
    have hmem := parseMembers_dump m members
      (json_dumps (m :: members)).length [] ?_ hvalid
    · obtain ⟨k, v⟩ := m
      have hhead : ∃ t, dump_members ((k, v) :: members) ++ [125] = 34 :: t := by
        cases members <;> exact ⟨_, rfl⟩
      obtain ⟨t, ht⟩ := hhead
      simp only [json_dumps, List.cons_append, List.nil_append, List.append_assoc] at hmem ⊢
      simp only [parseObject]
      rw [skipWs_cons 123 _ (by decide)]
      simp only [expectChar, if_true]
      rw [ht] at hmem ⊢
      rw [skipWs_cons 34 _ (by decide)]
      simp only [List.length_cons] at hmem ⊢
      simp [hmem, skipWs]
    · have hlen := dump_members_length (m :: members)
      simp only [json_dumps, List.length_append, List.length_cons, List.length_nil] at hlen ⊢
      omega

theorem hexDigit_ge (d : Nat) : 32 ≤ hexDigit d := by
  unfold hexDigit
  split <;> omega

theorem dump_escape_ge (c : Nat) : ∀ b ∈ dump_escape c, 32 ≤ b := by
  intro b hb
  unfold dump_escape at hb
  have h1 := hexDigit_ge (c / 16)
  have h2 := hexDigit_ge (c % 16)
  repeat' split at hb
  all_goals
    simp only [List.mem_cons, List.mem_singleton, List.not_mem_nil, or_false] at hb
    omega

theorem dump_string_body_ge (s : CStr) : ∀ b ∈ dump_string_body s, 32 ≤ b := by
  induction s with
  | nil => simp [dump_string_body]
  | cons c s ih =>
    intro b hb
    simp only [dump_string_body, List.mem_append] at hb
    rcases hb with hb | hb
    · split at hb
      · exact dump_escape_ge c b hb
      · rename_i hc
        simp only [List.mem_singleton] at hb
        subst hb
        have : ¬ b < 32 := fun h => hc (Or.inr (Or.inr h))
        omega
    · exact ih b hb

theorem do_dump_ge (value : json_t) : ∀ b ∈ do_dump value, 32 ≤ b := by
  intro b hb
  cases value with
  | jstring s =>
    simp only [do_dump, dump_string, List.mem_append, List.mem_singleton] at hb
    rcases hb with (hb | hb) | hb
    · omega
    · exact dump_string_body_ge s b hb
    · omega
  | jinteger v =>
    have hdig : ∀ fuel n, ∀ c ∈ decimalDigits fuel n, 32 ≤ c := by
      intro fuel n c hc
      have := decimalDigits_isDigit fuel n c hc
      simp only [isDigit, decide_eq_true_eq] at this
      omega
    simp only [do_dump, dump_integer] at hb
    split at hb
    · simp only [List.mem_cons] at hb
      rcases hb with hb | hb
      · omega
      · exact hdig _ _ b hb
    · exact hdig _ _ b hb
  | jtrue =>
    simp only [do_dump, List.mem_cons, List.mem_singleton, List.not_mem_nil, or_false] at hb
    omega
  | jfalse =>
    simp only [do_dump, List.mem_cons, List.mem_singleton, List.not_mem_nil, or_false] at hb
    omega
  | jnull =>
    simp only [do_dump, List.mem_cons, List.mem_singleton, List.not_mem_nil, or_false] at hb
    omega

theorem dump_string_ge (s : CStr) : ∀ b ∈ dump_string s, 32 ≤ b :=
  do_dump_ge (json_t.jstring s)

theorem dump_members_ge (object : json_object) : ∀ b ∈ dump_members object, 32 ≤ b := by
  induction object with
  | nil => simp [dump_members]
  | cons m members ih =>
    obtain ⟨k, v⟩ := m
    intro b hb
    cases members with
    | nil =>
      simp only [dump_members, List.mem_append, List.mem_cons, List.mem_singleton,
        List.not_mem_nil, or_false] at hb
      rcases hb with (hb | hb) | hb
      · exact dump_string_ge k b hb
      · omega
      · exact do_dump_ge v b hb
    | cons m2 members =>
      simp only [dump_members, List.mem_append, List.mem_cons, List.mem_singleton,
        List.not_mem_nil, or_false] at hb
      rcases hb with (((hb | hb) | hb) | hb) | hb
      · exact dump_string_ge k b hb
      · omega
      · exact do_dump_ge v b hb
      · omega
      · exact ih b hb

theorem json_dumps_ge (object : json_object) : ∀ b ∈ json_dumps object, 32 ≤ b := by
  intro b hb
  cases object with
  | nil =>
    simp only [json_dumps, List.mem_cons, List.mem_singleton, List.not_mem_nil, or_false] at hb
    omega
  | cons m members =>
    simp only [json_dumps, List.mem_append, List.mem_singleton] at hb
    rcases hb with (hb | hb) | hb
    · omega
    · exact dump_members_ge _ b hb
    · omega

theorem jsonObjectLine_of_valid (object : json_object) (hvalid : ValidObject object) :
    JsonObjectLine (json_dumps object) := by
  refine ⟨object, rfl, parseObject_json_dumps object hvalid, json_dumps_ge object, ?_⟩
  intro h
  have := json_dumps_ge object 10 h
  omega

theorem validObject_hashtable_set (object : json_object) (key : CStr) (value : json_t)
    (hobj : ValidObject object) (hkey : utf8_check_string key = true)
    (hvalue : ValidValue value) : ValidObject (hashtable_set object key value) := by
  induction object with
  | nil =>
    intro m hm
    simp only [hashtable_set, List.mem_singleton] at hm
    subst hm
    exact ⟨hkey, hvalue⟩
  | cons m0 rest ih =>
    obtain ⟨k, v⟩ := m0
    have hrest : ValidObject rest := fun x hx => hobj x (List.mem_cons_of_mem _ hx)
    intro m hm
    simp only [hashtable_set] at hm
    split at hm
    · simp only [List.mem_cons] at hm
      rcases hm with hm | hm
      · subst hm
        exact ⟨hkey, hvalue⟩
      · exact hrest m hm
    · simp only [List.mem_cons] at hm
      rcases hm with hm | hm
      · subst hm
        exact hobj _ (List.mem_cons_self _ _)
      · exact ih hrest m hm

theorem validObject_setMember (object : json_object) (m : Option CStr × Option json_t)
    (hobj : ValidObject object) (hvalue : ∀ v, m.2 = some v → ValidValue v) :
    ValidObject (setMember object m) := by
  obtain ⟨key, value⟩ := m
  cases key with
  | none => simpa [setMember, json_object_set_new] using hobj
  | some k =>
    cases value with
    | none => simpa [setMember, json_object_set_new] using hobj
    | some v =>
      simp only [setMember, json_object_set_new]
      split
      · rename_i h8
        exact validObject_hashtable_set object k v hobj h8 (hvalue v rfl)
      · exact hobj

theorem validObject_foldl (ms : List (Option CStr × Option json_t)) (object : json_object)
    (hobj : ValidObject object) (hvalue : ∀ m ∈ ms, ∀ v, m.2 = some v → ValidValue v) :
    ValidObject (ms.foldl setMember object) := by
  induction ms generalizing object with
  | nil => exact hobj
  | cons m ms ih =>
    simp only [List.foldl_cons]
    exact ih _ (validObject_setMember object m hobj (hvalue m (List.mem_cons_self _ _)))
      (fun x hx => hvalue x (List.mem_cons_of_mem _ hx))

theorem validValue_json_string (s : CStr) (v : json_t) (h : json_string s = some v) :
    ValidValue v := by
  unfold json_string at h
  split at h
  · rename_i h8
    simp only [Option.some.injEq] at h
    subst h
    intro t ht
    simp only [json_t.jstring.injEq] at ht
    subst ht
    exact h8
  · simp at h

theorem validValue_of_not_string (v : json_t) (h : ∀ s, v ≠ json_t.jstring s) : ValidValue v :=
  fun s hs => absurd hs (h s)

theorem validValue_escapeFieldValue (env : Env) (tag : tagEntryInfo) (ftype : Nat)
    (flag : Bool) (v : json_t) (h : escapeFieldValue env tag ftype flag = some (some v)) :
    ValidValue v := by
  unfold escapeFieldValue at h
  split at h
  · rename_i str _
    simp only at h
    split at h
    · split at h
      · simp only [Option.some.injEq] at h
        subst h
        exact validValue_of_not_string _ (by intro s; simp)
      · simp only [Option.some.injEq] at h
        exact validValue_json_string str v h
    · split at h
      · split at h
        · simp only [Option.some.injEq, json_integer] at h
          subst h
          exact validValue_of_not_string _ (by intro s; simp)
        · simp at h
      · split at h
        · simp only [Option.some.injEq] at h
          subst h
          apply validValue_of_not_string
          intro s
          unfold json_boolean
          split <;> simp
        · simp at h
  · split at h
    · simp only [Option.some.injEq] at h
      subst h
      exact validValue_of_not_string _ (by intro s; simp)
    · simp at h

theorem validValue_addParserFields_value (env : Env) (tag : tagEntryInfo) (ftype i : Nat)
    (v : json_t) (h : addParserFields_value env tag ftype i = some (some v)) :
    ValidValue v := by
  unfold addParserFields_value at h
  simp only at h
  split at h
  · split at h
    · split at h
      · simp at h
      · rename_i s _
        split at h
        · simp only [Option.some.injEq] at h
          subst h
          exact validValue_of_not_string _ (by intro s; simp)
        · simp only [Option.some.injEq] at h
          exact validValue_json_string s v h
    · split at h
      · simp at h
      · rename_i s _
        simp only [Option.some.injEq] at h
        exact validValue_json_string s v h
  · split at h
    · split at h
      · simp at h
      · split at h
        · simp only [Option.some.injEq, json_integer] at h
          subst h
          exact validValue_of_not_string _ (by intro s; simp)
        · simp only [Option.some.injEq, json_integer] at h
          subst h
          exact validValue_of_not_string _ (by intro s; simp)
    · split at h
      · simp only [Option.some.injEq] at h
        subst h
        exact validValue_of_not_string _ (by intro s; simp)
      · simp at h

theorem validValue_entryInsertions (env : Env) (st : FieldState) (tag : tagEntryInfo) :
    ∀ m ∈ entryInsertions env st tag, ∀ v, m.2 = some v → ValidValue v := by
  intro m hm v hv
  simp only [entryInsertions, List.mem_append] at hm
  rcases hm with ((hm | hm) | hm) | hm
  · split at hm
    · simp only [List.mem_singleton] at hm
      subst hm
      exact validValue_json_string _ v hv
    · simp at hm
  · split at hm
    · simp only [List.mem_singleton] at hm
      subst hm
      exact validValue_json_string _ v hv
    · simp at hm
  · split at hm
    · simp only [List.mem_singleton] at hm
      subst hm
      simp only at hv
      cases he : escapeFieldValue env tag env.FIELD_PATTERN true with
      | none => simp [he] at hv
      | some o =>
        simp only [he, Option.join] at hv
        subst hv
        exact validValue_escapeFieldValue env tag _ true v he
    · simp at hm
  · split at hm
    · simp only [List.mem_append, extensionInsertions, parserInsertions, List.mem_map] at hm
      rcases hm with ⟨k, _, hk⟩ | ⟨p, _, hp⟩
      · subst hk
        simp only [extensionValue] at hv
        split at hv
        · simp only [Option.some.injEq, json_integer] at hv
          subst hv
          exact validValue_of_not_string _ (by intro s; simp)
        · split at hv
          · simp only [Option.some.injEq, json_boolean] at hv
            subst hv
            exact validValue_of_not_string _ (by intro s; simp)
          · cases he : escapeFieldValue env tag k false with
            | none => simp [he] at hv
            | some o =>
              simp only [he, Option.join] at hv
              subst hv
              exact validValue_escapeFieldValue env tag _ false v he
      · subst hp
        simp only at hv
        cases he : addParserFields_value env tag p.2.ftype p.1 with
        | none => simp [he] at hv
        | some o =>
          simp only [he, Option.join] at hv
          subst hv
          exact validValue_addParserFields_value env tag _ _ v he
    · simp at hm

theorem validObject_writeJsonEntry_response (env : Env) (st : FieldState) (tag : tagEntryInfo)
    (response : json_object) (st1 : FieldState)
    (h : writeJsonEntry_response env st tag = some (some response, st1)) :
    ValidObject response := by
  rw [(writeJsonEntry_response_eq env st tag response st1 h).1]
  apply validObject_foldl _ _ _ (validValue_entryInsertions env st tag)
  intro m hm
  simp only [List.mem_singleton] at hm
  subst hm
  refine ⟨by decide, ?_⟩
  intro s hs
  simp only [json_t.jstring.injEq] at hs
  subst hs
  decide

theorem validObject_json_pack_members (members : List (Option CStr × Option CStr))
    (object r : json_object) (hobj : ValidObject object)
    (h : json_pack_members members object = some r) : ValidObject r := by
  induction members generalizing object with
  | nil =>
    simp only [json_pack_members, Option.some.injEq] at h
    subst h
    exact hobj
  | cons m members ih =>
    obtain ⟨key, value⟩ := m
    cases key with
    | none => simp [json_pack_members] at h
    | some k =>
      cases value with
      | none => simp [json_pack_members] at h
      | some v =>
        simp only [json_pack_members] at h
        split at h
        · rename_i h8
          refine ih _ (validObject_hashtable_set object k _ hobj h8.1 ?_) h
          intro s hs
          simp only [json_t.jstring.injEq] at hs
          subst hs
          exact h8.2
        · simp at h

theorem validObject_writeJsonPtagEntry_response (desc : ptagDesc)
    (fileName pattern parserName : Option CStr) (r : json_object)
    (h : writeJsonPtagEntry_response desc fileName pattern parserName = some r) :
    ValidObject r := by
  have hnil : ValidObject [] := fun m hm => by simp at hm
  unfold writeJsonPtagEntry_response at h
  split at h <;> exact validObject_json_pack_members _ _ _ hnil h

theorem json_pack_members_defined (members : List (Option CStr × Option CStr))
    (object : json_object)
    (h : ∀ m ∈ members, ∃ k v, m = (some k, some v) ∧ utf8_check_string k = true
      ∧ utf8_check_string v = true) :
    ∃ r, json_pack_members members object = some r := by
  induction members generalizing object with
  | nil => exact ⟨object, rfl⟩
  | cons m members ih =>
    obtain ⟨k, v, hm, hk, hv⟩ := h m (List.mem_cons_self _ _)
    subst hm
    simp only [json_pack_members, hk, hv, and_self, if_true]
    exact ih _ (fun x hx => h x (List.mem_cons_of_mem _ hx))

/-- `writeJsonPtagEntry` has a defined result when its strings are valid UTF-8: the name
and the secondary key of the descriptor, the file name, the pattern and the parser
name. -/
theorem writeJsonPtagEntry_defined (mio : MIO) (desc : ptagDesc)
    (fileName pattern parserName : Option CStr)
    (hname : utf8_check_string desc.name = true)
    (hkey : ∀ k, desc.jsonObjectKey = some k → utf8_check_string k = true)
    (hfile : utf8_check_string (OPT fileName) = true)
    (hpattern : utf8_check_string (OPT pattern) = true)
    (hparser : ∀ p, parserName = some p → utf8_check_string p = true) :
    ∃ r, writeJsonPtagEntry mio desc fileName pattern parserName = some r := by
  have hresp : ∃ r, writeJsonPtagEntry_response desc fileName pattern parserName = some r := by
    unfold writeJsonPtagEntry_response
    split
    · rename_i r p hrest
      have hk : ∃ k, desc.jsonObjectKey = some k ∧ strchr p 33 = some r := by
        unfold writeJsonPtagEntry_rest at hrest
        split at hrest
        · rename_i q k hq hkey1
          simp only [Option.some.injEq] at hq
          subst hq
          simp only [JSON_WRITER_CURRENT, Nat.lt_irrefl, gt_iff_lt, Nat.zero_lt_one,
            if_true] at hrest
          exact ⟨k, hkey1, hrest⟩
        · simp at hrest
      obtain ⟨k, hk, hsplit⟩ := hk
      have hparts : utf8_check_string (p.take r) = true
          ∧ utf8_check_string (p.drop (r + 1)) = true := by
        apply utf8_check_string_split
        rw [← (strchr_spec p 33 r hsplit).1]
        exact hparser p rfl
      apply json_pack_members_defined
      intro m hm
      simp only [List.mem_cons, List.mem_singleton, List.not_mem_nil, or_false] at hm
      rcases hm with hm | hm | hm | hm | hm | hm
      · exact ⟨_, _, hm, by decide, by decide⟩
      · exact ⟨_, _, hm, by decide, hname⟩
      · exact ⟨_, _, hm, by decide, hparts.1⟩
      · exact ⟨k, _, by rw [hm, hk], hkey k hk, hparts.2⟩
      · exact ⟨_, _, hm, by decide, hfile⟩
      · exact ⟨_, _, hm, by decide, hpattern⟩
    · rename_i p _
      apply json_pack_members_defined
      intro m hm
      simp only [List.mem_cons, List.mem_singleton, List.not_mem_nil, or_false] at hm
      rcases hm with hm | hm | hm | hm | hm
      · exact ⟨_, _, hm, by decide, by decide⟩
      · exact ⟨_, _, hm, by decide, hname⟩
      · exact ⟨_, _, hm, by decide, hparser p rfl⟩
      · exact ⟨_, _, hm, by decide, hfile⟩
      · exact ⟨_, _, hm, by decide, hpattern⟩
    · apply json_pack_members_defined
      intro m hm
      simp only [List.mem_cons, List.mem_singleton, List.not_mem_nil, or_false] at hm
      rcases hm with hm | hm | hm | hm
      · exact ⟨_, _, hm, by decide, by decide⟩
      · exact ⟨_, _, hm, by decide, hname⟩
      · exact ⟨_, _, hm, by decide, hfile⟩
      · exact ⟨_, _, hm, by decide, hpattern⟩
  obtain ⟨r, hr⟩ := hresp
  refine ⟨mio_printf mio (json_dumps r), ?_⟩
  simp only [writeJsonPtagEntry, hr]

/-- `writeJsonEntry` has a defined result when every data type of the registry is known
to the coercions and every parser field of the record renders a text. -/
theorem writeJsonEntry_defined (env : Env) (st : FieldState) (mio : MIO) (tag : tagEntryInfo)
    (hclass : ∀ k, fieldClassified env k)
    (hraw : ∀ f ∈ tag.parserFields, ∀ i : Nat,
      (escapeFieldValueRaw env tag f.ftype i).isSome = true) :
    ∃ r, writeJsonEntry env st mio tag = some r := by
  obtain ⟨r, hr⟩ := writeJsonEntry_response_defined env st tag hclass hraw
  obtain ⟨response, st1⟩ := r
  unfold writeJsonEntry
  rw [hr]
  cases response with
  | none => exact ⟨_, rfl⟩
  | some response =>
    simp only
    split <;> exact ⟨_, rfl⟩

theorem json_pack_members_invalid (members : List (Option CStr × Option CStr))
    (object : json_object)
    (h : ∃ m ∈ members, ∃ v, m.2 = some v ∧ utf8_check_string v = false) :
    json_pack_members members object = none := by
  induction members generalizing object with
  | nil =>
    obtain ⟨m, hm, _⟩ := h
    simp at hm
  | cons m members ih =>
    obtain ⟨key, value⟩ := m
    cases key with
    | none => simp [json_pack_members]
    | some k =>
      cases value with
      | none => simp [json_pack_members]
      | some v =>
        simp only [json_pack_members]
        split
        · rename_i hvalid
          apply ih
          obtain ⟨m, hm, w, hw, hbad⟩ := h
          rcases List.mem_cons.mp hm with hm | hm
          · subst hm
            simp only [Option.some.injEq] at hw
            rw [← hw, hvalid.2] at hbad
            exact absurd hbad (by decide)
          · exact ⟨m, hm, w, hw, hbad⟩
        · rfl

/-- A file name that is not valid UTF-8 makes `json_pack` return NULL, so that
`writeJsonPtagEntry` reaches `mio_printf` with a NULL pointer for `%s`. -/
theorem writeJsonPtagEntry_invalid_path (mio : MIO) (desc : ptagDesc)
    (fileName pattern parserName : Option CStr)
    (hfile : utf8_check_string (OPT fileName) = false) :
    writeJsonPtagEntry mio desc fileName pattern parserName = none := by
  have hresp : writeJsonPtagEntry_response desc fileName pattern parserName = none := by
    unfold writeJsonPtagEntry_response
    split
    · exact json_pack_members_invalid _ _
        ⟨(some (ascii "path"), some (OPT fileName)), by simp, OPT fileName, rfl, hfile⟩
    · exact json_pack_members_invalid _ _
        ⟨(some (ascii "path"), some (OPT fileName)), by simp, OPT fileName, rfl, hfile⟩
    · exact json_pack_members_invalid _ _
        ⟨(some (ascii "path"), some (OPT fileName)), by simp, OPT fileName, rfl, hfile⟩
  unfold writeJsonPtagEntry
  rw [hresp]

/-- C4, what holds and the failing input.  Whenever `writeJsonEntry` has a defined
result, it has either written nothing (and returned `0`) or appended one line: the dump
of the assembled object followed by exactly one newline, with the length of that line
returned; whenever `writeJsonPtagEntry` has a defined result, it has appended such a
line.  In both cases the text before the newline reads back as the JSON object that was
dumped, and it holds no newline, indeed no byte below `0x20`, whatever newlines, quotes
or backslashes the name, the path, the pattern or a field value contain.  The result of
`writeJsonEntry` is defined when every data type is known to the coercions and every
parser field renders a text; the result of `writeJsonPtagEntry` is defined when the
strings of the pseudo-tag are valid UTF-8.  It is not defined for a file name that is not
valid UTF-8, as for the pseudo-tag `TAG_PROC_CWD` with the Latin-1 directory `/caf\xE9/`:
`json_pack` returns NULL, what is handed to `mio_printf` for `%s` is a NULL pointer, and
the line written, if any, is not the dump of a JSON object. -/
theorem C4_json_lines :
    (∀ env st mio tag len out st1, writeJsonEntry env st mio tag = some (len, out, st1) →
      (len = 0 ∧ out = mio)
      ∨ ∃ text, out = mio ++ text ++ [10] ∧ len = Int.ofNat (text.length + 1)
          ∧ JsonObjectLine text)
    ∧ (∀ mio desc fileName pattern parserName len out,
      writeJsonPtagEntry mio desc fileName pattern parserName = some (len, out) →
      ∃ text, out = mio ++ text ++ [10] ∧ len = Int.ofNat (text.length + 1)
        ∧ JsonObjectLine text)
    ∧ (∀ env st mio tag, (∀ k, fieldClassified env k) →
      (∀ f ∈ tag.parserFields, ∀ i : Nat,
        (escapeFieldValueRaw env tag f.ftype i).isSome = true) →
      ∃ r, writeJsonEntry env st mio tag = some r)
    ∧ (∀ mio desc fileName pattern parserName,
      utf8_check_string desc.name = true →
      (∀ k, desc.jsonObjectKey = some k → utf8_check_string k = true) →
      utf8_check_string (OPT fileName) = true →
      utf8_check_string (OPT pattern) = true →
      (∀ p, parserName = some p → utf8_check_string p = true) →
      ∃ r, writeJsonPtagEntry mio desc fileName pattern parserName = some r)
    ∧ (∀ mio desc fileName pattern parserName,
      utf8_check_string (OPT fileName) = false →
      writeJsonPtagEntry mio desc fileName pattern parserName = none)
    ∧ (utf8_check_string (OPT (some latin1Path)) = false
      ∧ json_pack
          [(some (ascii "_type"), some (ascii "ptag")),
           (some (ascii "name"), some cwdDesc.name),
           (some (ascii "path"), some (OPT (some latin1Path))),
           (some (ascii "pattern"), some (OPT (some [])))] = none
      ∧ ∀ mio, writeJsonPtagEntry mio cwdDesc (some latin1Path) (some []) none = none) := by
  refine ⟨?_, ?_, writeJsonEntry_defined, writeJsonPtagEntry_defined,
    writeJsonPtagEntry_invalid_path,
    by decide, by decide,
    fun mio => writeJsonPtagEntry_invalid_path mio cwdDesc (some latin1Path) (some []) none
      (by decide)⟩
  · intro env st mio tag len out st1 h
    unfold writeJsonEntry at h
    split at h
    · simp at h
    · simp only [Option.some.injEq, Prod.mk.injEq] at h
      exact Or.inl ⟨h.1.symm, h.2.1.symm⟩
    · rename_i response st2 hrun
      split at h
      · simp only [Option.some.injEq, Prod.mk.injEq] at h
        exact Or.inl ⟨h.1.symm, h.2.1.symm⟩
      · simp only [mio_printf, Option.some.injEq, Prod.mk.injEq] at h
        refine Or.inr ⟨json_dumps response, h.2.1.symm, h.1.symm, ?_⟩
        exact jsonObjectLine_of_valid response
          (validObject_writeJsonEntry_response env st tag response st2 hrun)
  · intro mio desc fileName pattern parserName len out h
    unfold writeJsonPtagEntry at h
    split at h
    · simp at h
    · rename_i response hresp
      simp only [mio_printf, Option.some.injEq, Prod.mk.injEq] at h
      refine ⟨json_dumps response, h.2.symm, h.1.symm, ?_⟩
      exact jsonObjectLine_of_valid response
        (validObject_writeJsonPtagEntry_response desc fileName pattern parserName response hresp)

/-- The line written for `controlTag`, whose name holds a newline, a quote, a backslash
and `0x1F`: the name is escaped, the line has a single newline, at its end, and reads
back as the object. -/
theorem writeJsonEntry_control_characters :
    (writeJsonEntry demoEnv (enabledOnly [0]) [] controlTag).map (fun r => (r.1, r.2.1))
      = some (42, ascii "\x7b\"_type\": \"tag\", \"name\": \"a\\n\\\"\\\\\\u001F\"\x7d\n")
    ∧ parseObject (ascii "\x7b\"_type\": \"tag\", \"name\": \"a\\n\\\"\\\\\\u001F\"\x7d")
      = some [(ascii "_type", json_t.jstring (ascii "tag")),
              (ascii "name", json_t.jstring [97, 10, 34, 92, 31])] := by
  decide

/-! ## C19, C20: the compatibility propagation and the field state -/

theorem enableField_apply (st : FieldState) (type : Nat) (state : Bool) (k : Nat) :
    enableField st type state k = if k = type then state else st k := rfl

theorem enableField_true_mono (st : FieldState) (type k : Nat) (h : st k = true) :
    enableField st type true k = true := by
  rw [enableField_apply]
  split
  · rfl
  · exact h

theorem enableField_other (st : FieldState) (type : Nat) (state : Bool) (k : Nat)
    (h : k ≠ type) : enableField st type state k = st k := by
  rw [enableField_apply, if_neg h]

theorem enableField_same (st : FieldState) (type : Nat) (state : Bool) :
    enableField st type state type = state := by
  rw [enableField_apply, if_pos rfl]

theorem addExtensionFields_enable_cases (env : Env) (st : FieldState) :
    ((st env.FIELD_KIND = true ∨ st env.FIELD_KIND_LONG = true)
      ∧ enableField st env.FIELD_KIND_KEY true env.FIELD_SCOPE = true
      ∧ addExtensionFields_enable env st
        = enableField (enableField (enableField st env.FIELD_KIND_KEY true)
            env.FIELD_SCOPE_KEY true) env.FIELD_SCOPE_KIND_LONG true)
    ∨ ((st env.FIELD_KIND = true ∨ st env.FIELD_KIND_LONG = true)
      ∧ enableField st env.FIELD_KIND_KEY true env.FIELD_SCOPE = false
      ∧ addExtensionFields_enable env st = enableField st env.FIELD_KIND_KEY true)
    ∨ ((st env.FIELD_KIND = false ∧ st env.FIELD_KIND_LONG = false)
      ∧ st env.FIELD_SCOPE = true
      ∧ addExtensionFields_enable env st
        = enableField (enableField st env.FIELD_SCOPE_KEY true) env.FIELD_SCOPE_KIND_LONG true)
    ∨ ((st env.FIELD_KIND = false ∧ st env.FIELD_KIND_LONG = false)
      ∧ st env.FIELD_SCOPE = false
      ∧ addExtensionFields_enable env st = st) := by
  by_cases ha : st env.FIELD_KIND = true ∨ st env.FIELD_KIND_LONG = true
  · by_cases hb : enableField st env.FIELD_KIND_KEY true env.FIELD_SCOPE = true
    · exact Or.inl ⟨ha, hb, by simp only [addExtensionFields_enable, isFieldEnabled, ha, hb,
        if_true]⟩
    · refine Or.inr (Or.inl ⟨ha, by simpa using hb, ?_⟩)
      simp [addExtensionFields_enable, isFieldEnabled, ha, hb]
  · have ha2 : st env.FIELD_KIND = false ∧ st env.FIELD_KIND_LONG = false := by
      simpa [not_or] using ha
    by_cases hb : st env.FIELD_SCOPE = true
    · refine Or.inr (Or.inr (Or.inl ⟨ha2, hb, ?_⟩))
      simp only [addExtensionFields_enable, isFieldEnabled, ha, hb, if_true, if_false]
    · refine Or.inr (Or.inr (Or.inr ⟨ha2, by simpa using hb, ?_⟩))
      simp [addExtensionFields_enable, isFieldEnabled, ha, hb]

theorem addExtensionFields_enable_mono (env : Env) (st : FieldState) (k : Nat)
    (h : st k = true) : addExtensionFields_enable env st k = true := by
  rcases addExtensionFields_enable_cases env st with
    ⟨_, _, e⟩ | ⟨_, _, e⟩ | ⟨_, _, e⟩ | ⟨_, _, e⟩ <;> rw [e]
  · exact enableField_true_mono _ _ k (enableField_true_mono _ _ k
      (enableField_true_mono _ _ k h))
  · exact enableField_true_mono _ _ k h
  · exact enableField_true_mono _ _ k (enableField_true_mono _ _ k h)
  · exact h

theorem addExtensionFields_enable_other (env : Env) (st : FieldState) (k : Nat)
    (h1 : k ≠ env.FIELD_KIND_KEY) (h2 : k ≠ env.FIELD_SCOPE_KEY)
    (h3 : k ≠ env.FIELD_SCOPE_KIND_LONG) : addExtensionFields_enable env st k = st k := by
  rcases addExtensionFields_enable_cases env st with
    ⟨_, _, e⟩ | ⟨_, _, e⟩ | ⟨_, _, e⟩ | ⟨_, _, e⟩ <;> rw [e]
  · rw [enableField_other _ _ true k h3, enableField_other _ _ true k h2,
      enableField_other _ _ true k h1]
  · rw [enableField_other _ _ true k h1]
  · rw [enableField_other _ _ true k h3, enableField_other _ _ true k h2]

theorem addExtensionFields_enable_kind (env : Env) (st : FieldState)
    (h : st env.FIELD_KIND = true ∨ st env.FIELD_KIND_LONG = true) :
    addExtensionFields_enable env st env.FIELD_KIND_KEY = true := by
  have hk : enableField st env.FIELD_KIND_KEY true env.FIELD_KIND_KEY = true :=
    enableField_same st _ true
  rcases addExtensionFields_enable_cases env st with
    ⟨_, _, e⟩ | ⟨_, _, e⟩ | ⟨⟨h1, h2⟩, _, _⟩ | ⟨⟨h1, h2⟩, _, _⟩
  · rw [e]
    exact enableField_true_mono _ _ _ (enableField_true_mono _ _ _ hk)
  · rw [e]
    exact hk
  · rcases h with h | h
    · rw [h1] at h; exact absurd h (by decide)
    · rw [h2] at h; exact absurd h (by decide)
  · rcases h with h | h
    · rw [h1] at h; exact absurd h (by decide)
    · rw [h2] at h; exact absurd h (by decide)

theorem addExtensionFields_enable_scope (env : Env) (st : FieldState)
    (h : st env.FIELD_SCOPE = true) :
    addExtensionFields_enable env st env.FIELD_SCOPE_KEY = true
    ∧ addExtensionFields_enable env st env.FIELD_SCOPE_KIND_LONG = true := by
  rcases addExtensionFields_enable_cases env st with
    ⟨_, _, e⟩ | ⟨_, hb, _⟩ | ⟨_, _, e⟩ | ⟨_, hb, _⟩
  · rw [e]
    exact ⟨enableField_true_mono _ _ _ (enableField_same _ _ true), enableField_same _ _ true⟩
  · rw [enableField_true_mono st _ _ h] at hb
    exact absurd hb (by decide)
  · rw [e]
    exact ⟨enableField_true_mono _ _ _ (enableField_same _ _ true), enableField_same _ _ true⟩
  · rw [h] at hb
    exact absurd hb (by decide)

theorem addExtensionFields_enable_changed (env : Env) (st : FieldState) (k : Nat)
    (h : addExtensionFields_enable env st k ≠ st k) :
    (k = env.FIELD_KIND_KEY ∨ k = env.FIELD_SCOPE_KEY ∨ k = env.FIELD_SCOPE_KIND_LONG)
    ∧ st k = false ∧ addExtensionFields_enable env st k = true := by
  have hmem : k = env.FIELD_KIND_KEY ∨ k = env.FIELD_SCOPE_KEY
      ∨ k = env.FIELD_SCOPE_KIND_LONG := by
    by_contra hc
    simp only [not_or] at hc
    exact h (addExtensionFields_enable_other env st k hc.1 hc.2.1 hc.2.2)
  have hst : st k = false := by
    cases hk : st k with
    | false => rfl
    | true => exact absurd ((addExtensionFields_enable_mono env st k hk).trans hk.symm) h
  refine ⟨hmem, hst, ?_⟩
  cases he : addExtensionFields_enable env st k with
  | true => rfl
  | false => exact absurd (he.trans hst.symm) h

/-- The field state is a fixed point of the propagation as soon as the successor fields
of the enabled legacy fields are enabled. -/
theorem addExtensionFields_enable_fixed (env : Env) (st : FieldState)
    (hkind : st env.FIELD_KIND = true ∨ st env.FIELD_KIND_LONG = true →
      st env.FIELD_KIND_KEY = true)
    (hscope : st env.FIELD_SCOPE = true →
      st env.FIELD_SCOPE_KEY = true ∧ st env.FIELD_SCOPE_KIND_LONG = true) :
    addExtensionFields_enable env st = st := by
  have hset : ∀ (s : FieldState) (t : Nat), s t = true → enableField s t true = s := by
    intro s t ht
    funext k
    rw [enableField_apply]
    split
    · rename_i hk
      rw [hk, ht]
    · rfl
  rcases addExtensionFields_enable_cases env st with
    ⟨ha, hb, e⟩ | ⟨ha, _, e⟩ | ⟨_, hb, e⟩ | ⟨_, _, e⟩
  · rw [e, hset st _ (hkind ha)] at *
    rw [hset st _ (hscope hb).1, hset st _ (hscope hb).2]
  · rw [e, hset st _ (hkind ha)]
  · rw [e, hset st _ (hscope hb).1, hset st _ (hscope hb).2]
  · exact e

theorem addExtensionFields_enable_idem (env : Env) (st : FieldState)
    (hlegacy : ∀ l ∈ [env.FIELD_KIND, env.FIELD_KIND_LONG],
      l ∉ [env.FIELD_SCOPE_KEY, env.FIELD_SCOPE_KIND_LONG]) :
    addExtensionFields_enable env (addExtensionFields_enable env st)
      = addExtensionFields_enable env st := by
  have hk1 : env.FIELD_KIND ≠ env.FIELD_SCOPE_KEY ∧ env.FIELD_KIND ≠ env.FIELD_SCOPE_KIND_LONG := by
    have := hlegacy env.FIELD_KIND (by simp)
    simpa [not_or] using this
  have hk2 : env.FIELD_KIND_LONG ≠ env.FIELD_SCOPE_KEY
      ∧ env.FIELD_KIND_LONG ≠ env.FIELD_SCOPE_KIND_LONG := by
    have := hlegacy env.FIELD_KIND_LONG (by simp)
    simpa [not_or] using this
  apply addExtensionFields_enable_fixed
  · intro hen
    rcases addExtensionFields_enable_cases env st with
      ⟨ha, _, _⟩ | ⟨ha, _, _⟩ | ⟨⟨h1, h2⟩, _, e⟩ | ⟨⟨h1, h2⟩, _, e⟩
    · exact addExtensionFields_enable_kind env st ha
    · exact addExtensionFields_enable_kind env st ha
    · rw [e] at hen
      rw [enableField_other _ _ true _ hk1.2, enableField_other _ _ true _ hk1.1,
        enableField_other _ _ true _ hk2.2, enableField_other _ _ true _ hk2.1, h1, h2] at hen
      simp at hen
    · rw [e, h1, h2] at hen
      simp at hen
  · intro hen
    rcases addExtensionFields_enable_cases env st with
      ⟨_, _, e⟩ | ⟨_, hb, e⟩ | ⟨_, _, e⟩ | ⟨_, hb, e⟩
    · rw [e]
      exact ⟨enableField_true_mono _ _ _ (enableField_same _ _ true), enableField_same _ _ true⟩
    · rw [e, hb] at hen
      exact absurd hen (by decide)
    · rw [e]
      exact ⟨enableField_true_mono _ _ _ (enableField_same _ _ true), enableField_same _ _ true⟩
    · rw [e, hb] at hen
      exact absurd hen (by decide)

/-- C19: when the legacy fields `FIELD_KIND` and `FIELD_KIND_LONG` are identities other
than the successors `FIELD_SCOPE_KEY` and `FIELD_SCOPE_KIND_LONG`, the compatibility
propagation at the head of `addExtensionFields` is idempotent: applied to the field
state that it has produced, it changes nothing. -/
theorem C19_propagation_idempotent (env : Env) (st : FieldState)
    (hlegacy : ∀ l ∈ [env.FIELD_KIND, env.FIELD_KIND_LONG],
      l ∉ [env.FIELD_SCOPE_KEY, env.FIELD_SCOPE_KIND_LONG]) :
    addExtensionFields_enable env (addExtensionFields_enable env st)
      = addExtensionFields_enable env st :=
  addExtensionFields_enable_idem env st hlegacy

/-- C19 in `demoEnv`, on the state in which only the legacy kind and scope fields are
enabled: one application enables `kind`, `scope` and `scopeKind` (identities `11`, `17`,
`18`), and a second application changes nothing. -/
theorem C19_propagation_idempotent_witness :
    (List.range 30).filter (addExtensionFields_enable demoEnv (enabledOnly [6, 9]))
      = [6, 9, 11, 17, 18]
    ∧ addExtensionFields_enable demoEnv (addExtensionFields_enable demoEnv (enabledOnly [6, 9]))
      = addExtensionFields_enable demoEnv (enabledOnly [6, 9]) :=
  ⟨by decide, C19_propagation_idempotent demoEnv (enabledOnly [6, 9]) (by decide)⟩

theorem writeJsonEntry_response_aborted (env : Env) (st : FieldState) (tag : tagEntryInfo)
    (st1 : FieldState) (h : writeJsonEntry_response env st tag = some (none, st1)) :
    st1 = st := by
  unfold writeJsonEntry_response at h
  rw [json_pack_type_tag] at h
  simp only at h
  split at h
  · simp only [Option.some.injEq, Prod.mk.injEq, true_and] at h
    exact h.symm
  · split at h
    · simp at h
    · split at h
      · split at h
        · simp at h
        · split at h
          · simp at h
          · simp at h
      · simp at h

theorem writeJsonEntry_state (env : Env) (st : FieldState) (mio : MIO) (tag : tagEntryInfo)
    (len : Int) (out : MIO) (st1 : FieldState)
    (h : writeJsonEntry env st mio tag = some (len, out, st1)) :
    st1 = st ∨ (env.includeExtensionFlags = true ∧ st1 = addExtensionFields_enable env st) := by
  unfold writeJsonEntry at h
  split at h
  · simp at h
  · rename_i st2 hrun
    simp only [Option.some.injEq, Prod.mk.injEq] at h
    rw [← h.2.2]
    exact Or.inl (writeJsonEntry_response_aborted env st tag st2 hrun)
  · rename_i response st2 hrun
    have hst := (writeJsonEntry_response_eq env st tag response st2 hrun).2
    have hst1 : st1 = st2 := by
      split at h <;> simp only [Option.some.injEq, Prod.mk.injEq] at h <;> exact h.2.2.symm
    rw [hst1, hst]
    by_cases hflag : env.includeExtensionFlags = true
    · exact Or.inr ⟨hflag, by rw [if_pos hflag]⟩
    · exact Or.inl (by rw [if_neg hflag])

/-- C20: the field state that `writeJsonEntry` leaves differs from the one it found at
most in `FIELD_KIND_KEY`, `FIELD_SCOPE_KEY` and `FIELD_SCOPE_KIND_LONG`, a flag that
differs has been turned on, no enabled field is disabled, and the state is unchanged
when extension fields are not requested or when none of `FIELD_KIND`, `FIELD_KIND_LONG`
and `FIELD_SCOPE` is enabled.  (`writeJsonPtagEntry` calls no function of the registry;
in the embedding it neither takes nor returns a field state.) -/
theorem C20_registry_frame (env : Env) (st : FieldState) (mio : MIO) (tag : tagEntryInfo)
    (len : Int) (out : MIO) (st1 : FieldState)
    (h : writeJsonEntry env st mio tag = some (len, out, st1)) :
    (∀ k, k ≠ env.FIELD_KIND_KEY → k ≠ env.FIELD_SCOPE_KEY → k ≠ env.FIELD_SCOPE_KIND_LONG →
      st1 k = st k)
    ∧ (∀ k, st1 k ≠ st k → st k = false ∧ st1 k = true)
    ∧ (∀ k, st k = true → st1 k = true)
    ∧ (env.includeExtensionFlags = false → st1 = st)
    ∧ (st env.FIELD_KIND = false → st env.FIELD_KIND_LONG = false →
        st env.FIELD_SCOPE = false → st1 = st) := by
  rcases writeJsonEntry_state env st mio tag len out st1 h with e | ⟨hflag, e⟩
  · subst e
    exact ⟨fun _ _ _ _ => rfl, fun k hk => absurd rfl hk, fun _ hk => hk, fun _ => rfl,
      fun _ _ _ => rfl⟩
  · subst e
    refine ⟨addExtensionFields_enable_other env st, ?_, addExtensionFields_enable_mono env st,
      ?_, addExtensionFields_enable_off env st⟩
    · intro k hk
      exact (addExtensionFields_enable_changed env st k hk).2
    · intro hoff
      rw [hflag] at hoff
      exact absurd hoff (by decide)

/-- C20 on `richTag` under `richState` (legacy kind enabled): the call turns on
identity `11` (`FIELD_KIND_KEY`) and nothing else. -/
theorem C20_registry_frame_witness :
    (List.range 30).filter richState = [0, 1, 2, 4, 6, 8, 25, 26, 27]
    ∧ (List.range 30).filter (addExtensionFields_enable demoEnv richState)
      = [0, 1, 2, 4, 6, 8, 11, 25, 26, 27]
    ∧ (∀ k, k ≠ demoEnv.FIELD_KIND_KEY → k ≠ demoEnv.FIELD_SCOPE_KEY →
        k ≠ demoEnv.FIELD_SCOPE_KIND_LONG →
        addExtensionFields_enable demoEnv richState k = richState k)
    ∧ (∀ k, richState k = true → addExtensionFields_enable demoEnv richState k = true) :=
  ⟨by decide, by decide,
   (C20_registry_frame demoEnv richState [] richTag _ _ _
      (writeJsonEntry_of_response demoEnv richState [] richTag richResponse _
        richResponse_run (by decide))).1,
   (C20_registry_frame demoEnv richState [] richTag _ _ _
      (writeJsonEntry_of_response demoEnv richState [] richTag richResponse _
        richResponse_run (by decide))).2.2.1⟩

/-! ## C13: a name that cannot be built -/

/-- C13: when `FIELD_NAME` is enabled and `json_string` cannot build the value of the
name, `writeJsonEntry` writes nothing and returns `0`, whatever other fields are
enabled, and the field state is the one it found: no successor field has been
force-enabled. -/
theorem C13_name_failure (env : Env) (st : FieldState) (mio : MIO) (tag : tagEntryInfo)
    (hname : isFieldEnabled st env.FIELD_NAME = true)
    (hfail : json_string tag.name = none) :
    writeJsonEntry env st mio tag = some (0, mio, st) := by
  have hrun : writeJsonEntry_response env st tag = some (none, st) := by
    unfold writeJsonEntry_response
    rw [json_pack_type_tag]
    simp [hname, hfail]
  unfold writeJsonEntry
  rw [hrun]

/-- C13 on the record named `0xFF` under `richState`, in which the legacy kind field is
enabled: nothing is written, `0` is returned, and `FIELD_KIND_KEY` (identity `11`) is
still disabled afterwards. -/
theorem C13_name_failure_witness :
    writeJsonEntry demoEnv richState [] { richTag with name := [255] }
      = some (0, [], richState)
    ∧ richState demoEnv.FIELD_KIND = true ∧ richState demoEnv.FIELD_KIND_KEY = false :=
  ⟨C13_name_failure demoEnv richState [] { richTag with name := [255] } (by decide)
    (by decide), by decide, by decide⟩

/-! ## C18: the two coercions of a string field -/

/-- C18 (as amended): for a data type that includes STRING (whatever its other bits) and
a rendered text, the coercion of `escapeFieldValue` and the one of `addParserFields`
give the same result: Boolean(false) for the empty text on a BOOL-compatible type;
otherwise String(text) when the text is valid UTF-8 and no value (NULL) when it is
not; never an Integer. -/
theorem C18_string_paths_agree (env : Env) (tag : tagEntryInfo) (ftype : Nat) (flag : Bool)
    (i : Nat) (str : CStr)
    (hraw : escapeFieldValueRaw env tag ftype env.NO_PARSER_FIELD = some str)
    (hrawi : escapeFieldValueRaw env tag ftype i = some str)
    (hstring : env.getFieldDataType ftype &&& env.FIELDTYPE_STRING ≠ 0) :
    escapeFieldValue env tag ftype flag = addParserFields_value env tag ftype i
    ∧ (env.getFieldDataType ftype &&& env.FIELDTYPE_BOOL ≠ 0 → str = [] →
        addParserFields_value env tag ftype i = some (some json_t.jfalse))
    ∧ (¬ (env.getFieldDataType ftype &&& env.FIELDTYPE_BOOL ≠ 0 ∧ str = []) →
        utf8_check_string str = true →
        addParserFields_value env tag ftype i = some (some (json_t.jstring str)))
    ∧ (¬ (env.getFieldDataType ftype &&& env.FIELDTYPE_BOOL ≠ 0 ∧ str = []) →
        utf8_check_string str = false →
        addParserFields_value env tag ftype i = some none)
    ∧ (∀ v, addParserFields_value env tag ftype i ≠ some (some (json_t.jinteger v))) := by
  have hp : addParserFields_value env tag ftype i
      = if env.getFieldDataType ftype &&& env.FIELDTYPE_BOOL ≠ 0 ∧ str = []
        then some (some json_t.jfalse) else some (json_string str) := by
    unfold addParserFields_value
    simp only [hrawi]
    rw [if_pos hstring]
    by_cases hb : env.getFieldDataType ftype &&& env.FIELDTYPE_BOOL ≠ 0
    · rw [if_pos hb]
      by_cases he : str = []
      · simp [hb, he]
      · simp [hb, he]
    · rw [if_neg hb]
      simp [hb]
  have he : escapeFieldValue env tag ftype flag
      = if env.getFieldDataType ftype &&& env.FIELDTYPE_BOOL ≠ 0 ∧ str = []
        then some (some json_t.jfalse) else some (json_string str) := by
    unfold escapeFieldValue
    simp only [hraw]
    rw [if_pos hstring]
  refine ⟨he.trans hp.symm, ?_, ?_, ?_, ?_⟩
  · intro hb hs
    rw [hp, if_pos ⟨hb, hs⟩]
  · intro hn h8
    rw [hp, if_neg hn]
    simp [json_string, h8]
  · intro hn h8
    rw [hp, if_neg hn]
    simp [json_string, h8]
  · intro v
    rw [hp]
    split
    · simp
    · unfold json_string
      split <;> simp

/-- C18 fails as stated: the string field `typeref` of `demoEnv` on the text `0xFF` (not
UTF-8), rendered alike for the record and for its parser field: both coercions agree,
but on no value, not on String(raw text). -/
theorem C18_string_paths_agree_counterexample :
    demoEnv.getFieldDataType 10 &&& demoEnv.FIELDTYPE_STRING ≠ 0
    ∧ escapeFieldValueRaw demoEnv badFieldTag 10 demoEnv.NO_PARSER_FIELD = some [255]
    ∧ escapeFieldValueRaw demoEnv badFieldTag 10 (0 : Nat) = some [255]
    ∧ escapeFieldValue demoEnv badFieldTag 10 false = some none
    ∧ addParserFields_value demoEnv badFieldTag 10 0 = some none
    ∧ addParserFields_value demoEnv badFieldTag 10 0 ≠ some (some (json_t.jstring [255])) := by
  decide

/-- C18 on the type STRING+INTEGER+BOOL (`7`) of `typerefEnv 7` and the text `x`, rendered
alike for the record and for its parser field: both coercions give String(`x`). -/
theorem C18_string_paths_agree_witness :
    escapeFieldValue (typerefEnv 7) xFieldTag 10 false
      = some (some (json_t.jstring (ascii "x")))
    ∧ addParserFields_value (typerefEnv 7) xFieldTag 10 0
      = some (some (json_t.jstring (ascii "x"))) := by
  have h := C18_string_paths_agree (typerefEnv 7) xFieldTag 10 false 0 (ascii "x") (by decide) (by decide)
    (by decide)
  exact ⟨h.1.trans (h.2.2.1 (by decide) (by decide)), h.2.2.1 (by decide) (by decide)⟩

/-! ## C16, C17: the extension pass -/

theorem renderExtensionFieldMaybe_skip (env : Env) (st : FieldState) (k : Nat)
    (tag : tagEntryInfo) (response : json_object)
    (h : extensionSelected env st tag k = false) :
    renderExtensionFieldMaybe env st k tag response = some response := by
  have hcond : ¬ ((env.getFieldName k).isSome = true ∧ env.doesFieldHaveRenderer k false = true
      ∧ isFieldEnabled st k = true ∧ env.doesFieldHaveValue k tag = true) := by
    intro hc
    have : extensionSelected env st tag k = true := by
      simp [extensionSelected, hc.1, hc.2.1, hc.2.2.1, hc.2.2.2]
    rw [h] at this
    exact absurd this (by decide)
  unfold renderExtensionFieldMaybe
  simp only
  rw [if_neg hcond]

theorem extensionSelected_iff (env : Env) (st : FieldState) (tag : tagEntryInfo) (k : Nat) :
    extensionSelected env st tag k = true
      ↔ ((env.getFieldName k).isSome = true ∧ env.doesFieldHaveRenderer k false = true
        ∧ isFieldEnabled st k = true ∧ env.doesFieldHaveValue k tag = true) := by
  simp [extensionSelected, and_assoc]

/-- C16: `renderExtensionFieldMaybe` leaves the object as it is for a field that has no
display name, no renderer, is disabled or has no value for the record, so that it
changes the object only for a field that meets the four conditions; every key of the
assembled object is `_type`, `name`, `path`, `pattern`, the display name of an identity
of the scan that meets the four conditions on the field state left by the propagation,
or the display name of a parser field enabled in that state; and when extension fields
are not requested every key is one of `_type`, `name`, `path`, `pattern`. -/
theorem C16_extension_selection (env : Env) (st : FieldState) (tag : tagEntryInfo) :
    (∀ k response,
      ¬ ((env.getFieldName k).isSome = true ∧ env.doesFieldHaveRenderer k false = true
        ∧ isFieldEnabled st k = true ∧ env.doesFieldHaveValue k tag = true) →
      renderExtensionFieldMaybe env st k tag response = some response)
    ∧ (∀ k response r, renderExtensionFieldMaybe env st k tag response = some r →
      r ≠ response →
      (env.getFieldName k).isSome = true ∧ env.doesFieldHaveRenderer k false = true
        ∧ isFieldEnabled st k = true ∧ env.doesFieldHaveValue k tag = true)
    ∧ (∀ response st1, writeJsonEntry_response env st tag = some (some response, st1) →
      ∀ key ∈ objectKeys response,
        key ∈ [ascii "_type", ascii "name", ascii "path", ascii "pattern"]
        ∨ (env.includeExtensionFlags = true
          ∧ ((∃ k ∈ extensionFieldRange env, env.getFieldName k = some key
                ∧ env.doesFieldHaveRenderer k false = true
                ∧ isFieldEnabled (addExtensionFields_enable env st) k = true
                ∧ env.doesFieldHaveValue k tag = true)
            ∨ (∃ f ∈ tag.parserFields, env.getFieldName f.ftype = some key
                ∧ isFieldEnabled (addExtensionFields_enable env st) f.ftype = true))))
    ∧ (env.includeExtensionFlags = false →
      ∀ response st1, writeJsonEntry_response env st tag = some (some response, st1) →
      ∀ key ∈ objectKeys response,
        key ∈ [ascii "_type", ascii "name", ascii "path", ascii "pattern"]) := by
  have hkeys : ∀ response st1,
      writeJsonEntry_response env st tag = some (some response, st1) →
      ∀ key ∈ objectKeys response,
        key ∈ [ascii "_type", ascii "name", ascii "path", ascii "pattern"]
        ∨ (env.includeExtensionFlags = true
          ∧ ((∃ k ∈ extensionFieldRange env, env.getFieldName k = some key
                ∧ env.doesFieldHaveRenderer k false = true
                ∧ isFieldEnabled (addExtensionFields_enable env st) k = true
                ∧ env.doesFieldHaveValue k tag = true)
            ∨ (∃ f ∈ tag.parserFields, env.getFieldName f.ftype = some key
                ∧ isFieldEnabled (addExtensionFields_enable env st) f.ftype = true))) := by
    intro response st1 hrun key hkey
    rw [(writeJsonEntry_response_eq env st tag response st1 hrun).1] at hkey
    have hsub := (objectKeys_foldl_sublist (entryInsertions env st tag)
      [(ascii "_type", json_t.jstring (ascii "tag"))]).subset hkey
    simp only [objectKeys, List.map_cons, List.map_nil, List.singleton_append, List.mem_cons,
      List.mem_filterMap] at hsub
    rcases hsub with h | ⟨m, hm, hmk⟩
    · exact Or.inl (by simp [h])
    · simp only [entryInsertions, List.mem_append] at hm
      rcases hm with ((hm | hm) | hm) | hm
      · split at hm
        · simp only [List.mem_singleton] at hm
          subst hm
          simp only [Option.some.injEq] at hmk
          exact Or.inl (by simp [← hmk])
        · simp at hm
      · split at hm
        · simp only [List.mem_singleton] at hm
          subst hm
          simp only [Option.some.injEq] at hmk
          exact Or.inl (by simp [← hmk])
        · simp at hm
      · split at hm
        · simp only [List.mem_singleton] at hm
          subst hm
          simp only [Option.some.injEq] at hmk
          exact Or.inl (by simp [← hmk])
        · simp at hm
      · split at hm
        · rename_i hflag
          refine Or.inr ⟨hflag, ?_⟩
          simp only [List.mem_append, extensionInsertions, parserInsertions, List.mem_map,
            List.mem_filter] at hm
          rcases hm with ⟨k, ⟨hk, hsel⟩, rfl⟩ | ⟨p, ⟨hp, hen⟩, rfl⟩
          · have hc := (extensionSelected_iff env _ tag k).mp hsel
            exact Or.inl ⟨k, hk, hmk, hc.2.1, hc.2.2.1, hc.2.2.2⟩
          · refine Or.inr ⟨p.2, ?_, hmk, hen⟩
            exact List.snd_mem_of_mem_enumFrom hp
        · simp at hm
  refine ⟨?_, ?_, hkeys, ?_⟩
  · intro k response hnot
    apply renderExtensionFieldMaybe_skip
    cases hs : extensionSelected env st tag k with
    | false => rfl
    | true => exact absurd ((extensionSelected_iff env st tag k).mp hs) hnot
  · intro k response r hr hne
    cases hs : extensionSelected env st tag k with
    | false =>
      rw [renderExtensionFieldMaybe_skip env st k tag response hs] at hr
      exact absurd (Option.some.inj hr).symm hne
    | true => exact (extensionSelected_iff env st tag k).mp hs
  · intro hflag response st1 hrun key hkey
    rcases hkeys response st1 hrun key hkey with h | ⟨h, _⟩
    · exact h
    · rw [hflag] at h
      exact absurd h (by decide)

theorem lineNumberToJsonInt_small (n : Nat) (h : n < 2 ^ 63) :
    lineNumberToJsonInt n = (n : Int) := by
  have h64 : n % 2 ^ 64 = n := Nat.mod_eq_of_lt (by omega)
  unfold lineNumberToJsonInt
  rw [h64, if_pos h]

/-- C17 (amended): for a field that the extension pass selects, `renderExtensionFieldMaybe`
sets the key of the line-number field to the integer to which the conversion of
`unsigned long` to `json_int_t` takes the line number of the record, which is the line
number itself when it is below `2 ^ 63`, and sets the key of the file-scope field to
`true`; neither the data type of the field nor the text that its renderer returns is
consulted. -/
theorem C17_bespoke_fields (env : Env) (st : FieldState) (tag : tagEntryInfo)
    (response : json_object) (k : Nat)
    (hsel : (env.getFieldName k).isSome = true ∧ env.doesFieldHaveRenderer k false = true
      ∧ isFieldEnabled st k = true ∧ env.doesFieldHaveValue k tag = true) :
    (k = env.FIELD_LINE_NUMBER →
      renderExtensionFieldMaybe env st k tag response
        = some (json_object_set_new response (env.getFieldName k)
            (some (json_t.jinteger (lineNumberToJsonInt tag.lineNumber)))))
    ∧ (k = env.FIELD_LINE_NUMBER → tag.lineNumber < 2 ^ 63 →
      renderExtensionFieldMaybe env st k tag response
        = some (json_object_set_new response (env.getFieldName k)
            (some (json_t.jinteger (tag.lineNumber : Int)))))
    ∧ (k = env.FIELD_FILE_SCOPE → k ≠ env.FIELD_LINE_NUMBER →
      renderExtensionFieldMaybe env st k tag response
        = some (json_object_set_new response (env.getFieldName k) (some json_t.jtrue))) := by
  have hline : k = env.FIELD_LINE_NUMBER →
      renderExtensionFieldMaybe env st k tag response
        = some (json_object_set_new response (env.getFieldName k)
            (some (json_t.jinteger (lineNumberToJsonInt tag.lineNumber)))) := by
    intro hk
    unfold renderExtensionFieldMaybe
    simp only
    rw [if_pos hsel, if_pos hk]
    rfl
  refine ⟨hline, ?_, ?_⟩
  · intro hk hsmall
    rw [hline hk, lineNumberToJsonInt_small _ hsmall]
  · intro hk hne
    unfold renderExtensionFieldMaybe
    simp only
    rw [if_pos hsel, if_neg hne, if_pos hk]
    rfl

/-- C17 fails as stated: the record whose line number is `2 ^ 63` gets the key `line`
with the integer `-9223372036854775808`, not with its line number. -/
theorem C17_bespoke_fields_counterexample :
    extensionSelected demoEnv (enabledOnly [8]) hugeLineTag demoEnv.FIELD_LINE_NUMBER = true
    ∧ hugeLineTag.lineNumber = 9223372036854775808
    ∧ renderExtensionFieldMaybe demoEnv (enabledOnly [8]) demoEnv.FIELD_LINE_NUMBER hugeLineTag
        [(ascii "_type", json_t.jstring (ascii "tag"))]
      = some [(ascii "_type", json_t.jstring (ascii "tag")),
          (ascii "line", json_t.jinteger (-9223372036854775808))]
    ∧ renderExtensionFieldMaybe demoEnv (enabledOnly [8]) demoEnv.FIELD_LINE_NUMBER hugeLineTag
        [(ascii "_type", json_t.jstring (ascii "tag"))]
      ≠ some [(ascii "_type", json_t.jstring (ascii "tag")),
          (ascii "line", json_t.jinteger (hugeLineTag.lineNumber : Int))]
    ∧ (writeJsonEntry demoEnv (enabledOnly [8]) [] hugeLineTag).map (fun r => r.2.1)
      = some (ascii "\x7b\"_type\": \"tag\", \"line\": -9223372036854775808\x7d\n") := by
  refine ⟨by decide, by decide, by decide, by decide, by decide⟩

/-- The amended C17 applies to the record `x` of line `3` with the fields `file` and
`line` enabled: `line` gets the integer `3`, and `file`, which is declared a boolean
field and whose rendered text is `-`, gets `true`. -/
theorem C17_bespoke_fields_witness :
    demoEnv.renderField demoEnv.FIELD_FILE_SCOPE demoTag demoEnv.NO_PARSER_FIELD
      = some (ascii "-")
    ∧ renderExtensionFieldMaybe demoEnv (enabledOnly [4, 8]) 8 demoTag []
      = some [(ascii "line", json_t.jinteger 3)]
    ∧ renderExtensionFieldMaybe demoEnv (enabledOnly [4, 8]) 4 demoTag []
      = some [(ascii "file", json_t.jtrue)]
    ∧ (writeJsonEntry demoEnv (enabledOnly [4, 8]) [] demoTag).map (fun r => r.2.1)
      = some (ascii "\x7b\"_type\": \"tag\", \"file\": true, \"line\": 3\x7d\n") :=
  ⟨by decide,
   (C17_bespoke_fields demoEnv (enabledOnly [4, 8]) demoTag [] 8 (by decide)).2.1 rfl
     (by decide),
   (C17_bespoke_fields demoEnv (enabledOnly [4, 8]) demoTag [] 4 (by decide)).2.2 rfl
     (by decide),
   by decide⟩

/-! ## Members of the assembled object -/

theorem setMember_keys_mono (object : json_object) (m : Option CStr × Option json_t)
    (k : CStr) (h : k ∈ objectKeys object) : k ∈ objectKeys (setMember object m) := by
  rcases objectKeys_setMember object m with heq | ⟨_, _, _, heq⟩
  · rw [heq]; exact h
  · rw [heq]; exact List.mem_append_left _ h

theorem foldl_setMember_keys_mono (ms : List (Option CStr × Option json_t))
    (object : json_object) (k : CStr) (h : k ∈ objectKeys object) :
    k ∈ objectKeys (ms.foldl setMember object) := by
  induction ms generalizing object with
  | nil => exact h
  | cons m ms ih => exact ih _ (setMember_keys_mono object m k h)

theorem hashtable_set_mem_self (object : json_object) (k : CStr) (v : json_t) :
    (k, v) ∈ hashtable_set object k v := by
  induction object with
  | nil => simp [hashtable_set]
  | cons m rest ih =>
    obtain ⟨k0, v0⟩ := m
    by_cases hk : k0 = k
    · simp [hashtable_set, hk]
    · simp only [hashtable_set, hk, if_false]
      exact List.mem_cons_of_mem _ ih

theorem hashtable_set_mem_other (object : json_object) (k key : CStr) (v value : json_t)
    (hne : key ≠ k) (h : (k, v) ∈ object) : (k, v) ∈ hashtable_set object key value := by
  induction object with
  | nil => simp at h
  | cons m rest ih =>
    obtain ⟨k0, v0⟩ := m
    by_cases hk : k0 = key
    · simp only [hashtable_set, hk, if_true]
      simp only [List.mem_cons, Prod.mk.injEq] at h
      rcases h with ⟨h1, _⟩ | h
      · exact absurd (hk.symm.trans h1.symm) hne
      · exact List.mem_cons_of_mem _ h
    · simp only [hashtable_set, hk, if_false]
      simp only [List.mem_cons] at h ⊢
      rcases h with h | h
      · exact Or.inl h
      · exact Or.inr (ih h)

theorem setMember_mem_self (object : json_object) (k : CStr) (v : json_t)
    (h8 : utf8_check_string k = true) : (k, v) ∈ setMember object (some k, some v) := by
  simp only [setMember, json_object_set_new, h8, if_true]
  exact hashtable_set_mem_self object k v

theorem setMember_mem_other (object : json_object) (m : Option CStr × Option json_t)
    (k : CStr) (v : json_t) (hne : m.1 ≠ some k) (h : (k, v) ∈ object) :
    (k, v) ∈ setMember object m := by
  obtain ⟨key, value⟩ := m
  cases key with
  | none => simpa [setMember, json_object_set_new] using h
  | some key =>
    cases value with
    | none => simpa [setMember, json_object_set_new] using h
    | some value =>
      have hk : key ≠ k := fun e => hne (by rw [e])
      simp only [setMember, json_object_set_new]
      split
      · exact hashtable_set_mem_other object k key v value hk h
      · exact h

theorem foldl_setMember_mem_other (ms : List (Option CStr × Option json_t))
    (object : json_object) (k : CStr) (v : json_t) (hne : ∀ m ∈ ms, m.1 ≠ some k)
    (h : (k, v) ∈ object) : (k, v) ∈ ms.foldl setMember object := by
  induction ms generalizing object with
  | nil => exact h
  | cons m ms ih =>
    exact ih _ (fun n hn => hne n (List.mem_cons_of_mem m hn))
      (setMember_mem_other object m k v (hne m (List.mem_cons_self m ms)) h)

theorem setMember_null (object : json_object) (key : Option CStr) :
    setMember object (key, none) = object := by
  cases key <;> rfl

theorem mem_objectKeys_of_mem (object : json_object) (k : CStr) (v : json_t)
    (h : (k, v) ∈ object) : k ∈ objectKeys object :=
  List.mem_map.mpr ⟨(k, v), h, rfl⟩

theorem extensionInsertions_name (env : Env) (st : FieldState) (tag : tagEntryInfo)
    (ks : List Nat) (key : CStr) (h : ∀ k ∈ ks, env.getFieldName k ≠ some key) :
    ∀ m ∈ extensionInsertions env st tag ks, m.1 ≠ some key := by
  intro m hm
  simp only [extensionInsertions, List.mem_map, List.mem_filter] at hm
  obtain ⟨k, ⟨hk, _⟩, rfl⟩ := hm
  exact h k hk

theorem parserInsertions_name (env : Env) (st : FieldState) (tag : tagEntryInfo)
    (fields : List tagField) (i : Nat) (key : CStr)
    (h : ∀ f ∈ fields, env.getFieldName f.ftype ≠ some key) :
    ∀ m ∈ parserInsertions env st tag fields i, m.1 ≠ some key := by
  intro m hm
  simp only [parserInsertions, List.mem_map, List.mem_filter] at hm
  obtain ⟨p, ⟨hp, _⟩, rfl⟩ := hm
  exact h p.2 (List.snd_mem_of_mem_enumFrom hp)

theorem two_keys_size (object : json_object) (a b : CStr) (hab : a ≠ b)
    (ha : a ∈ objectKeys object) (hb : b ∈ objectKeys object) :
    json_object_size object ≠ 1 := by
  intro h1
  match object, h1 with
  | [m], _ =>
    simp only [objectKeys, List.map_cons, List.map_nil, List.mem_singleton] at ha hb
    exact hab (ha.trans hb.symm)

theorem set_new_pattern (t v : json_t) :
    json_object_set_new [(ascii "_type", t)] (some (ascii "pattern")) (some v)
      = [(ascii "_type", t), (ascii "pattern", v)] := by
  have h1 : utf8_check_string (ascii "pattern") = true := by decide
  have h2 : ascii "_type" ≠ ascii "pattern" := by decide
  simp [json_object_set_new, h1, hashtable_set, h2]

/-! ## C11: the pattern field without text -/

/-- C11: for a record whose pattern field renders no text, `escapeFieldValue` returns
`false` with the policy flag on and NULL with the flag off; with `FIELD_PATTERN` enabled,
every object that `writeJsonEntry` assembles has the key `pattern`, its value is `false`
unless an identity of the extension scan or a parser field of the record has the display
name `pattern` too, and the object is written as a line; and when every other field is
disabled the line is `{"_type": "tag", "pattern": false}`. -/
theorem C11_pattern_absent (env : Env) (st : FieldState) (tag : tagEntryInfo)
    (hraw : escapeFieldValueRaw env tag env.FIELD_PATTERN env.NO_PARSER_FIELD = none)
    (hen : isFieldEnabled st env.FIELD_PATTERN = true) :
    escapeFieldValue env tag env.FIELD_PATTERN true = some (some json_t.jfalse)
    ∧ escapeFieldValue env tag env.FIELD_PATTERN false = some none
    ∧ (∀ response st1, writeJsonEntry_response env st tag = some (some response, st1) →
        ascii "pattern" ∈ objectKeys response
        ∧ ((∀ k ∈ extensionFieldRange env, env.getFieldName k ≠ some (ascii "pattern")) →
            (∀ f ∈ tag.parserFields, env.getFieldName f.ftype ≠ some (ascii "pattern")) →
            (ascii "pattern", json_t.jfalse) ∈ response)
        ∧ ∀ mio, writeJsonEntry env st mio tag
            = some (Int.ofNat ((json_dumps response).length + 1),
                mio ++ json_dumps response ++ [10], st1))
    ∧ (isFieldEnabled st env.FIELD_NAME = false →
        isFieldEnabled st env.FIELD_INPUT_FILE = false →
        isFieldEnabled st env.FIELD_KIND = false →
        isFieldEnabled st env.FIELD_KIND_LONG = false →
        isFieldEnabled st env.FIELD_SCOPE = false →
        (∀ k ∈ extensionFieldRange env, isFieldEnabled st k = false) →
        (∀ f ∈ tag.parserFields, isFieldEnabled st f.ftype = false) →
        ∀ mio, writeJsonEntry env st mio tag
          = some (35, mio ++ ascii "\x7b\"_type\": \"tag\", \"pattern\": false\x7d\n", st)) := by
  have htrue : escapeFieldValue env tag env.FIELD_PATTERN true = some (some json_t.jfalse) := by
    simp [escapeFieldValue, hraw]
  have hfalse : escapeFieldValue env tag env.FIELD_PATTERN false = some none := by
    simp [escapeFieldValue, hraw]
  refine ⟨htrue, hfalse, ?_, ?_⟩
  · intro response st1 hrun
    have heq := (writeJsonEntry_response_eq env st tag response st1 hrun).1
    have hsplit : entryInsertions env st tag
        = ((if isFieldEnabled st env.FIELD_NAME = true
            then [(some (ascii "name"), json_string tag.name)] else [])
          ++ (if isFieldEnabled st env.FIELD_INPUT_FILE = true
            then [(some (ascii "path"), json_string tag.sourceFileName)] else []))
          ++ (some (ascii "pattern"), some json_t.jfalse)
            :: (if env.includeExtensionFlags = true then
              extensionInsertions env (addExtensionFields_enable env st) tag
                (extensionFieldRange env)
              ++ parserInsertions env (addExtensionFields_enable env st) tag
                tag.parserFields 0
            else []) := by
      simp [entryInsertions, hen, htrue]
    rw [hsplit, List.foldl_append, List.foldl_cons] at heq
    have hmem0 : (ascii "pattern", json_t.jfalse) ∈ setMember
        (List.foldl setMember [(ascii "_type", json_t.jstring (ascii "tag"))]
          ((if isFieldEnabled st env.FIELD_NAME = true
            then [(some (ascii "name"), json_string tag.name)] else [])
          ++ (if isFieldEnabled st env.FIELD_INPUT_FILE = true
            then [(some (ascii "path"), json_string tag.sourceFileName)] else [])))
        (some (ascii "pattern"), some json_t.jfalse) :=
      setMember_mem_self _ _ _ (by decide)
    have hkey : ascii "pattern" ∈ objectKeys response := by
      rw [heq]
      exact foldl_setMember_keys_mono _ _ _ (mem_objectKeys_of_mem _ _ _ hmem0)
    have htype : ascii "_type" ∈ objectKeys response := by
      rw [heq, ← List.foldl_cons, ← List.foldl_append]
      exact foldl_setMember_keys_mono _ _ _ (by simp [objectKeys])
    refine ⟨hkey, ?_, ?_⟩
    · intro hscan hparser
      rw [heq]
      apply foldl_setMember_mem_other _ _ _ _ _ hmem0
      intro m hm
      split at hm
      · rcases List.mem_append.mp hm with hm | hm
        · exact extensionInsertions_name env _ tag _ _ hscan m hm
        · exact parserInsertions_name env _ tag _ _ _ hparser m hm
      · simp at hm
    · intro mio
      exact writeJsonEntry_of_response env st mio tag response st1 hrun
        (two_keys_size response _ _ (by decide) htype hkey)
  · intro hname hfile hkind hkindLong hscope hext hparser mio
    have hresp : writeJsonEntry_response env st tag
        = some (some [(ascii "_type", json_t.jstring (ascii "tag")),
                      (ascii "pattern", json_t.jfalse)], st) := by
      unfold writeJsonEntry_response
      rw [json_pack_type_tag]
      simp only [hname, hfile, hen, htrue, if_true, Option.map_some', set_new_pattern]
      cases hflag : env.includeExtensionFlags
      · simp [set_new_pattern]
      · simp [set_new_pattern, addExtensionFields,
          addExtensionFields_enable_off env st hkind hkindLong hscope,
          addExtensionFields_loop_off env st tag _ _ hext, addParserFields,
          addParserFields_loop_off env st tag _ _ _ hparser]
    have hline : json_dumps [(ascii "_type", json_t.jstring (ascii "tag")),
        (ascii "pattern", json_t.jfalse)] ++ [10]
          = ascii "\x7b\"_type\": \"tag\", \"pattern\": false\x7d\n" := by decide
    unfold writeJsonEntry
    rw [hresp, ← hline]
    simp [json_object_size, mio_printf]
    decide

/-- C11 at the record `x` under a registry whose pattern field renders no text, with
`FIELD_PATTERN` alone enabled: the line `{"_type": "tag", "pattern": false}` of 35 bytes
is written, where the registry that renders the pattern `/^x$/` gives a string. -/
theorem C11_pattern_absent_witness :
    writeJsonEntry noPatternEnv (enabledOnly [2]) [] demoTag
      = some (35, ascii "\x7b\"_type\": \"tag\", \"pattern\": false\x7d\n", enabledOnly [2])
    ∧ escapeFieldValue noPatternEnv demoTag 2 false = some none
    ∧ (writeJsonEntry demoEnv (enabledOnly [2]) [] demoTag).map (fun r => r.2.1)
      = some (ascii "\x7b\"_type\": \"tag\", \"pattern\": \"/^x$/\"\x7d\n") :=
  ⟨(C11_pattern_absent noPatternEnv (enabledOnly [2]) demoTag (by decide) (by decide)).2.2.2
      (by decide) (by decide) (by decide) (by decide) (by decide) (by decide) (by decide) [],
   (C11_pattern_absent noPatternEnv (enabledOnly [2]) demoTag (by decide) (by decide)).2.1,
   by decide⟩

theorem foldl_setMember_mem (ms : List (Option CStr × Option json_t)) (object : json_object)
    (k : CStr) (v : json_t) (h8 : utf8_check_string k = true)
    (hin : (some k, some v) ∈ ms)
    (hothers : ∀ m ∈ ms, m.1 = some k → m = (some k, some v)) :
    (k, v) ∈ ms.foldl setMember object := by
  induction ms generalizing object with
  | nil => simp at hin
  | cons m ms ih =>
    simp only [List.foldl_cons]
    by_cases hrest : (some k, some v) ∈ ms
    · exact ih _ hrest (fun n hn => hothers n (List.mem_cons_of_mem m hn))
    · have hm : m = (some k, some v) := by
        rcases List.mem_cons.mp hin with h | h
        · exact h.symm
        · exact absurd h hrest
      subst hm
      apply foldl_setMember_mem_other
      · intro n hn hname
        have := hothers n (List.mem_cons_of_mem _ hn) hname
        rw [this] at hn
        exact hrest hn
      · exact setMember_mem_self object k v h8

/-! ## C12: the legacy kind and scope fields -/

/-- C12 (amended): when extension fields are requested and `writeJsonEntry` assembles an
object (the record is not abandoned at the name): if a legacy kind field (`FIELD_KIND` or
`FIELD_KIND_LONG`) is enabled, `FIELD_KIND_KEY` is enabled afterwards, whether or not it
was enabled before; if `FIELD_SCOPE` is enabled, whether or not a legacy kind field is,
`FIELD_SCOPE_KEY` and `FIELD_SCOPE_KIND_LONG` are enabled afterwards; and if a legacy kind
field is enabled and `FIELD_KIND_KEY` is an identity of the extension scan that has a
display name, a renderer and a value for the record from which the JSON value `v` is
built, and no other identity of the scan and no parser field of the record has that
display name, the object holds `v` under the display name. -/
theorem C12_legacy_kind (env : Env) (st : FieldState) (tag : tagEntryInfo)
    (response : json_object) (st1 : FieldState)
    (hflag : env.includeExtensionFlags = true)
    (hrun : writeJsonEntry_response env st tag = some (some response, st1)) :
    (isFieldEnabled st env.FIELD_KIND = true ∨ isFieldEnabled st env.FIELD_KIND_LONG = true →
        isFieldEnabled st1 env.FIELD_KIND_KEY = true)
    ∧ (isFieldEnabled st env.FIELD_SCOPE = true →
        isFieldEnabled st1 env.FIELD_SCOPE_KEY = true
        ∧ isFieldEnabled st1 env.FIELD_SCOPE_KIND_LONG = true)
    ∧ (isFieldEnabled st env.FIELD_KIND = true ∨ isFieldEnabled st env.FIELD_KIND_LONG = true →
        ∀ (fname : CStr) (v : json_t),
        env.FIELD_KIND_KEY ∈ extensionFieldRange env →
        env.getFieldName env.FIELD_KIND_KEY = some fname →
        utf8_check_string fname = true →
        env.doesFieldHaveRenderer env.FIELD_KIND_KEY false = true →
        env.doesFieldHaveValue env.FIELD_KIND_KEY tag = true →
        extensionValue env tag env.FIELD_KIND_KEY = some v →
        (∀ k ∈ extensionFieldRange env, k ≠ env.FIELD_KIND_KEY →
          env.getFieldName k ≠ some fname) →
        (∀ f ∈ tag.parserFields, env.getFieldName f.ftype ≠ some fname) →
        (fname, v) ∈ response)
    ∧ ∀ mio, ∃ len out, writeJsonEntry env st mio tag = some (len, out, st1) := by
  obtain ⟨hresp, hst⟩ := writeJsonEntry_response_eq env st tag response st1 hrun
  rw [if_pos hflag] at hst
  have hkey : isFieldEnabled st env.FIELD_KIND = true
      ∨ isFieldEnabled st env.FIELD_KIND_LONG = true →
      isFieldEnabled st1 env.FIELD_KIND_KEY = true := by
    intro hlegacy
    rw [hst]
    exact addExtensionFields_enable_kind env st hlegacy
  refine ⟨hkey, ?_, ?_, ?_⟩
  · intro hscope
    rw [hst]
    exact addExtensionFields_enable_scope env st hscope
  · intro hlegacy fname v hrange hname hutf8 hrenderer hvalue hv hscan hparser
    rw [hresp]
    simp only [entryInsertions, if_pos hflag]
    rw [← List.append_assoc, List.foldl_append, List.foldl_append]
    apply foldl_setMember_mem_other
    · exact parserInsertions_name env _ tag _ _ _ hparser
    · have hsel : extensionSelected env (addExtensionFields_enable env st) tag
          env.FIELD_KIND_KEY = true := by
        rw [extensionSelected_iff]
        refine ⟨by rw [hname]; rfl, hrenderer, ?_, hvalue⟩
        rw [← hst]
        exact hkey hlegacy
      apply foldl_setMember_mem _ _ _ _ hutf8
      · simp only [extensionInsertions, List.mem_map, List.mem_filter]
        exact ⟨env.FIELD_KIND_KEY, ⟨hrange, hsel⟩, by rw [hname, hv]⟩
      · intro m hm hmname
        simp only [extensionInsertions, List.mem_map, List.mem_filter] at hm
        obtain ⟨k, ⟨hk, _⟩, rfl⟩ := hm
        have hkk : k = env.FIELD_KIND_KEY := by
          by_contra hne
          exact hscan k hk hne hmname
        rw [hkk, hname, hv]
  · intro mio
    unfold writeJsonEntry
    rw [hrun]
    simp only
    split
    · exact ⟨_, _, rfl⟩
    · exact ⟨_, _, rfl⟩

/-- C12 fails as stated: with the name, the legacy kind field (identity `6`) and the
legacy scope field (identity `9`) enabled and no successor enabled, the record `x` is
written without the key `kind`, and the successors (identities `11`, `17`, `18`) stay
disabled, when extension fields are not requested; and with extension fields requested,
the record whose name is the byte `0xFF` is abandoned before the propagation, so that the
successors stay disabled too. -/
theorem C12_legacy_kind_counterexample :
    isFieldEnabled (enabledOnly [0, 6, 9]) demoEnv.FIELD_KIND = true
    ∧ isFieldEnabled (enabledOnly [0, 6, 9]) demoEnv.FIELD_SCOPE = true
    ∧ isFieldEnabled (enabledOnly [0, 6, 9]) demoEnv.FIELD_KIND_KEY = false
    ∧ flagOffEnv.doesFieldHaveValue flagOffEnv.FIELD_KIND_KEY demoTag = true
    ∧ (writeJsonEntry flagOffEnv (enabledOnly [0, 6, 9]) [] demoTag).map
        (fun r => (r.1, r.2.1, isFieldEnabled r.2.2 11, isFieldEnabled r.2.2 17,
          isFieldEnabled r.2.2 18))
      = some (30, ascii "\x7b\"_type\": \"tag\", \"name\": \"x\"\x7d\n", false, false, false)
    ∧ (writeJsonEntry demoEnv (enabledOnly [0, 6, 9]) [] badNameTag).map
        (fun r => (r.1, r.2.1, isFieldEnabled r.2.2 11, isFieldEnabled r.2.2 17,
          isFieldEnabled r.2.2 18))
      = some (0, [], false, false, false) := by
  refine ⟨by decide, by decide, by decide, by decide, by decide, by decide⟩

/-- The amended C12 at the record `x`: with the name and the legacy kind field enabled,
the object holds `"kind": "function"` and identity `11` is enabled afterwards; with the
name and the legacy scope field alone enabled, identities `17` and `18` are enabled
afterwards and identity `11` is not. -/
theorem C12_legacy_kind_witness :
    (isFieldEnabled (addExtensionFields_enable demoEnv (enabledOnly [0, 6]))
        demoEnv.FIELD_KIND_KEY = true
      ∧ (ascii "kind", json_t.jstring (ascii "function"))
        ∈ [(ascii "_type", json_t.jstring (ascii "tag")),
            (ascii "name", json_t.jstring (ascii "x")),
            (ascii "kind", json_t.jstring (ascii "function"))])
    ∧ (isFieldEnabled (enabledOnly [0, 9]) demoEnv.FIELD_KIND = false
      ∧ isFieldEnabled (enabledOnly [0, 9]) demoEnv.FIELD_KIND_LONG = false
      ∧ isFieldEnabled (enabledOnly [0, 9]) demoEnv.FIELD_SCOPE_KEY = false
      ∧ isFieldEnabled (enabledOnly [0, 9]) demoEnv.FIELD_SCOPE_KIND_LONG = false
      ∧ isFieldEnabled (addExtensionFields_enable demoEnv (enabledOnly [0, 9]))
          demoEnv.FIELD_KIND_KEY = false)
    ∧ (isFieldEnabled (addExtensionFields_enable demoEnv (enabledOnly [0, 9]))
        demoEnv.FIELD_SCOPE_KEY = true
      ∧ isFieldEnabled (addExtensionFields_enable demoEnv (enabledOnly [0, 9]))
        demoEnv.FIELD_SCOPE_KIND_LONG = true)
    ∧ (writeJsonEntry demoEnv (enabledOnly [0, 6]) [] demoTag).map (fun r => r.2.1)
      = some (ascii "\x7b\"_type\": \"tag\", \"name\": \"x\", \"kind\": \"function\"\x7d\n")
    ∧ (writeJsonEntry demoEnv (enabledOnly [0, 9]) [] demoTag).map (fun r => r.2.1)
      = some (ascii ("\x7b\"_type\": \"tag\", \"name\": \"x\", \"scope\": \"-\", "
          ++ "\"scopeKind\": \"-\"\x7d\n")) :=
  ⟨⟨(C12_legacy_kind demoEnv (enabledOnly [0, 6]) demoTag
        [(ascii "_type", json_t.jstring (ascii "tag")),
          (ascii "name", json_t.jstring (ascii "x")),
          (ascii "kind", json_t.jstring (ascii "function"))]
        (addExtensionFields_enable demoEnv (enabledOnly [0, 6])) rfl rfl).1
        (Or.inl (by decide)),
      (C12_legacy_kind demoEnv (enabledOnly [0, 6]) demoTag
        [(ascii "_type", json_t.jstring (ascii "tag")),
          (ascii "name", json_t.jstring (ascii "x")),
          (ascii "kind", json_t.jstring (ascii "function"))]
        (addExtensionFields_enable demoEnv (enabledOnly [0, 6])) rfl rfl).2.2.1
        (Or.inl (by decide)) (ascii "kind") (json_t.jstring (ascii "function"))
        (by decide) rfl (by decide) rfl rfl rfl (by decide) (by decide)⟩,
   ⟨by decide, by decide, by decide, by decide, by decide⟩,
   (C12_legacy_kind demoEnv (enabledOnly [0, 9]) demoTag
      [(ascii "_type", json_t.jstring (ascii "tag")),
        (ascii "name", json_t.jstring (ascii "x")),
        (ascii "scope", json_t.jstring (ascii "-")),
        (ascii "scopeKind", json_t.jstring (ascii "-"))]
      (addExtensionFields_enable demoEnv (enabledOnly [0, 9])) rfl rfl).2.1 (by decide),
   by decide, by decide⟩

/-! ## C14: a string value other than the name that cannot be built -/

theorem foldl_setMember_filter (ms : List (Option CStr × Option json_t))
    (object : json_object) :
    ms.foldl setMember object
      = (ms.filter (fun m => m.2.isSome)).foldl setMember object := by
  induction ms generalizing object with
  | nil => rfl
  | cons m ms ih =>
    obtain ⟨key, value⟩ := m
    cases value with
    | none =>
      simp only [List.foldl_cons, setMember_null, Option.isSome_none, Bool.false_eq_true,
        not_false_eq_true, List.filter_cons_of_neg]
      exact ih object
    | some v =>
      simp only [List.foldl_cons, Option.isSome_some, List.filter_cons_of_pos]
      exact ih _

theorem writeJsonEntry_response_name (env : Env) (st : FieldState) (tag : tagEntryInfo)
    (response : json_object) (st1 : FieldState)
    (hname : isFieldEnabled st env.FIELD_NAME = true)
    (hrun : writeJsonEntry_response env st tag = some (some response, st1)) :
    json_string tag.name = some (json_t.jstring tag.name) := by
  cases hjs : json_string tag.name with
  | none =>
    have habort : writeJsonEntry_response env st tag = some (none, st) := by
      unfold writeJsonEntry_response
      rw [json_pack_type_tag]
      simp [hname, hjs]
    rw [habort] at hrun
    simp at hrun
  | some v =>
    unfold json_string at hjs
    split at hjs
    · simp only [Option.some.injEq] at hjs
      rw [hjs]
    · simp at hjs

/-- With `FIELD_NAME` enabled, a name of which `json_string` cannot build the value makes
`writeJsonEntry` write nothing and return `0`; a failure for any other attribute does
not: every object that is assembled is the result of setting the members whose value
could be built, the others being left out, it holds the key `name` and is written as a
line; in particular, when the value of the source path cannot be built and no identity
of the extension scan and no parser field of the record has the display name `path`, the
line is written without the key `path`. -/
theorem writeJsonEntry_value_failure (env : Env) (st : FieldState) (tag : tagEntryInfo)
    (hname : isFieldEnabled st env.FIELD_NAME = true) :
    (json_string tag.name = none → ∀ mio, writeJsonEntry env st mio tag = some (0, mio, st))
    ∧ (∀ response st1, writeJsonEntry_response env st tag = some (some response, st1) →
        response = ((entryInsertions env st tag).filter (fun m => m.2.isSome)).foldl setMember
            [(ascii "_type", json_t.jstring (ascii "tag"))]
        ∧ ascii "name" ∈ objectKeys response
        ∧ (∀ mio, writeJsonEntry env st mio tag
            = some (Int.ofNat ((json_dumps response).length + 1),
                mio ++ json_dumps response ++ [10], st1))
        ∧ (json_string tag.sourceFileName = none →
            (∀ k ∈ extensionFieldRange env, env.getFieldName k ≠ some (ascii "path")) →
            (∀ f ∈ tag.parserFields, env.getFieldName f.ftype ≠ some (ascii "path")) →
            ascii "path" ∉ objectKeys response)) := by
  constructor
  · intro hfail mio
    have hrun : writeJsonEntry_response env st tag = some (none, st) := by
      unfold writeJsonEntry_response
      rw [json_pack_type_tag]
      simp [hname, hfail]
    unfold writeJsonEntry
    rw [hrun]
  · intro response st1 hrun
    have hjs := writeJsonEntry_response_name env st tag response st1 hname hrun
    have heq := (writeJsonEntry_response_eq env st tag response st1 hrun).1
    have hfilter : response
        = ((entryInsertions env st tag).filter (fun m => m.2.isSome)).foldl setMember
            [(ascii "_type", json_t.jstring (ascii "tag"))] := by
      rw [← foldl_setMember_filter]
      exact heq
    have hsplit : entryInsertions env st tag
        = (some (ascii "name"), some (json_t.jstring tag.name))
          :: ((if isFieldEnabled st env.FIELD_INPUT_FILE = true
            then [(some (ascii "path"), json_string tag.sourceFileName)] else [])
          ++ (if isFieldEnabled st env.FIELD_PATTERN = true
            then [(some (ascii "pattern"),
              (escapeFieldValue env tag env.FIELD_PATTERN true).join)]
            else [])
          ++ (if env.includeExtensionFlags = true then
            extensionInsertions env (addExtensionFields_enable env st) tag
              (extensionFieldRange env)
            ++ parserInsertions env (addExtensionFields_enable env st) tag
              tag.parserFields 0
          else [])) := by
      simp [entryInsertions, hname, hjs]
    have hnamekey : ascii "name" ∈ objectKeys response := by
      rw [heq, hsplit, List.foldl_cons]
      apply foldl_setMember_keys_mono
      exact mem_objectKeys_of_mem _ _ (json_t.jstring tag.name)
        (setMember_mem_self _ _ _ (by decide))
    have htype : ascii "_type" ∈ objectKeys response := by
      rw [heq]
      exact foldl_setMember_keys_mono _ _ _ (by simp [objectKeys])
    refine ⟨hfilter, hnamekey, ?_, ?_⟩
    · intro mio
      exact writeJsonEntry_of_response env st mio tag response st1 hrun
        (two_keys_size response _ _ (by decide) htype hnamekey)
    · intro hpath hscan hparser hmem
      rw [hfilter] at hmem
      have hsub := (objectKeys_foldl_sublist _ _).subset hmem
      simp only [objectKeys, List.map_cons, List.map_nil, List.singleton_append, List.mem_cons,
        List.mem_filterMap, List.mem_filter] at hsub
      rcases hsub with h | ⟨m, ⟨hm, hsome⟩, hmk⟩
      · revert h; decide
      · rw [hsplit] at hm
        simp only [List.mem_cons, List.mem_append] at hm
        rcases hm with hm | (hm | hm) | hm
        · subst hm
          simp only [Option.some.injEq] at hmk
          revert hmk; decide
        · split at hm
          · simp only [List.mem_singleton] at hm
            subst hm
            rw [hpath] at hsome
            simp at hsome
          · simp at hm
        · split at hm
          · simp only [List.mem_singleton] at hm
            subst hm
            simp only [Option.some.injEq] at hmk
            revert hmk; decide
          · simp at hm
        · split at hm
          · rcases List.mem_append.mp hm with hm | hm
            · exact extensionInsertions_name env _ tag _ _ hscan m hm hmk
            · exact parserInsertions_name env _ tag _ _ _ hparser m hm hmk
          · simp at hm

/-- C14, the failing input: with the name and the input file enabled, the record `main`
of the source file `caf\xE9.c` (a file name in Latin-1, of which `json_string` cannot
build the value) is not dropped: the line `{"_type": "tag", "name": "main"}` is written,
without the key `path`, and `33` is returned, whereas the record whose name is the byte
`0xFF` is dropped under the same field state; likewise, with the input file and the
string field `typeref` (identity `10`) enabled, the record whose `typeref` text is the
byte `0xFF` is written with the key `path` only.  In every registry, whenever the name
and the input file are enabled, the value of the source path cannot be built and an
object is assembled, the line is written, and it is without the key `path` unless an
identity of the extension scan or a parser field of the record has the display name
`path`. -/
theorem C14_string_failure :
    (json_string latin1FileTag.sourceFileName = none
      ∧ (writeJsonEntry demoEnv (enabledOnly [0, 1]) [] latin1FileTag).map
          (fun r => (r.1, r.2.1))
        = some (33, ascii "\x7b\"_type\": \"tag\", \"name\": \"main\"\x7d\n")
      ∧ (writeJsonEntry demoEnv (enabledOnly [0, 1]) [] badNameTag).map
          (fun r => (r.1, r.2.1))
        = some (0, []))
    ∧ (escapeFieldValue demoEnv badNameTag 10 false = some none
      ∧ (writeJsonEntry demoEnv (enabledOnly [1, 10]) [] badNameTag).map
          (fun r => (r.1, r.2.1))
        = some (32, ascii "\x7b\"_type\": \"tag\", \"path\": \"a.c\"\x7d\n"))
    ∧ (∀ env st tag response st1,
      isFieldEnabled st env.FIELD_NAME = true →
      isFieldEnabled st env.FIELD_INPUT_FILE = true →
      json_string tag.sourceFileName = none →
      writeJsonEntry_response env st tag = some (some response, st1) →
      (∀ mio, writeJsonEntry env st mio tag
          = some (Int.ofNat ((json_dumps response).length + 1),
              mio ++ json_dumps response ++ [10], st1))
      ∧ ((∀ k ∈ extensionFieldRange env, env.getFieldName k ≠ some (ascii "path")) →
          (∀ f ∈ tag.parserFields, env.getFieldName f.ftype ≠ some (ascii "path")) →
          ascii "path" ∉ objectKeys response)) := by
  refine ⟨⟨by decide, by decide, by decide⟩, ⟨by decide, by decide⟩, ?_⟩
  intro env st tag response st1 hname _ hpath hrun
  have h := (writeJsonEntry_value_failure env st tag hname).2 response st1 hrun
  exact ⟨h.2.2.1, h.2.2.2 hpath⟩

/-! ## C15: serialising a record twice -/

theorem writeJsonEntry_response_congr (env : Env) (st st2 : FieldState) (tag : tagEntryInfo)
    (hflag : env.includeExtensionFlags = true)
    (hn : isFieldEnabled st2 env.FIELD_NAME = isFieldEnabled st env.FIELD_NAME)
    (hf : isFieldEnabled st2 env.FIELD_INPUT_FILE = isFieldEnabled st env.FIELD_INPUT_FILE)
    (hp : isFieldEnabled st2 env.FIELD_PATTERN = isFieldEnabled st env.FIELD_PATTERN)
    (he : addExtensionFields_enable env st2 = addExtensionFields_enable env st)
    (response : json_object) (st1 : FieldState)
    (hrun : writeJsonEntry_response env st tag = some (some response, st1)) :
    writeJsonEntry_response env st2 tag = some (some response, st1) := by
  unfold writeJsonEntry_response addExtensionFields at hrun ⊢
  rw [json_pack_type_tag] at hrun ⊢
  simp only [hn, hf, hp, he, hflag, if_true] at hrun ⊢
  split at hrun
  · simp at hrun
  · exact hrun

theorem writeJsonEntry_twice (env : Env) (st : FieldState) (mio : MIO) (tag : tagEntryInfo)
    (len : Int) (out : MIO) (st1 : FieldState)
    (hbasic : ∀ b ∈ [env.FIELD_NAME, env.FIELD_INPUT_FILE, env.FIELD_PATTERN],
      b ∉ [env.FIELD_KIND_KEY, env.FIELD_SCOPE_KEY, env.FIELD_SCOPE_KIND_LONG])
    (hlegacy : ∀ l ∈ [env.FIELD_KIND, env.FIELD_KIND_LONG],
      l ∉ [env.FIELD_SCOPE_KEY, env.FIELD_SCOPE_KIND_LONG])
    (h : writeJsonEntry env st mio tag = some (len, out, st1)) :
    ∃ line, out = mio ++ line ∧ len = (line.length : Int)
      ∧ ∀ mio2, writeJsonEntry env st mio2 tag = some (len, mio2 ++ line, st1)
        ∧ writeJsonEntry env st1 mio2 tag = some (len, mio2 ++ line, st1) := by
  have hsame : ∀ b ∈ [env.FIELD_NAME, env.FIELD_INPUT_FILE, env.FIELD_PATTERN],
      isFieldEnabled (addExtensionFields_enable env st) b = isFieldEnabled st b := by
    intro b hb
    have hnot := hbasic b hb
    simp only [List.mem_cons, List.mem_singleton, List.not_mem_nil, or_false, not_or] at hnot
    exact addExtensionFields_enable_other env st b hnot.1 hnot.2.1 hnot.2.2
  unfold writeJsonEntry at h
  split at h
  · simp at h
  · rename_i s hrun
    have hs := writeJsonEntry_response_aborted env st tag s hrun
    simp only [Option.some.injEq, Prod.mk.injEq] at h
    obtain ⟨hlen, hout, hst⟩ := h
    subst hs
    subst hst
    refine ⟨[], by simp [← hout], by simp [← hlen], ?_⟩
    intro mio2
    have : writeJsonEntry env s mio2 tag = some (len, mio2 ++ [], s) := by
      unfold writeJsonEntry
      rw [hrun, ← hlen]
      simp
    exact ⟨this, this⟩
  · rename_i response s hrun
    have hst2 := (writeJsonEntry_response_eq env st tag response s hrun).2
    have hrun2 : writeJsonEntry_response env s tag = some (some response, s) := by
      by_cases hflag : env.includeExtensionFlags = true
      · rw [if_pos hflag] at hst2
        apply writeJsonEntry_response_congr env st s tag hflag _ _ _ _ response s hrun
        · rw [hst2]; exact hsame _ (by simp)
        · rw [hst2]; exact hsame _ (by simp)
        · rw [hst2]; exact hsame _ (by simp)
        · rw [hst2]; exact addExtensionFields_enable_idem env st hlegacy
      · rw [if_neg hflag] at hst2
        rw [hst2]
        rw [hst2] at hrun
        exact hrun
    by_cases hsize : json_object_size response = 1
    · rw [if_pos hsize] at h
      simp only [Option.some.injEq, Prod.mk.injEq] at h
      obtain ⟨hlen, hout, hst⟩ := h
      subst hst
      refine ⟨[], by simp [← hout], by simp [← hlen], ?_⟩
      intro mio2
      constructor
      · unfold writeJsonEntry
        rw [hrun]
        simp [hsize, ← hlen]
      · unfold writeJsonEntry
        rw [hrun2]
        simp [hsize, ← hlen]
    · rw [if_neg hsize] at h
      simp only [mio_printf, Option.some.injEq, Prod.mk.injEq] at h
      obtain ⟨hlen, hout, hst⟩ := h
      subst hst
      refine ⟨json_dumps response ++ [10], by simp [← hout], by simp [← hlen], ?_⟩
      intro mio2
      constructor
      · rw [writeJsonEntry_of_response env st mio2 tag response s hrun hsize, ← hlen]
        simp
      · rw [writeJsonEntry_of_response env s mio2 tag response s hrun2 hsize, ← hlen]
        simp

/-- C15: in a registry in which the fields `FIELD_NAME`, `FIELD_INPUT_FILE` and
`FIELD_PATTERN` are not among the successor fields that the propagation enables, and the
legacy kind fields are not among the scope successors, whenever `writeJsonEntry` returns
for a record, it has appended one text `line` (empty if nothing is written) to the
stream; called again on the same field state it appends the same `line` to whatever
stream it is given and returns the same length and field state; and called on the field
state that the first call left, it again appends the same `line`, returns the same
length and leaves that field state as it is.  The call returns whenever every data type
has the STRING, the INTEGER or the BOOL bit and every parser field of the record renders
a text. -/
theorem C15_twice (env : Env) (st : FieldState) (mio : MIO) (tag : tagEntryInfo)
    (hbasic : ∀ b ∈ [env.FIELD_NAME, env.FIELD_INPUT_FILE, env.FIELD_PATTERN],
      b ∉ [env.FIELD_KIND_KEY, env.FIELD_SCOPE_KEY, env.FIELD_SCOPE_KIND_LONG])
    (hlegacy : ∀ l ∈ [env.FIELD_KIND, env.FIELD_KIND_LONG],
      l ∉ [env.FIELD_SCOPE_KEY, env.FIELD_SCOPE_KIND_LONG]) :
    (∀ len out st1, writeJsonEntry env st mio tag = some (len, out, st1) →
      ∃ line, out = mio ++ line ∧ len = (line.length : Int)
        ∧ ∀ mio2, writeJsonEntry env st mio2 tag = some (len, mio2 ++ line, st1)
          ∧ writeJsonEntry env st1 mio2 tag = some (len, mio2 ++ line, st1))
    ∧ ((∀ k, fieldClassified env k) →
      (∀ f ∈ tag.parserFields, ∀ i : Nat,
        (escapeFieldValueRaw env tag f.ftype i).isSome = true) →
      ∃ len out st1, writeJsonEntry env st mio tag = some (len, out, st1)) := by
  constructor
  · intro len out st1 h
    exact writeJsonEntry_twice env st mio tag len out st1 hbasic hlegacy h
  · intro hclass hraw
    obtain ⟨⟨len, out, st1⟩, hr⟩ := writeJsonEntry_defined env st mio tag hclass hraw
    exact ⟨len, out, st1, hr⟩

/-- C15 on the record `main` under `richState`, in which the legacy kind field is enabled
and its successor is not: the first call leaves a field state in which the successor
(identity `11`) is enabled, and the call on that state writes the same line. -/
theorem C15_twice_witness :
    richState 11 = false
    ∧ addExtensionFields_enable demoEnv richState 11 = true
    ∧ ∃ line, json_dumps richResponse ++ [10] = [] ++ line
      ∧ Int.ofNat ((json_dumps richResponse).length + 1) = (line.length : Int)
      ∧ ∀ mio2, writeJsonEntry demoEnv richState mio2 richTag
          = some (Int.ofNat ((json_dumps richResponse).length + 1), mio2 ++ line,
              addExtensionFields_enable demoEnv richState)
        ∧ writeJsonEntry demoEnv (addExtensionFields_enable demoEnv richState) mio2 richTag
          = some (Int.ofNat ((json_dumps richResponse).length + 1), mio2 ++ line,
              addExtensionFields_enable demoEnv richState) :=
  ⟨by decide, by decide,
   (C15_twice demoEnv richState [] richTag (by decide) (by decide)).1 _ _ _
    (writeJsonEntry_of_response demoEnv richState [] richTag richResponse _
      richResponse_run (by decide))⟩

end WriterJson
